import Mathlib

/-!
# Installation core of the update agent: a shallow embedding

The development embeds `installer.c`, `parsing_library_libjson.c` and
`parsing_library_libconfig.c` as Lean functions and proves properties of them.

Conventions of the embedding:

* a C string is the list of its characters (one `Char` per `char`, the
  terminating NUL left out), so `strlen` is `List.length` and `strcmp(a, b) == 0`
  is `a = b`;
* an `unsigned int` is a `Nat` reduced modulo `2 ^ 32` where the code converts
  or decrements it;
* a function that writes through pointers returns the written objects next to
  its C return value;
* a `LIST_FOREACH` loop is a recursive function over the remaining elements,
  carrying the loop's local variables.
-/

namespace Installer

/-- A C string: the characters before the terminating NUL. -/
abbrev CStr := List Char

/-! ## Constants taken from headers -/

/-- Value of `EINVAL` in `errno.h`. -/
def EINVAL : Int := 22

/-- Value of `EBADF` in `errno.h`. -/
def EBADF : Int := 9

/-- Value of `EACCES` in `errno.h`. -/
def EACCES : Int := 13

/-- Result `COPY_FILE` of `swupdate_file_t`: "0 = do not skip the file, it must
be installed" in the comment above `check_if_required`. -/
def COPY_FILE : Int := 0

/-- Result `SKIP_FILE` of `swupdate_file_t`: "1 = skip the file". -/
def SKIP_FILE : Int := 1

/-- Result `INSTALL_FROM_STREAM` of `swupdate_file_t`: "2 = install directly
(stream to the handler)". -/
def INSTALL_FROM_STREAM : Int := 2

/-! ## Data model -/

/-- The component identity `img->id` (name and version). -/
structure img_id where
  name : CStr
  version : CStr
deriving DecidableEq, Repr

/-- The fields of `struct img_type` that the installer reads or writes. -/
structure img_type where
  id : img_id
  type : CStr
  fname : CStr
  path : CStr
  extract_file : CStr
  size : Nat
  provided : Bool
  install_directly : Bool
  is_script : Bool
deriving DecidableEq, Repr

/-- The fields of `struct filehdr` read by `check_if_required`. -/
structure filehdr where
  filename : CStr
  size : Nat
deriving DecidableEq, Repr

/-- The conversion `(unsigned int)x`. -/
def to_uint (x : Nat) : Nat := x % 2 ^ 32

/-- The call `snprintf(buf, size, "%s%s", a, b)` with `s = a ++ b`: the new
content of `buf` (at most `size - 1` characters are stored, nothing when `size`
is zero) and the returned length of the untruncated text. -/
def snprintf (buf : CStr) (size : Nat) (s : CStr) : CStr × Nat :=
  (if size = 0 then buf else s.take (size - 1), s.length)

/-! ## `check_if_required` -/

/-- The `ERROR` diagnostics of `check_if_required`, one for each of its three
failing `return` statements, named as in the error taxonomy of the
specification. -/
inductive check_error where
  | SizeMismatch
  | PathTooLong
  | AmbiguousStream
deriving DecidableEq, Repr

/-- What `check_if_required` leaves behind: its return value, the image list,
`*pimg` (the position in the list of the image pointed to) and the `ERROR`
diagnostic it logged, if any. -/
structure check_result where
  ret : Int
  list : List img_type
  pimg : Option Nat
  err : Option check_error
deriving DecidableEq, Repr

/-- The `LIST_FOREACH` loop of `check_if_required` from the element at position
`idx` on; `skip`, `install_direct` and `pimg` are the loop-carried variables and
`cap` is `sizeof(img->extract_file)`. The returned list is the remaining part of
the image list after the loop. -/
def check_loop (cap : Nat) (pfdh : filehdr) (destdir : CStr) :
    List img_type → Nat → Int → Nat → Option Nat → check_result
  | [], _, skip, _, pimg => ⟨skip, [], pimg, none⟩
  | img :: rest, idx, skip, install_direct, pimg =>
    if pfdh.filename = img.fname then
      -- skip = COPY_FILE; img->provided = 1;
      let img1 := { img with provided := true }
      if img1.size ≠ 0 ∧ img1.size ≠ to_uint pfdh.size then
        ⟨-EINVAL, img1 :: rest, pimg, some .SizeMismatch⟩
      else
        let img2 := { img1 with size := to_uint pfdh.size }
        let w := snprintf img2.extract_file cap (destdir ++ pfdh.filename)
        let img3 := { img2 with extract_file := w.1 }
        if w.2 ≥ cap then
          ⟨-EBADF, img3 :: rest, pimg, some .PathTooLong⟩
        else if install_direct ≠ 0 then
          ⟨-EINVAL, img3 :: rest, pimg, some .AmbiguousStream⟩
        else
          let r :=
            if img3.install_directly then
              check_loop cap pfdh destdir rest (idx + 1) INSTALL_FROM_STREAM
                (install_direct + 1) (some idx)
            else
              check_loop cap pfdh destdir rest (idx + 1) COPY_FILE install_direct (some idx)
          ⟨r.ret, img3 :: r.list, r.pimg, r.err⟩
    else
      let r := check_loop cap pfdh destdir rest (idx + 1) skip install_direct pimg
      ⟨r.ret, img :: r.list, r.pimg, r.err⟩

/-- The function `check_if_required(list, pfdh, destdir, pimg)`; `pimg` is the
value `*pimg` holds before the call. -/
def check_if_required (cap : Nat) (list : List img_type) (pfdh : filehdr) (destdir : CStr)
    (pimg : Option Nat) : check_result :=
  check_loop cap pfdh destdir list 0 SKIP_FILE 0 pimg

/-- The image `img` after a completed visit of the loop body for a matching
entry: `provided` set, the observed size adopted, the staging path stored. -/
def staged (pfdh : filehdr) (destdir : CStr) (img : img_type) : img_type :=
  { img with provided := true, size := to_uint pfdh.size,
             extract_file := destdir ++ pfdh.filename }

/-- One completed pass of the loop body over `img`: a matching entry is staged,
an entry with another filename is left as it is. -/
def visit (pfdh : filehdr) (destdir : CStr) (img : img_type) : img_type :=
  if pfdh.filename = img.fname then staged pfdh destdir img else img

/-- The image `img` when the loop returns at its size check: only `provided`
has been written. -/
def marked (img : img_type) : img_type :=
  { img with provided := true }

/-- The image `img` when the loop returns at its path check: `provided` and the
size are written and the staging buffer holds what `snprintf` stored. -/
def overflowed (cap : Nat) (pfdh : filehdr) (destdir : CStr) (img : img_type) : img_type :=
  { img with provided := true, size := to_uint pfdh.size,
             extract_file := (snprintf img.extract_file cap (destdir ++ pfdh.filename)).1 }

/-- An image entry with the given package filename, declared size and
`install_directly` flag, every other field empty. -/
def mk_img (fname : CStr) (size : Nat) (direct : Bool) : img_type :=
  ⟨⟨[], []⟩, [], fname, [], [], size, false, direct, false⟩

/-- The error outcomes of the loop: each diagnostic with its return code. -/
def is_failure (r : check_result) : Prop :=
  (r.err = some .SizeMismatch ∧ r.ret = -EINVAL) ∨
  (r.err = some .PathTooLong ∧ r.ret = -EBADF) ∨
  (r.err = some .AmbiguousStream ∧ r.ret = -EINVAL)

/-! ## Descriptor tree, JSON backend (`parsing_library_libjson.c`) -/

/-- The `json_type` enumeration of json-c. -/
inductive json_type where
  | json_type_null
  | json_type_boolean
  | json_type_double
  | json_type_int
  | json_type_object
  | json_type_array
  | json_type_string
deriving DecidableEq, Repr

/-- A `json_object *` of json-c. The library represents the JSON value `null`
by the `NULL` pointer, which is the constructor `null` here; a `double` carries
its bit pattern. -/
inductive json_object where
  | null
  | boolean (b : Bool)
  | double (bits : Nat)
  | int (i : Int)
  | string (s : CStr)
  | array (elems : List json_object)
  | object (members : List (CStr × json_object))

/-- The test `if (node)` on a `json_object *`. -/
def json_object.is_set : json_object → Bool
  | .null => false
  | _ => true

/-- The library function `json_object_get_type`. -/
def json_object_get_type : json_object → json_type
  | .null => .json_type_null
  | .boolean _ => .json_type_boolean
  | .double _ => .json_type_double
  | .int _ => .json_type_int
  | .string _ => .json_type_string
  | .array _ => .json_type_array
  | .object _ => .json_type_object

/-- The library function `json_object_object_get_ex(obj, key, &value)`: whether
`obj` is an object with a member `key`, and that member (`NULL` otherwise). -/
def json_object_object_get_ex (obj : json_object) (key : CStr) : Bool × json_object :=
  match obj with
  | .object members =>
    match members.find? (fun m => m.1 = key) with
    | some m => (true, m.2)
    | none => (false, .null)
  | _ => (false, .null)

/-- The library function `json_object_get_string` on a node of type string
(the only use in the code embedded here). -/
def json_object_get_string : json_object → Option CStr
  | .string s => some s
  | _ => none

/-- The function `find_json_recursive_node(root, names)`. -/
def find_json_recursive_node : json_object → List CStr → json_object
  | node, [] => node
  | node, n :: names =>
    let r := json_object_object_get_ex node n
    if r.1 then find_json_recursive_node r.2 names else .null

/-- The function `get_field_string_json(e, path)`; `path` may be `NULL`. -/
def get_field_string_json (e : json_object) (path : Option CStr) : Option CStr :=
  let found : Bool × json_object :=
    match path with
    | some p => json_object_object_get_ex e p
    | none => (true, e)
  if !found.1 then none
  else if json_object_get_type found.2 = .json_type_string then
    json_object_get_string found.2
  else none

/-- The function `get_node_json(root, nodes)`. -/
def get_node_json (root : json_object) (nodes : List CStr) : json_object :=
  find_json_recursive_node root nodes

/-- The value of `--depth` for an `unsigned int`: the decrement modulo
`2 ^ 32 = 4294967296`. -/
def pre_decrement (depth : Nat) : Nat := (depth + 4294967295) % 4294967296

/-- The name `"ref"` of the field that makes a node an alias. -/
def ref_field : CStr := "ref".toList

/-- What a call of `find_root` leaves behind: the returned node, the path array
`nodes` as the call left it, and the number of path resolutions
(`find_json_recursive_node` or `config_lookup` calls) it made. -/
structure root_result (α : Type) where
  node : α
  nodes : List CStr
  lookups : Nat

/-- The function `find_root_json(root, nodes, depth)` from its test
`if (!(--depth))` on, given the value `d` of `depth` after the decrement. The
recursive call passes that value, which the callee decrements again: a non-zero
`d + 1` becomes `d`, without wrap-around. The helper `set_find_path(nodes,
str)`, which is not part of these sources, is a parameter: it returns its
result and the path array as it leaves it. -/
def find_root_json_from (set_find_path : List CStr → CStr → Bool × List CStr)
    (root : json_object) : Nat → List CStr → root_result json_object
  | 0, nodes => ⟨.null, nodes, 0⟩
  | d + 1, nodes =>
    let node := find_json_recursive_node root nodes
    if node.is_set then
      if json_object_get_type node = .json_type_object ∨
          json_object_get_type node = .json_type_array then
        match get_field_string_json node (some ref_field) with
        | some str =>
          let sp := set_find_path nodes str
          if !sp.1 then
            ⟨.null, sp.2, 1⟩
          else
            let r := find_root_json_from set_find_path root d sp.2
            ⟨r.node, r.nodes, r.lookups + 1⟩
        | none => ⟨node, nodes, 1⟩
      else ⟨node, nodes, 1⟩
    else ⟨node, nodes, 1⟩

/-- The function `find_root_json(root, nodes, depth)`: `depth` is an `unsigned
int`, decremented before it is tested. That this satisfies the recursive
equation of the C function is `find_root_json_unfold`. -/
def find_root_json (set_find_path : List CStr → CStr → Bool × List CStr) (root : json_object)
    (nodes : List CStr) (depth : Nat) : root_result json_object :=
  find_root_json_from set_find_path root (pre_decrement depth) nodes

/-! ## Descriptor tree, libconfig backend (`parsing_library_libconfig.c`) -/

/-- A `config_setting_t` of libconfig: its name (`NULL` for the elements of an
array or a list) and its typed value; a float carries its bit pattern. -/
inductive config_setting_t where
  | int (name : Option CStr) (v : Int)
  | int64 (name : Option CStr) (v : Int)
  | float (name : Option CStr) (bits : Nat)
  | string (name : Option CStr) (s : CStr)
  | bool (name : Option CStr) (b : Bool)
  | array (name : Option CStr) (elems : List config_setting_t)
  | list (name : Option CStr) (elems : List config_setting_t)
  | group (name : Option CStr) (members : List config_setting_t)

/-- A `config_t` of libconfig: the root group of the parsed configuration. -/
structure config_t where
  root : config_setting_t

/-- Value of `CONFIG_TYPE_NONE` in `libconfig.h`. -/
def CONFIG_TYPE_NONE : Int := 0
/-- Value of `CONFIG_TYPE_GROUP` in `libconfig.h`. -/
def CONFIG_TYPE_GROUP : Int := 1
/-- Value of `CONFIG_TYPE_INT` in `libconfig.h`. -/
def CONFIG_TYPE_INT : Int := 2
/-- Value of `CONFIG_TYPE_INT64` in `libconfig.h`. -/
def CONFIG_TYPE_INT64 : Int := 3
/-- Value of `CONFIG_TYPE_FLOAT` in `libconfig.h`. -/
def CONFIG_TYPE_FLOAT : Int := 4
/-- Value of `CONFIG_TYPE_STRING` in `libconfig.h`. -/
def CONFIG_TYPE_STRING : Int := 5
/-- Value of `CONFIG_TYPE_BOOL` in `libconfig.h`. -/
def CONFIG_TYPE_BOOL : Int := 6
/-- Value of `CONFIG_TYPE_ARRAY` in `libconfig.h`. -/
def CONFIG_TYPE_ARRAY : Int := 7
/-- Value of `CONFIG_TYPE_LIST` in `libconfig.h`. -/
def CONFIG_TYPE_LIST : Int := 8

/-- The field `name` of a setting. -/
def config_setting_t.name : config_setting_t → Option CStr
  | .int n _ | .int64 n _ | .float n _ | .string n _ | .bool n _
  | .array n _ | .list n _ | .group n _ => n

/-- The library function `config_setting_type`. -/
def config_setting_type : config_setting_t → Int
  | .int _ _ => CONFIG_TYPE_INT
  | .int64 _ _ => CONFIG_TYPE_INT64
  | .float _ _ => CONFIG_TYPE_FLOAT
  | .string _ _ => CONFIG_TYPE_STRING
  | .bool _ _ => CONFIG_TYPE_BOOL
  | .array _ _ => CONFIG_TYPE_ARRAY
  | .list _ _ => CONFIG_TYPE_LIST
  | .group _ _ => CONFIG_TYPE_GROUP

/-- The library macro `config_setting_is_group(s) == CONFIG_TRUE`. -/
def config_setting_is_group (e : config_setting_t) : Bool :=
  config_setting_type e = CONFIG_TYPE_GROUP

/-- The library function `config_setting_get_member(e, name)`: the member of
the group `e` called `name`. -/
def config_setting_get_member (e : config_setting_t) (name : CStr) : Option config_setting_t :=
  match e with
  | .group _ members => members.find? (fun m => m.name = some name)
  | _ => none

/-- The library function `config_setting_get_string`. -/
def config_setting_get_string : config_setting_t → Option CStr
  | .string _ s => some s
  | _ => none

/-- The member names of a path: the pieces between its `.` separators. -/
def path_names : CStr → List CStr
  | [] => [[]]
  | c :: cs =>
    if c = '.' then [] :: path_names cs
    else
      match path_names cs with
      | seg :: segs => (c :: seg) :: segs
      | [] => [[c]]

/-- Descent from a setting along member names. -/
def lookup_names : config_setting_t → List CStr → Option config_setting_t
  | e, [] => some e
  | e, n :: names =>
    match config_setting_get_member e n with
    | some m => lookup_names m names
    | none => none

/-- The library function `config_setting_lookup(e, path)` for a path of member
names separated by `.`: the setting reached from `e` through the named members. -/
def config_setting_lookup (e : config_setting_t) (path : CStr) : Option config_setting_t :=
  lookup_names e (path_names path)

/-- The library function `config_lookup(cfg, path)`: the lookup from the root. -/
def config_lookup (cfg : config_t) (path : CStr) : Option config_setting_t :=
  config_setting_lookup cfg.root path

/-- The library function `config_setting_lookup_string(e, path, &str)`: the text
of the string setting at `path`, `CONFIG_FALSE` (here `none`) otherwise. -/
def config_setting_lookup_string (e : config_setting_t) (path : CStr) : Option CStr :=
  match config_setting_lookup e path with
  | some m => config_setting_get_string m
  | none => none

/-- The function `get_field_string_libconfig(e, path)`; `path` may be `NULL`. -/
def get_field_string_libconfig (e : config_setting_t) (path : Option CStr) : Option CStr :=
  let elem : Option config_setting_t :=
    match path with
    | some p => config_setting_lookup e p
    | none => some e
  match elem with
  | none => none
  | some el =>
    if config_setting_type el ≠ CONFIG_TYPE_STRING then none
    else
      match path with
      | some p => config_setting_lookup_string e p
      | none => config_setting_get_string e

/-- The function `get_node_libconfig(cfg, nodes)`. The helper `mstrcat(nodes,
".")`, which is not part of these sources, is a parameter; it returns `NULL`
(`none`) or the joined path. -/
def get_node_libconfig (mstrcat : List CStr → CStr → Option CStr) (cfg : config_t)
    (nodes : List CStr) : Option config_setting_t :=
  match mstrcat nodes ".".toList with
  | none => none
  | some root => config_lookup cfg root

/-- The function `find_root_libconfig(cfg, nodes, depth)` from its test
`if (!(--depth))` on, given the value `d` of `depth` after the decrement (the
callee of the recursive call decrements a non-zero `d + 1` to `d`). The helpers
`mstrcat` and `set_find_path`, which are not part of these sources, are
parameters. -/
def find_root_libconfig_from (mstrcat : List CStr → CStr → Option CStr)
    (set_find_path : List CStr → CStr → Bool × List CStr) (cfg : config_t) :
    Nat → List CStr → root_result (Option config_setting_t)
  | 0, nodes => ⟨none, nodes, 0⟩
  | d + 1, nodes =>
    match mstrcat nodes ".".toList with
    | none => ⟨none, nodes, 0⟩
    | some root =>
      match config_lookup cfg root with
      | some elem =>
        if config_setting_is_group elem then
          match get_field_string_libconfig elem (some ref_field) with
          | some ref =>
            let sp := set_find_path nodes ref
            if !sp.1 then
              ⟨none, sp.2, 1⟩
            else
              let r := find_root_libconfig_from mstrcat set_find_path cfg d sp.2
              ⟨r.node, r.nodes, r.lookups + 1⟩
          | none => ⟨some elem, nodes, 1⟩
        else ⟨some elem, nodes, 1⟩
      | none => ⟨none, nodes, 1⟩

/-- The function `find_root_libconfig(cfg, nodes, depth)`: `depth` is an
`unsigned int`, decremented before it is tested. That this satisfies the
recursive equation of the C function is `find_root_libconfig_unfold`. -/
def find_root_libconfig (mstrcat : List CStr → CStr → Option CStr)
    (set_find_path : List CStr → CStr → Bool × List CStr) (cfg : config_t)
    (nodes : List CStr) (depth : Nat) : root_result (Option config_setting_t) :=
  find_root_libconfig_from mstrcat set_find_path cfg (pre_decrement depth) nodes

/-! ### Helpers that are not part of the sources, for the examples -/

/-- Modelled from the spec: `mstrcat`, which "joins path segments with `.`"
(the separator is its second argument). The function itself is not part of the
sources. -/
def mstrcat_model (nodes : List CStr) (delim : CStr) : Option CStr :=
  some (delim.intercalate nodes)

/-- Modelled from the spec: `set_find_path`, by which the `ref` string "is
interpreted as a replacement path (split into segments)"; the segments are
taken to be separated by `.`, as in a joined path. The function itself is not
part of the sources. -/
def set_find_path_model (_nodes : List CStr) (ref : CStr) : Bool × List CStr :=
  (true, path_names ref)

/-- The chain of aliases `A → B → C → C` as a JSON tree. -/
def json_alias_cycle : json_object :=
  .object [("A".toList, .object [("ref".toList, .string "B".toList)]),
           ("B".toList, .object [("ref".toList, .string "C".toList)]),
           ("C".toList, .object [("ref".toList, .string "C".toList)])]

/-- The chain of aliases `A → B → C → C` as a libconfig tree. -/
def cfg_alias_cycle : config_t :=
  ⟨.group none
    [.group (some "A".toList) [.string (some "ref".toList) "B".toList],
     .group (some "B".toList) [.string (some "ref".toList) "C".toList],
     .group (some "C".toList) [.string (some "ref".toList) "C".toList]]⟩

/-- A JSON tree with one plain node `A` (an object without `ref`). -/
def json_plain : json_object :=
  .object [("A".toList, .object [("x".toList, .int 1)])]

/-- A libconfig tree with one plain node `A` (a group without `ref`). -/
def cfg_plain : config_t :=
  ⟨.group none [.group (some "A".toList) [.int (some "x".toList) 1]]⟩

/-- Whether the alias chain that starts at the path `nodes` reaches a node that
is not an alias within `n` path resolutions (JSON backend): each resolution
looks the path up; a container with a string field `ref` is an alias and the
chain goes on at the path `set_find_path` makes of it; any other node that the
path resolves to ends the chain; a path that does not resolve, or a `ref` that
`set_find_path` refuses, reaches nothing. -/
def json_chain_resolves (set_find_path : List CStr → CStr → Bool × List CStr)
    (root : json_object) : Nat → List CStr → Bool
  | 0, _ => false
  | n + 1, nodes =>
    let node := get_node_json root nodes
    if json_object_get_type node = .json_type_object ∨
        json_object_get_type node = .json_type_array then
      match get_field_string_json node (some ref_field) with
      | some str =>
        (set_find_path nodes str).1 &&
          json_chain_resolves set_find_path root n (set_find_path nodes str).2
      | none => true
    else node.is_set

/-- Whether the alias chain that starts at the path `nodes` reaches a node that
is not an alias within `n` path resolutions (libconfig backend, where an alias
is a group with a string field `ref`). -/
def cfg_chain_resolves (mstrcat : List CStr → CStr → Option CStr)
    (set_find_path : List CStr → CStr → Bool × List CStr) (cfg : config_t) :
    Nat → List CStr → Bool
  | 0, _ => false
  | n + 1, nodes =>
    match get_node_libconfig mstrcat cfg nodes with
    | none => false
    | some elem =>
      if config_setting_is_group elem then
        match get_field_string_libconfig elem (some ref_field) with
        | some ref =>
          (set_find_path nodes ref).1 &&
            cfg_chain_resolves mstrcat set_find_path cfg n (set_find_path nodes ref).2
        | none => true
      else true

/-! ## Installed-version registry (`update_installed_image_version`) -/

/-- An entry `struct sw_version` of the installed-version registry. -/
structure sw_version where
  name : CStr
  version : CStr
deriving DecidableEq, Repr

/-- The test `strncmp(a, b, n) == 0`: the strings agree on their first `n`
characters. -/
def strncmp_eq (a b : CStr) (n : Nat) : Bool :=
  decide (a.take n = b.take n)

/-- The string left in the destination by `strncpy(dst, src, n)`: the first `n`
characters of `src` (all of it when it is shorter than `n`, as for a string held
in an array of `n` bytes). -/
def strncpy (src : CStr) (n : Nat) : CStr :=
  src.take n

/-- The string left in the destination by `strlcpy(dst, src, size)`: at most
`size - 1` characters of `src`, NUL-terminated. -/
def strlcpy (src : CStr) (size : Nat) : CStr :=
  src.take (size - 1)

/-- The `LIST_FOREACH` loop of `update_installed_image_version`: the list with
the first entry named like the image updated, or `none` when the loop ends
without finding one. `n` is the size of the `name` and `version` arrays
(`sizeof(img->id.name)`, `sizeof(img->id.version)`). -/
def update_version_loop (n : Nat) (img : img_type) : List sw_version → Option (List sw_version)
  | [] => none
  | swver :: rest =>
    if strncmp_eq img.id.name swver.name n then
      some ({ swver with version := strncpy img.id.version n } :: rest)
    else
      (update_version_loop n img rest).map (fun l => swver :: l)

/-- The function `update_installed_image_version(sw_ver_list, img)`: its return
value (`true` is 1, `false` is 0) and the registry afterwards. `sw_ver_list` is
`none` for a `NULL` pointer, `calloc_ok` tells whether `calloc` returns memory,
and `n` is the size of the `name` and `version` arrays of `img->id` and of
`struct sw_version`. -/
def update_installed_image_version (n : Nat) (calloc_ok : Bool)
    (sw_ver_list : Option (List sw_version)) (img : img_type) :
    Int × Option (List sw_version) :=
  match sw_ver_list with
  | none => (0, none)
  | some list =>
    match update_version_loop n img list with
    | some updated => (1, some updated)
    | none =>
      if img.id.version.length = 0 then (0, some list)
      else if !calloc_ok then (0, some list)
      else (1, some (⟨strlcpy img.id.name n, strlcpy img.id.version n⟩ :: list))

/-- An image entry that carries only a component identity. -/
def mk_component (name version : CStr) : img_type :=
  ⟨⟨name, version⟩, [], [], [], [], 0, false, false, false⟩

/-! ## The installation pipeline (`install_images` and its stages)

The functions below call into collaborators that are not part of the embedded
sources (handlers, the byte copy, the file system, the bootloader and variable
backends). Each such call is recorded as an `event` of the run, and its result
is given by an oracle of `externals` that may depend on everything that happened
before (the trace so far) and on the arguments of the call. What a handler does
to the image entry it is given is outside the embedding. -/

/-- Value of `ENOMEM` in `errno.h`. -/
def ENOMEM : Int := 12

/-- Value of `ENOENT` in `errno.h`. -/
def ENOENT : Int := 2

/-- The operator `|` on two `int` values (32 bits, two's complement): the
bitwise or of the two bit patterns, read back as a signed value. -/
def int_or (a b : Int) : Int :=
  let bits : Nat := (a % 4294967296).toNat ||| (b % 4294967296).toNat
  if bits < 2147483648 then (bits : Int) else (bits : Int) - 4294967296

/-- The phase marker `script_fn` handed to a script handler. -/
inductive script_fn where
  | PREINSTALL
  | POSTINSTALL
deriving DecidableEq, Repr

/-- An entry of a `struct dict`: `dict_entry_get_key` and `dict_entry_get_value`
may return `NULL`. -/
structure dict_entry where
  key : Option CStr
  value : Option CStr
deriving DecidableEq, Repr

/-- An entry `struct hw_type` of the hardware-compatibility list. -/
structure hw_type where
  boardname : CStr
  revision : CStr
deriving DecidableEq, Repr

/-- The part of `struct swupdate_cfg` the installer works on. `lua_state` tells
whether a scripting runtime is instantiated; `namespace_for_vars` may be `NULL`;
`dry_run` is `parms.dry_run`. -/
structure swupdate_cfg where
  images : List img_type
  scripts : List img_type
  bootloader : List dict_entry
  vars : List dict_entry
  hardware : List hw_type
  installed_sw_list : List sw_version
  output_swversions : CStr
  namespace_for_vars : Option CStr
  dry_run : Bool
  lua_state : Bool
deriving DecidableEq, Repr

/-- A handler found by `find_handler`, identified by its description. -/
structure installer_handler where
  desc : CStr
deriving DecidableEq, Repr

/-- An argument of a diagnostic: a string or a number. -/
inductive log_arg where
  | str (s : CStr)
  | num (i : Int)
deriving DecidableEq, Repr

/-- What a run does to the outside, in the order it happens: diagnostics
(format string and arguments), calls of library functions and calls of external
collaborators, each with its arguments. A descriptor is named by the path it was
opened on. -/
inductive event where
  | ERROR (fmt : CStr) (args : List log_arg)
  | WARN (fmt : CStr) (args : List log_arg)
  | TRACE (fmt : CStr) (args : List log_arg)
  | openfileoutput (path : CStr)
  | open_rdonly (path : CStr)
  | close (path : CStr)
  | stat (path : CStr)
  | copyfile (input output : CStr) (script : img_type)
  | write (path : CStr) (text : CStr)
  | fopen (path : CStr)
  | fprintf (path : CStr) (text : CStr)
  | fclose (path : CStr)
  | swupdate_progress_inc_step (fname desc : CStr)
  | swupdate_progress_update (percent : Nat)
  | swupdate_progress_step_completed
  | installer (hnd : installer_handler) (img : img_type) (phase : Option script_fn)
  | bootloader_apply_list (script : CStr)
  | swupdate_vars_apply_list (script : CStr) (namespace_for_vars : Option CStr)
  | free_image (img : img_type)
  | asprintf (text : CStr)
  | unlink (fname : Option CStr)
  | unregister_session_handlers
  | lua_exit
deriving DecidableEq, Repr

/-- The constants and the collaborators that are not part of the embedded
sources. Every oracle gets the trace of the run so far, so its answer may depend
on all that happened before. -/
structure externals where
  /-- Result of `get_tmpdir()`. -/
  tmpdir : CStr
  /-- Result of `get_tmpdirscripts()`. -/
  tmpdir_scripts : CStr
  /-- The macro `BOOT_SCRIPT_SUFFIX`. -/
  boot_script_suffix : CStr
  /-- The macro `MAX_BOOT_SCRIPT_LINE_LENGTH`. -/
  max_boot_script_line_length : Nat
  /-- `sizeof(img->extract_file)`. -/
  sizeof_extract_file : Nat
  /-- `sizeof(img->path)`. -/
  sizeof_path : Nat
  /-- `sizeof(img->fname)`. -/
  sizeof_fname : Nat
  /-- Size of the `name` and `version` arrays of `img->id` and `struct sw_version`. -/
  sizeof_id : Nat
  /-- Whether an allocation (`asprintf`, `calloc`) gets its memory. -/
  alloc : List event → Bool
  /-- `openfileoutput(path)`: a descriptor, negative on failure. -/
  openfileoutput : List event → CStr → Int
  /-- `open(path, O_RDONLY)`: a descriptor, negative on failure. -/
  open_rdonly : List event → CStr → Int
  /-- `stat(path, &buf)`: `none` when it fails, else `buf.st_size`. -/
  stat : List event → CStr → Option Nat
  /-- `copyfile(&copy)` for a script, from the staged input to the output. -/
  copyfile : List event → CStr → CStr → img_type → Int
  /-- `write(fd, buf, strlen(buf))` on the file opened at the path: the count
  returned. -/
  write : List event → CStr → CStr → Int
  /-- Whether `fopen(path, "w")` returns a stream. -/
  fopen : List event → CStr → Bool
  /-- `find_handler(img)`. -/
  find_handler : List event → img_type → Option installer_handler
  /-- `hnd->installer(img, data)`: for a script the data carry the phase. -/
  installer : List event → installer_handler → img_type → Option script_fn → Int
  /-- `bootloader_apply_list(script)`. -/
  bootloader_apply_list : List event → CStr → Int
  /-- `swupdate_vars_apply_list(script, namespace)`. -/
  swupdate_vars_apply_list : List event → CStr → Option CStr → Int
  /-- `unlink(path)`: 0 when the name has been removed, -1 on failure. -/
  unlink : List event → CStr → Int
  /-- The string a `char *` that no `asprintf` has set happens to point to, if it
  points to a string at all; the C semantics leave this open. -/
  unset_pointer : List event → Option CStr

/-- A return value together with the trace of the run so far. -/
structure call_result where
  ret : Int
  trace : List event
deriving DecidableEq, Repr

/-- A return value, an image or script list as the call leaves it, and the
trace of the run so far. -/
structure list_result where
  ret : Int
  list : List img_type
  trace : List event
deriving DecidableEq, Repr

/-- The `LIST_FOREACH` loop of `extract_scripts` over the remaining scripts. -/
def extract_scripts_loop (ext : externals) : List img_type → List event → list_result
  | [], tr => ⟨0, [], tr⟩
  | script :: rest, tr =>
    if script.fname = [] ∧ script.provided = false then
      let r := extract_scripts_loop ext rest
        (tr ++ [.TRACE "No script provided for script of type %s".toList [.str script.type]])
      ⟨r.ret, script :: r.list, r.trace⟩
    else if script.provided = false then
      ⟨-1, script :: rest,
        tr ++ [.ERROR "Required script %s not found in image".toList [.str script.fname]]⟩
    else
      let script1 := { script with extract_file :=
        (snprintf script.extract_file ext.sizeof_extract_file
          (ext.tmpdir_scripts ++ script.fname)).1 }
      let fdout := ext.openfileoutput tr script1.extract_file
      let tr1 := tr ++ [.openfileoutput script1.extract_file]
      if fdout < 0 then
        ⟨fdout, script1 :: rest, tr1⟩
      else if !ext.alloc tr1 then
        ⟨-ENOMEM, script1 :: rest,
          tr1 ++ [.ERROR "Path too long: %s%s".toList [.str ext.tmpdir, .str script1.fname],
                  .close script1.extract_file]⟩
      else
        let tmpfile := ext.tmpdir ++ script1.fname
        let fdin := ext.open_rdonly tr1 tmpfile
        let tr2 := tr1 ++ [.open_rdonly tmpfile]
        if fdin < 0 then
          ⟨-ENOENT, script1 :: rest,
            tr2 ++ [.ERROR "Extracted script not found in %s: %s %d".toList
                      [.str ext.tmpdir, .str script1.extract_file],
                    .close script1.extract_file]⟩
        else
          let ret := ext.copyfile tr2 tmpfile script1.extract_file script1
          let tr3 := tr2 ++ [.copyfile tmpfile script1.extract_file script1,
                             .close tmpfile, .close script1.extract_file]
          if ret < 0 then
            ⟨ret, script1 :: rest, tr3⟩
          else
            let r := extract_scripts_loop ext rest tr3
            ⟨r.ret, script1 :: r.list, r.trace⟩

/-- The function `extract_scripts(head)`. -/
def extract_scripts (ext : externals) (head : List img_type) (tr : List event) : list_result :=
  extract_scripts_loop ext head tr

/-- The `LIST_FOREACH` loop of `prepare_var_script`, writing to the file opened
at `script`; `buf` is the line buffer as the previous iteration left it. -/
def prepare_var_loop (ext : externals) (script : CStr) :
    List dict_entry → CStr → List event → call_result
  | [], _, tr => ⟨0, tr ++ [.close script]⟩
  | bootvar :: rest, buf, tr =>
    match bootvar.key, bootvar.value with
    | some key, some value =>
      let buf1 := (snprintf buf ext.max_boot_script_line_length
        (key ++ "=".toList ++ value ++ "\n".toList)).1
      let written := ext.write tr script buf1
      let tr1 := tr ++ [.write script buf1]
      if written ≠ (buf1.length : Int) then
        ⟨-1, tr1 ++ [.TRACE "Error saving temporary bootloader environment file".toList [],
                     .close script]⟩
      else
        prepare_var_loop ext script rest buf1 tr1
    | _, _ => prepare_var_loop ext script rest buf tr

/-- The function `prepare_var_script(dict, script)`. -/
def prepare_var_script (ext : externals) (dict : List dict_entry) (script : CStr)
    (tr : List event) : call_result :=
  let fd := ext.openfileoutput tr script
  let tr1 := tr ++ [.openfileoutput script]
  if fd < 0 then
    ⟨-1, tr1 ++ [.ERROR "Temporary file %s cannot be opened for writing".toList [.str script]]⟩
  else
    prepare_var_loop ext script dict [] tr1

/-- The text `fprintf(fp, "%s\t\t%s\n", swver->name, swver->version)` prints. -/
def swversions_line (swver : sw_version) : CStr :=
  swver.name ++ "\t\t".toList ++ swver.version ++ "\n".toList

/-- The function `generate_swversions(cfg)`. -/
def generate_swversions (ext : externals) (cfg : swupdate_cfg) (tr : List event) :
    call_result :=
  let tr1 := tr ++ [.fopen cfg.output_swversions]
  if !ext.fopen tr cfg.output_swversions then
    ⟨-EACCES, tr1⟩
  else
    ⟨0, tr1 ++ cfg.installed_sw_list.map (fun swver =>
          event.fprintf cfg.output_swversions (swversions_line swver))
        ++ [.fclose cfg.output_swversions]⟩

/-- The function `update_bootloader_env(cfg, script)`. -/
def update_bootloader_env (ext : externals) (cfg : swupdate_cfg) (script : CStr)
    (tr : List event) : call_result :=
  let r := prepare_var_script ext cfg.bootloader script tr
  if r.ret ≠ 0 then r
  else
    let ret := ext.bootloader_apply_list r.trace script
    let tr1 := r.trace ++ [.bootloader_apply_list script]
    if ret < 0 then
      ⟨ret, tr1 ++ [.ERROR "Bootloader-specific error %d updating its environment".toList
                      [.num ret]]⟩
    else ⟨ret, tr1⟩

/-- The function `update_swupdate_vars(cfg, script)`. -/
def update_swupdate_vars (ext : externals) (cfg : swupdate_cfg) (script : CStr)
    (tr : List event) : call_result :=
  let r := prepare_var_script ext cfg.vars script tr
  if r.ret ≠ 0 then r
  else
    let ret := ext.swupdate_vars_apply_list r.trace script cfg.namespace_for_vars
    let tr1 := r.trace ++ [.swupdate_vars_apply_list script cfg.namespace_for_vars]
    if ret < 0 then
      ⟨ret, tr1 ++ [.ERROR "Bootloader-specific error %d updating its environment".toList
                      [.num ret]]⟩
    else ⟨ret, tr1⟩

/-- The function `run_prepost_scripts(list, type)`. -/
def run_prepost_scripts (ext : externals) (type : script_fn) :
    List img_type → List event → call_result
  | [], tr => ⟨0, tr⟩
  | img :: rest, tr =>
    if !img.is_script then
      run_prepost_scripts ext type rest tr
    else
      match ext.find_handler tr img with
      | some hnd =>
        let tr1 := tr ++ [.swupdate_progress_inc_step img.fname hnd.desc,
                          .swupdate_progress_update 0]
        let ret := ext.installer tr1 hnd img (some type)
        let tr2 := tr1 ++ [.installer hnd img (some type), .swupdate_progress_update 100,
                           .swupdate_progress_step_completed]
        if ret ≠ 0 then ⟨ret, tr2⟩
        else run_prepost_scripts ext type rest tr2
      | none => run_prepost_scripts ext type rest tr

/-- What `install_single_image` leaves behind: its return value, the image (its
type is overwritten in a dry run) and the trace. -/
structure image_result where
  ret : Int
  img : img_type
  trace : List event
deriving DecidableEq, Repr

/-- The function `install_single_image(img, dry_run)`. -/
def install_single_image (ext : externals) (img : img_type) (dry_run : Bool)
    (tr : List event) : image_result :=
  let img1 := if dry_run then { img with type := "dummy".toList } else img
  match ext.find_handler tr img1 with
  | none => ⟨-1, img1, tr ++ [.TRACE "Image Type %s not supported".toList [.str img1.type]]⟩
  | some hnd =>
    let tr1 := tr ++ [.TRACE "Found installer for stream %s %s".toList
                        [.str img1.fname, .str hnd.desc],
                      .swupdate_progress_inc_step img1.fname hnd.desc]
    let ret := ext.installer tr1 hnd img1 none
    let tr2 := tr1 ++ [.installer hnd img1 none]
    let tr3 := if ret ≠ 0 then
        tr2 ++ [.TRACE "Installer for %s not successful !".toList [.str hnd.desc]]
      else tr2
    ⟨ret, img1, tr3 ++ [.swupdate_progress_step_completed]⟩

/-- The state of the image loop of `install_images`: the variable `ret`, whether
the function has returned from inside the loop, the image list, the
installed-version registry and the trace. -/
structure images_result where
  ret : Int
  returned : Bool
  images : List img_type
  installed_sw_list : List sw_version
  trace : List event
deriving DecidableEq, Repr

/-- The `LIST_FOREACH_SAFE` loop of `install_images`. `kept` holds the entries
already visited that are still in the list, in list order; the other arguments
are the entries still to visit, the registry, the variable `ret` and the trace. -/
def install_images_loop (ext : externals) (dry_run : Bool) :
    List img_type → List img_type → List sw_version → Int → List event → images_result
  | kept, [], installed, ret, tr => ⟨ret, false, kept, installed, tr⟩
  | kept, img :: rest, installed, ret, tr =>
    if img.install_directly then
      install_images_loop ext dry_run (kept ++ [img]) rest installed ret tr
    else if !ext.alloc tr then
      ⟨-1, true, kept ++ img :: rest, installed,
        tr ++ [.ERROR "Path too long: %s%s".toList [.str ext.tmpdir, .str img.fname]]⟩
    else
      let filename := ext.tmpdir ++ img.fname
      let tr1 := tr ++ [.stat filename]
      match ext.stat tr filename with
      | none =>
        ⟨-1, true, kept ++ img :: rest, installed,
          tr1 ++ [.TRACE "%s not found or wrong".toList [.str filename]]⟩
      | some st_size =>
        let img1 := { img with size := st_size }
        let fdin := ext.open_rdonly tr1 filename
        let tr2 := tr1 ++ [.open_rdonly filename]
        if fdin < 0 then
          ⟨-1, true, kept ++ img1 :: rest, installed,
            tr2 ++ [.ERROR "Image %s cannot be opened".toList [.str img1.fname]]⟩
        else if img1.path.length > 0 ∧ img1.extract_file.length > 0 ∧
            strncmp_eq img1.path img1.extract_file ext.sizeof_path then
          -- LIST_REMOVE(img, next); dropimg = true; ret = 0;
          let tr3 := tr2 ++
            [.WARN "Temporary and final location for %s is identical, skip processing.".toList
              [.str img1.path]] ++
            (if (kept ++ rest).any (fun tmpimg =>
                strncmp_eq tmpimg.fname img1.fname ext.sizeof_fname) then
              [.WARN "%s will be removed, it's referenced more than once.".toList
                [.str img1.path]]
            else []) ++
            [.close filename]
          let reg := update_installed_image_version ext.sizeof_id (ext.alloc tr3)
            (some installed) img1
          install_images_loop ext dry_run kept rest (reg.2.getD installed) 0
            (tr3 ++ [.free_image img1])
        else
          let r := install_single_image ext img1 dry_run tr2
          let tr3 := r.trace ++ [.close filename]
          let reg := update_installed_image_version ext.sizeof_id (ext.alloc tr3)
            (some installed) r.img
          if r.ret ≠ 0 then
            ⟨r.ret, true, kept ++ r.img :: rest, reg.2.getD installed, tr3⟩
          else
            install_images_loop ext dry_run (kept ++ [r.img]) rest (reg.2.getD installed)
              r.ret tr3

/-- The configuration, the variable `ret` and the trace at a point of
`install_images`. -/
structure run where
  ret : Int
  sw : swupdate_cfg
  trace : List event
deriving DecidableEq, Repr

/-- The run of `install_images` after `extract_scripts`. -/
def after_extract (ext : externals) (sw : swupdate_cfg) : run :=
  let r := extract_scripts ext sw.scripts []
  ⟨r.ret, { sw with scripts := r.list }, r.trace⟩

/-- The run of `install_images` after the preinstall scripts, which a dry run
skips. -/
def after_preinstall (ext : externals) (sw : swupdate_cfg) : run :=
  let s := after_extract ext sw
  if !sw.dry_run then
    let r := run_prepost_scripts ext .PREINSTALL s.sw.scripts s.trace
    ⟨r.ret, s.sw, r.trace⟩
  else s

/-- The image loop of `install_images` run after the preinstall scripts. -/
def after_images (ext : externals) (sw : swupdate_cfg) : images_result :=
  let s := after_preinstall ext sw
  install_images_loop ext sw.dry_run [] s.sw.images s.sw.installed_sw_list s.ret s.trace

/-- The configuration after the image loop. -/
def images_cfg (ext : externals) (sw : swupdate_cfg) : swupdate_cfg :=
  { (after_preinstall ext sw).sw with
    images := (after_images ext sw).images,
    installed_sw_list := (after_images ext sw).installed_sw_list }

/-- The run of `install_images` after the postinstall scripts. -/
def after_postinstall (ext : externals) (sw : swupdate_cfg) : run :=
  let r := run_prepost_scripts ext .POSTINSTALL (images_cfg ext sw).scripts
    (after_images ext sw).trace
  ⟨r.ret, images_cfg ext sw, r.trace⟩

/-- The name of the environment script, `TMPDIR` followed by
`BOOT_SCRIPT_SUFFIX`. -/
def boot_script (ext : externals) : CStr :=
  ext.tmpdir ++ ext.boot_script_suffix

/-- The statements of `install_images` that follow the postinstall scripts:
generic variables, bootloader environment, version manifest. `s` is the run at
that point. -/
def install_images_tail (ext : externals) (s : run) : run :=
  let rv : call_result :=
    if s.sw.vars ≠ [] then update_swupdate_vars ext s.sw (boot_script ext) s.trace
    else ⟨s.ret, s.trace⟩
  if s.sw.vars ≠ [] ∧ rv.ret ≠ 0 then
    ⟨rv.ret, s.sw, rv.trace⟩
  else
    let rb : call_result :=
      if s.sw.bootloader ≠ [] then update_bootloader_env ext s.sw (boot_script ext) rv.trace
      else rv
    if s.sw.bootloader ≠ [] ∧ rb.ret ≠ 0 then
      ⟨rb.ret, s.sw, rb.trace⟩
    else if s.sw.output_swversions.length ≠ 0 then
      let rg := generate_swversions ext s.sw rb.trace
      let ret := int_or rb.ret rg.ret
      ⟨ret, s.sw,
        if ret ≠ 0 then
          rg.trace ++ [.ERROR "%s cannot be opened".toList [.str s.sw.output_swversions]]
        else rg.trace⟩
    else
      ⟨rb.ret, s.sw, rb.trace⟩

/-- The function `install_images(sw)`: its return value, the configuration as it
leaves it and the trace of the run. -/
def install_images (ext : externals) (sw : swupdate_cfg) : run :=
  if (after_extract ext sw).ret ≠ 0 then
    { after_extract ext sw with trace := (after_extract ext sw).trace ++
        [.ERROR "extracting script to %s failed".toList [.str ext.tmpdir_scripts]] }
  else if !sw.dry_run ∧ (after_preinstall ext sw).ret ≠ 0 then
    { after_preinstall ext sw with trace := (after_preinstall ext sw).trace ++
        [.ERROR "execute preinstall scripts failed".toList []] }
  else if (after_images ext sw).returned then
    ⟨(after_images ext sw).ret, images_cfg ext sw, (after_images ext sw).trace⟩
  else if sw.dry_run then
    ⟨(after_images ext sw).ret, images_cfg ext sw, (after_images ext sw).trace⟩
  else if (after_postinstall ext sw).ret ≠ 0 then
    { after_postinstall ext sw with trace := (after_postinstall ext sw).trace ++
        [.ERROR "execute postinstall scripts failed".toList []] }
  else
    install_images_tail ext (after_postinstall ext sw)

/-- The generic-variable stage of `install_images`, run after the postinstall
scripts. -/
def vars_stage (ext : externals) (sw : swupdate_cfg) : call_result :=
  update_swupdate_vars ext (after_postinstall ext sw).sw (boot_script ext)
    (after_postinstall ext sw).trace

/-- The bootloader-environment stage of `install_images`, run after the
generic-variable stage. -/
def bootloader_stage (ext : externals) (sw : swupdate_cfg) : call_result :=
  update_bootloader_env ext (after_postinstall ext sw).sw (boot_script ext)
    (vars_stage ext sw).trace

/-- The version-manifest stage of `install_images`, run after the
bootloader-environment stage. -/
def manifest_stage (ext : externals) (sw : swupdate_cfg) : call_result :=
  generate_swversions ext (after_postinstall ext sw).sw (bootloader_stage ext sw).trace

/-- Collaborators that all succeed, except that applying the generic variables
returns -1. -/
def ext_vars_fail : externals where
  tmpdir := "/tmp/".toList
  tmpdir_scripts := "/tmp/scripts/".toList
  boot_script_suffix := "boot-script".toList
  max_boot_script_line_length := 1024
  sizeof_extract_file := 256
  sizeof_path := 256
  sizeof_fname := 256
  sizeof_id := 256
  alloc := fun _ => true
  openfileoutput := fun _ _ => 3
  open_rdonly := fun _ _ => 4
  stat := fun _ _ => some 0
  copyfile := fun _ _ _ _ => 0
  write := fun _ _ text => text.length
  fopen := fun _ _ => true
  find_handler := fun _ _ => some ⟨"handler".toList⟩
  installer := fun _ _ _ _ => 0
  bootloader_apply_list := fun _ _ => 0
  swupdate_vars_apply_list := fun _ _ _ => -1
  unlink := fun _ _ => 0
  unset_pointer := fun _ => none

/-- A configuration without images and scripts, with one generic variable, one
bootloader variable and an output path for the version manifest. -/
def cfg_vars_only : swupdate_cfg where
  images := []
  scripts := []
  bootloader := [⟨some "bootcount".toList, some "0".toList⟩]
  vars := [⟨some "key".toList, some "value".toList⟩]
  hardware := []
  installed_sw_list := [⟨"app".toList, "1.0".toList⟩]
  output_swversions := "/tmp/sw-versions".toList
  namespace_for_vars := none
  dry_run := false
  lua_state := false

/-! ## Text written by the writers -/

/-- The text printed by `fprintf` to the stream opened at `path`, in the order
of the trace. -/
def printed_text (path : CStr) : List event → CStr
  | [] => []
  | .fprintf p text :: rest =>
    if p = path then text ++ printed_text path rest else printed_text path rest
  | _ :: rest => printed_text path rest

/-- The text handed to `write` on the file opened at `path`, in the order of the
trace. -/
def written_text (path : CStr) : List event → CStr
  | [] => []
  | .write p text :: rest =>
    if p = path then text ++ written_text path rest else written_text path rest
  | _ :: rest => written_text path rest

/-- The line a variable with key and value stands for, `key=value` and a
newline; nothing for an entry that lacks one of the two. -/
def var_line (entry : dict_entry) : CStr :=
  match entry.key, entry.value with
  | some key, some value => key ++ "=".toList ++ value ++ "\n".toList
  | _, _ => []

/-- A variable whose value is 1100 characters long. -/
def long_var : dict_entry :=
  ⟨some "k".toList, some (List.replicate 1100 'v')⟩

/-! ## Typed field access (`get_field`) and flat iteration (`iterate_field`) -/

/-- The requested type `field_type_t`; `unsupported` stands for any value the
`default:` branches of `map_field_type` catch. -/
inductive field_type_t where
  | TYPE_INT
  | TYPE_INT64
  | TYPE_BOOL
  | TYPE_DOUBLE
  | unsupported (code : Nat)
deriving DecidableEq, Repr

/-- What `get_field` stores through `dest`: an `int`, a `long long`, a `bool`
or a `double` (its bit pattern). -/
inductive field_value where
  | int (v : Int)
  | int64 (v : Int)
  | bool (b : Bool)
  | double (bits : Nat)
deriving DecidableEq, Repr

/-- The function `map_field_type` of `parsing_library_libconfig.c`. -/
def map_field_type_libconfig : field_type_t → Int
  | .TYPE_INT => CONFIG_TYPE_INT
  | .TYPE_INT64 => CONFIG_TYPE_INT64
  | .TYPE_BOOL => CONFIG_TYPE_BOOL
  | .TYPE_DOUBLE => CONFIG_TYPE_FLOAT
  | .unsupported _ => CONFIG_TYPE_NONE

/-- The library function `config_setting_get_int`: an `L`-suffixed integer is
returned as long as it fits into 32 bits, otherwise zero. -/
def config_setting_get_int : config_setting_t → Int
  | .int _ v => v
  | .int64 _ v => if -2147483648 ≤ v ∧ v ≤ 2147483647 then v else 0
  | _ => 0

/-- The library function `config_setting_get_int64`. -/
def config_setting_get_int64 : config_setting_t → Int
  | .int _ v => v
  | .int64 _ v => v
  | _ => 0

/-- The library function `config_setting_get_bool`. -/
def config_setting_get_bool : config_setting_t → Bool
  | .bool _ b => b
  | _ => false

/-- The library function `config_setting_get_float` (bit pattern of the
result). -/
def config_setting_get_float : config_setting_t → Nat
  | .float _ bits => bits
  | _ => 0

/-- The function `get_value_libconfig(e, path, dest, expected_type)`: the value
it stores through `dest`, or `none` when it stores nothing and the destination
keeps its content. -/
def get_value_libconfig (e : config_setting_t) (expected_type : field_type_t) :
    Option field_value :=
  let parsed_type := config_setting_type e
  if parsed_type ≠ map_field_type_libconfig expected_type ∧
      ¬ ((parsed_type = CONFIG_TYPE_INT ∧ expected_type = .TYPE_INT64) ∨
         (parsed_type = CONFIG_TYPE_INT64 ∧ expected_type = .TYPE_INT)) then
    none
  else
    match expected_type with
    | .TYPE_INT => some (.int (config_setting_get_int e))
    | .TYPE_INT64 => some (.int64 (config_setting_get_int64 e))
    | .TYPE_BOOL => some (.bool (config_setting_get_bool e))
    | .TYPE_DOUBLE => some (.double (config_setting_get_float e))
    | .unsupported _ => none

/-- The function `get_field_cfg(e, path, dest, type)`; `path` may be `NULL`. The
result is the value stored through `dest`, `none` when nothing is stored. -/
def get_field_cfg (e : config_setting_t) (path : Option CStr) (type : field_type_t) :
    Option field_value :=
  let elem : Option config_setting_t :=
    match path with
    | some p => config_setting_lookup e p
    | none => some e
  match elem with
  | none => none
  | some el => get_value_libconfig el type

/-- The function `map_field_type` of `parsing_library_libjson.c`. -/
def map_field_type_json : field_type_t → json_type
  | .TYPE_INT => .json_type_int
  | .TYPE_INT64 => .json_type_int
  | .TYPE_BOOL => .json_type_boolean
  | .TYPE_DOUBLE => .json_type_double
  | .unsupported _ => .json_type_null

/-- The library function `json_object_get_int` on an integer node: the value
clamped to the range of a 32-bit `int`. -/
def json_object_get_int : json_object → Int
  | .int i => if i < -2147483648 then -2147483648 else if 2147483647 < i then 2147483647 else i
  | _ => 0

/-- The library function `json_object_get_boolean` on a boolean node. -/
def json_object_get_boolean : json_object → Bool
  | .boolean b => b
  | _ => false

/-- The library function `json_object_get_double` on a double node (bit
pattern of the result). -/
def json_object_get_double : json_object → Nat
  | .double bits => bits
  | _ => 0

/-- The function `get_value_json(e, path, dest, expected_type)`: the value it
stores through `dest`, or `none` when it stores nothing. -/
def get_value_json (e : json_object) (expected_type : field_type_t) : Option field_value :=
  let parsed_type := json_object_get_type e
  if parsed_type ≠ map_field_type_json expected_type then
    none
  else
    match expected_type with
    | .TYPE_BOOL => some (.bool (json_object_get_boolean e))
    | .TYPE_INT => some (.int (json_object_get_int e))
    | .TYPE_INT64 => some (.int64 (json_object_get_int e))
    | .TYPE_DOUBLE => some (.double (json_object_get_double e))
    | .unsupported _ => none

/-- The function `get_field_json(e, path, dest, type)`; `path` may be `NULL`. -/
def get_field_json (e : json_object) (path : Option CStr) (type : field_type_t) :
    Option field_value :=
  match path with
  | some p =>
    if (json_object_object_get_ex e p).1 then
      get_value_json (json_object_object_get_ex e p).2 type
    else none
  | none => get_value_json e type

/-- The node a `get_field` path resolves to in the libconfig backend. -/
def cfg_resolve (e : config_setting_t) (path : Option CStr) : Option config_setting_t :=
  match path with
  | some p => config_setting_lookup e p
  | none => some e

/-- The node a `get_field` path resolves to in the JSON backend: the member of
that name, or the node itself without a path. -/
def json_resolve (e : json_object) (path : Option CStr) : Option json_object :=
  match path with
  | some p =>
    if (json_object_object_get_ex e p).1 then some (json_object_object_get_ex e p).2 else none
  | none => some e

/-- The type rule of the specification for the libconfig backend: the native
type equals the requested type, or both are integer types (32-bit and 64-bit in
either combination). -/
def cfg_type_accepted (native : Int) (requested : field_type_t) : Prop :=
  (native = CONFIG_TYPE_INT ∧ requested = .TYPE_INT) ∨
  (native = CONFIG_TYPE_INT64 ∧ requested = .TYPE_INT64) ∨
  (native = CONFIG_TYPE_BOOL ∧ requested = .TYPE_BOOL) ∨
  (native = CONFIG_TYPE_FLOAT ∧ requested = .TYPE_DOUBLE) ∨
  ((native = CONFIG_TYPE_INT ∨ native = CONFIG_TYPE_INT64) ∧
    (requested = .TYPE_INT ∨ requested = .TYPE_INT64))

/-- The type rule of the specification for the JSON backend, whose only native
integer type serves both requested integer types. -/
def json_type_accepted (native : json_type) (requested : field_type_t) : Prop :=
  (native = .json_type_int ∧ (requested = .TYPE_INT ∨ requested = .TYPE_INT64)) ∨
  (native = .json_type_boolean ∧ requested = .TYPE_BOOL) ∨
  (native = .json_type_double ∧ requested = .TYPE_DOUBLE)

/-- One invocation `cb(name, str, data)` of an `iterate_callback`: the name and
the string handed over, each possibly `NULL`. -/
structure callback_call where
  name : Option CStr
  str : Option CStr
deriving DecidableEq, Repr

/-- The children of a setting: the members of a group, the elements of an array
or a list, none for a scalar. -/
def config_setting_elems : config_setting_t → List config_setting_t
  | .array _ elems => elems
  | .list _ elems => elems
  | .group _ members => members
  | _ => []

/-- The library function `config_setting_length`. -/
def config_setting_length (e : config_setting_t) : Nat :=
  (config_setting_elems e).length

/-- The library function `config_setting_get_elem(e, i)`. -/
def config_setting_get_elem (e : config_setting_t) (i : Nat) : Option config_setting_t :=
  (config_setting_elems e)[i]?

/-- The function `iterate_field_libconfig(e, cb, data)`: the invocations of the
callback in the order they are made; `cb` tells whether the callback pointer is
set. The two `for` loops over `config_setting_get_elem(_, i)` run over the
children in order. -/
def iterate_field_libconfig (e : config_setting_t) (cb : Bool) : List callback_call :=
  if !cb then []
  else
    (config_setting_elems e).flatMap (fun entry =>
      if config_setting_length entry = 0 then
        [⟨entry.name, config_setting_get_string entry⟩]
      else
        (config_setting_elems entry).map (fun elem =>
          ⟨entry.name, config_setting_get_string elem⟩))

/-- The function `iterate_field_json(e, cb, data)`: the invocations of the
callback in the order they are made. -/
def iterate_field_json (e : json_object) (cb : Bool) : List callback_call :=
  if !cb ∨ json_object_get_type e ≠ .json_type_object then []
  else
    match e with
    | .object members =>
      members.flatMap (fun m =>
        match json_object_get_type m.2 with
        | .json_type_string => [⟨some m.1, json_object_get_string m.2⟩]
        | .json_type_array =>
          match m.2 with
          | .array elems =>
            (elems.filter (fun subnode =>
              json_object_get_type subnode = .json_type_string)).map
              (fun subnode => ⟨some m.1, json_object_get_string subnode⟩)
          | _ => []
        | _ => [])
    | _ => []

/-- A direct child as the specification of `iterate_field` sees it: a leaf
scalar with its string value, or a container with its string elements. -/
inductive field_desc where
  | leaf (name : CStr) (value : CStr)
  | strings (name : CStr) (elems : List CStr)
deriving DecidableEq, Repr

/-- The invocations the specification asks for: one `(child-name,
child-string-value)` for a leaf, one `(container-name, element-string-value)`
for each string element of a container, in child and element order. -/
def expected_calls (children : List field_desc) : List callback_call :=
  children.flatMap (fun child =>
    match child with
    | .leaf name value => [⟨some name, some value⟩]
    | .strings name elems => elems.map (fun s => ⟨some name, some s⟩))

/-- The JSON node with the given children: strings for the leaves, arrays of
strings for the containers. -/
def fields_to_json (children : List field_desc) : json_object :=
  .object (children.map (fun child =>
    match child with
    | .leaf name value => (name, json_object.string value)
    | .strings name elems => (name, json_object.array (elems.map json_object.string))))

/-- The libconfig node that corresponds to `fields_to_json`: string settings
for the leaves, arrays of strings for the containers. -/
def fields_to_cfg (children : List field_desc) : config_setting_t :=
  .group none (children.map (fun child =>
    match child with
    | .leaf name value => config_setting_t.string (some name) value
    | .strings name elems =>
      config_setting_t.array (some name)
        (elems.map (fun s => config_setting_t.string none s))))

/-- A node with the integer child `n = 5`, the array child `a = [1, 2]` and the
string child `s = "x"`, as a JSON tree. -/
def json_mixed : json_object :=
  .object [("n".toList, .int 5), ("a".toList, .array [.int 1, .int 2]),
    ("s".toList, .string "x".toList)]

/-- The node of `json_mixed` as a libconfig tree. -/
def cfg_mixed : config_setting_t :=
  .group none [.int (some "n".toList) 5,
    .array (some "a".toList) [.int none 1, .int none 2],
    .string (some "s".toList) "x".toList]

/-! ## Cleanup (`cleanup_files`) -/

/-- The set of existing paths together with the trace of the run so far. -/
structure files_run where
  files : List CStr
  trace : List event
deriving DecidableEq, Repr

/-- The call `unlink(fname)` on the set of existing paths: when the call
returns 0 the path is gone afterwards, when it fails the set is unchanged;
`fname` is `none` when the pointer does not point to a string, and then the call
removes nothing. -/
def unlink (ext : externals) (files : List CStr) (fname : Option CStr) (tr : List event) :
    files_run :=
  match fname with
  | some path =>
    ⟨if ext.unlink tr path = 0 then files.filter (fun f => f ≠ path) else files,
      tr ++ [.unlink (some path)]⟩
  | none => ⟨files, tr ++ [.unlink none]⟩

/-- The handler, script entry and phase marker of an event that is a
`hnd->installer(img, &data)` call made with a phase. -/
def script_call (e : event) : Option (installer_handler × img_type × script_fn) :=
  match e with
  | .installer hnd img phase =>
    match phase with
    | some p => some (hnd, img, p)
    | none => none
  | _ => none

/-- The script-handler invocations of a trace, in order. -/
def script_calls (tr : List event) : List (installer_handler × img_type × script_fn) :=
  tr.filterMap script_call

/-- The handler and image entry of an event that is the
`hnd->installer(img, hnd->data)` call of `install_single_image`. -/
def image_call (e : event) : Option (installer_handler × img_type) :=
  match e with
  | .installer hnd img phase =>
    match phase with
    | some _ => none
    | none => some (hnd, img)
  | _ => none

/-- The image-handler invocations of a trace, in order. -/
def image_calls (tr : List event) : List (installer_handler × img_type) :=
  tr.filterMap image_call

/-- Whether an event touches the environment script, the variable backends or
the version manifest: `write`, `bootloader_apply_list`,
`swupdate_vars_apply_list`, `fopen`, `fprintf`, `fclose`. -/
def is_apply_event (e : event) : Bool :=
  match e with
  | .write _ _ => true
  | .bootloader_apply_list _ => true
  | .swupdate_vars_apply_list _ _ => true
  | .fopen _ => true
  | .fprintf _ _ => true
  | .fclose _ => true
  | _ => false

/-- The events of a trace that touch the environment script, the variable
backends or the version manifest. -/
def apply_events (tr : List event) : List event :=
  tr.filter is_apply_event

/-- The trace `run_prepost_scripts` leaves when it has called the handler `hnd`
of the script entry `img` with the trace `tr` behind it: the two progress
notifications, the handler call with its phase marker, and the two progress
notifications that follow it. -/
def script_trace (type : script_fn) (hnd : installer_handler) (img : img_type)
    (tr : List event) : List event :=
  tr ++ [.swupdate_progress_inc_step img.fname hnd.desc, .swupdate_progress_update 0] ++
    [.installer hnd img (some type), .swupdate_progress_update 100,
     .swupdate_progress_step_completed]

/-- Collaborators that all succeed and have one handler, `handler`, for every
entry; the handler returns 7 for the script `fail.sh` and 0 otherwise. -/
def ext_script_fails : externals :=
  { ext_vars_fail with
    installer := fun _ _ img _ => if img.fname = "fail.sh".toList then 7 else 0
    swupdate_vars_apply_list := fun _ _ _ => 0 }

/-- A script entry with the given filename. -/
def mk_script (fname : CStr) : img_type :=
  ⟨⟨[], []⟩, "shellscript".toList, fname, [], [], 0, true, false, true⟩

/-! ## The image loop, one pass at a time -/

/-- The test `strlen(img->path) > 0 && strlen(img->extract_file) > 0 &&
strncmp(img->path, img->extract_file, sizeof(img->path)) == 0` of the image
loop: the entry refers to a file that already lies at its destination. -/
def is_duplicate_reference (ext : externals) (img : img_type) : Bool :=
  decide (img.path.length > 0 ∧ img.extract_file.length > 0 ∧
    strncmp_eq img.path img.extract_file ext.sizeof_path)

/-- One pass of the body of the `LIST_FOREACH_SAFE` loop of `install_images`,
for the entry `img` with the entries `rest` behind it. When the function returns
from inside the body, `returned` is set and `images` is the whole list;
otherwise `images` holds the visited entries that are still in the list. -/
def install_images_visit (ext : externals) (dry_run : Bool) (kept : List img_type)
    (img : img_type) (rest : List img_type) (installed : List sw_version) (ret : Int)
    (tr : List event) : images_result :=
  if img.install_directly then
    ⟨ret, false, kept ++ [img], installed, tr⟩
  else if !ext.alloc tr then
    ⟨-1, true, kept ++ img :: rest, installed,
      tr ++ [.ERROR "Path too long: %s%s".toList [.str ext.tmpdir, .str img.fname]]⟩
  else
    let filename := ext.tmpdir ++ img.fname
    let tr1 := tr ++ [.stat filename]
    match ext.stat tr filename with
    | none =>
      ⟨-1, true, kept ++ img :: rest, installed,
        tr1 ++ [.TRACE "%s not found or wrong".toList [.str filename]]⟩
    | some st_size =>
      let img1 := { img with size := st_size }
      let fdin := ext.open_rdonly tr1 filename
      let tr2 := tr1 ++ [.open_rdonly filename]
      if fdin < 0 then
        ⟨-1, true, kept ++ img1 :: rest, installed,
          tr2 ++ [.ERROR "Image %s cannot be opened".toList [.str img1.fname]]⟩
      else if img1.path.length > 0 ∧ img1.extract_file.length > 0 ∧
          strncmp_eq img1.path img1.extract_file ext.sizeof_path then
        let tr3 := tr2 ++
          [.WARN "Temporary and final location for %s is identical, skip processing.".toList
            [.str img1.path]] ++
          (if (kept ++ rest).any (fun tmpimg =>
              strncmp_eq tmpimg.fname img1.fname ext.sizeof_fname) then
            [.WARN "%s will be removed, it's referenced more than once.".toList
              [.str img1.path]]
          else []) ++
          [.close filename]
        let reg := update_installed_image_version ext.sizeof_id (ext.alloc tr3)
          (some installed) img1
        ⟨0, false, kept, reg.2.getD installed, tr3 ++ [.free_image img1]⟩
      else
        let r := install_single_image ext img1 dry_run tr2
        let tr3 := r.trace ++ [.close filename]
        let reg := update_installed_image_version ext.sizeof_id (ext.alloc tr3)
          (some installed) r.img
        if r.ret ≠ 0 then
          ⟨r.ret, true, kept ++ r.img :: rest, reg.2.getD installed, tr3⟩
        else
          ⟨r.ret, false, kept ++ [r.img], reg.2.getD installed, tr3⟩

/-- The state of the image loop when the entries `pre` have been visited, the
entries `post` standing behind them; `returned` is set when the function has
returned from inside one of these passes. -/
def install_images_upto (ext : externals) (dry_run : Bool) :
    List img_type → List img_type → List img_type → List sw_version → Int → List event →
      images_result
  | [], _, kept, installed, ret, tr => ⟨ret, false, kept, installed, tr⟩
  | img :: pre, post, kept, installed, ret, tr =>
    if (install_images_visit ext dry_run kept img (pre ++ post) installed ret tr).returned then
      install_images_visit ext dry_run kept img (pre ++ post) installed ret tr
    else
      install_images_upto ext dry_run pre post
        (install_images_visit ext dry_run kept img (pre ++ post) installed ret tr).images
        (install_images_visit ext dry_run kept img (pre ++ post) installed ret tr).installed_sw_list
        (install_images_visit ext dry_run kept img (pre ++ post) installed ret tr).ret
        (install_images_visit ext dry_run kept img (pre ++ post) installed ret tr).trace

/-- The call `install_single_image(img, dry_run)` that a pass of the image loop
makes for `img` with the trace `tr` behind it, if the pass gets that far: the
entry is not installed from the stream, the file name can be allocated, the
staged file is found and can be opened, and the entry is no duplicate
reference. -/
def install_attempt (ext : externals) (dry_run : Bool) (img : img_type) (tr : List event) :
    Option image_result :=
  if img.install_directly then none
  else if !ext.alloc tr then none
  else
    match ext.stat tr (ext.tmpdir ++ img.fname) with
    | none => none
    | some st_size =>
      if ext.open_rdonly (tr ++ [.stat (ext.tmpdir ++ img.fname)]) (ext.tmpdir ++ img.fname) < 0
      then none
      else if is_duplicate_reference ext img then none
      else some (install_single_image ext { img with size := st_size } dry_run
        (tr ++ [.stat (ext.tmpdir ++ img.fname)] ++ [.open_rdonly (ext.tmpdir ++ img.fname)]))

/-- The state of the image loop of `install_images(sw)` when the entries `pre`
of the image list have been visited, the entries `post` standing behind them. -/
def images_before (ext : externals) (sw : swupdate_cfg) (pre post : List img_type) :
    images_result :=
  install_images_upto ext sw.dry_run pre post [] (after_preinstall ext sw).sw.installed_sw_list
    (after_preinstall ext sw).ret (after_preinstall ext sw).trace

/-- Collaborators that all succeed and have one handler, `handler`, for every
entry, except that the handler returns 5 when it installs the image `b.img`. -/
def ext_image_fails : externals :=
  { ext_vars_fail with
    installer := fun _ _ img phase =>
      if img.fname = "b.img".toList ∧ phase = none then 5 else 0
    swupdate_vars_apply_list := fun _ _ _ => 0 }

/-- A configuration with the three images `a.img`, `b.img` and `c.img`, one
postinstall script, one bootloader variable and a version manifest. -/
def cfg_three_images : swupdate_cfg where
  images := [mk_img "a.img".toList 0 false, mk_img "b.img".toList 0 false,
    mk_img "c.img".toList 0 false]
  scripts := [⟨⟨[], []⟩, "shellscript".toList, "post.sh".toList, [], [], 0, true, false, true⟩]
  bootloader := [⟨some "bootcount".toList, some "0".toList⟩]
  vars := []
  hardware := []
  installed_sw_list := []
  output_swversions := "/tmp/sw-versions".toList
  namespace_for_vars := none
  dry_run := false
  lua_state := false

/-- Collaborators that all succeed, with one handler, `handler`, for every
entry. -/
def ext_all_succeed : externals :=
  { ext_vars_fail with swupdate_vars_apply_list := fun _ _ _ => 0 }

/-- An image entry of type `raw` that is staged at `extract_file` and has the
destination `path`. -/
def mk_staged (fname path extract_file : CStr) : img_type :=
  ⟨⟨[], []⟩, "raw".toList, fname, path, extract_file, 0, true, false, false⟩

/-- A configuration whose image list has the two entries `a.img` and `b.img`,
both staged at `/tmp/shared` with the destination `/tmp/shared`, followed by the
entry `c.img` staged at `/tmp/c.img` with the destination `/dev/mmcblk0p1`. -/
def cfg_two_duplicates : swupdate_cfg where
  images := [mk_staged "a.img".toList "/tmp/shared".toList "/tmp/shared".toList,
    mk_staged "b.img".toList "/tmp/shared".toList "/tmp/shared".toList,
    mk_staged "c.img".toList "/dev/mmcblk0p1".toList "/tmp/c.img".toList]
  scripts := []
  bootloader := []
  vars := []
  hardware := []
  installed_sw_list := []
  output_swversions := []
  namespace_for_vars := none
  dry_run := false
  lua_state := false

/-- The invocations of the JSON backend stated by the kind of each member of an
object, to be compared with `iterate_field_json`: in member order, one `(name,
value)` for a member that is a string; for a member that is an array one
`(name, element)` for each element that is a string, in element order; none for
any other member. -/
def json_expected_calls (members : List (CStr × json_object)) : List callback_call :=
  members.flatMap (fun m =>
    match m.2 with
    | .string s => [⟨some m.1, some s⟩]
    | .array elems =>
      elems.filterMap (fun el =>
        match el with
        | .string s => some ⟨some m.1, some s⟩
        | _ => none)
    | _ => [])

/-- The invocations of the libconfig backend stated by the kind of each child
of a setting, to be compared with `iterate_field_libconfig`: in child order, for
a child without elements (a scalar, or an empty array, list or group) one
`(name, s)`; for a child with elements one `(name, s)` for each element, in
element order; `s` is the string value of a string setting and `NULL` for any
other setting. -/
def cfg_expected_calls (children : List config_setting_t) : List callback_call :=
  children.flatMap (fun child =>
    match child with
    | .string name s => [⟨name, some s⟩]
    | .int name _ => [⟨name, none⟩]
    | .int64 name _ => [⟨name, none⟩]
    | .float name _ => [⟨name, none⟩]
    | .bool name _ => [⟨name, none⟩]
    | .array name [] => [⟨name, none⟩]
    | .list name [] => [⟨name, none⟩]
    | .group name [] => [⟨name, none⟩]
    | .array name (el :: els) =>
      (el :: els).map (fun x => ⟨name, config_setting_get_string x⟩)
    | .list name (el :: els) =>
      (el :: els).map (fun x => ⟨name, config_setting_get_string x⟩)
    | .group name (el :: els) =>
      (el :: els).map (fun x => ⟨name, config_setting_get_string x⟩))

/-- A node whose only child `names` is an object holding the strings `a` and
`b`, as a JSON tree. -/
def json_nested : json_object :=
  .object [("names".toList,
    .object [("x".toList, .string "a".toList), ("y".toList, .string "b".toList)])]

/-- The node of `json_nested` as a libconfig tree: the child `names` is a
group. -/
def cfg_nested : config_setting_t :=
  .group none [.group (some "names".toList)
    [.string (some "x".toList) "a".toList, .string (some "y".toList) "b".toList]]

/-! # Theorems -/

/-! ## Lemmas on the loop of `check_if_required` -/

theorem snprintf_fits (buf s : CStr) (cap : Nat) (h : ¬ (snprintf buf cap s).2 ≥ cap) :
    (snprintf buf cap s).1 = s := by
  simp only [snprintf] at h ⊢
  have hc : cap ≠ 0 := by omega
  rw [if_neg hc]
  exact List.take_of_length_le (by omega)

theorem check_loop_length (cap : Nat) (pfdh : filehdr) (destdir : CStr) :
    ∀ (l : List img_type) (idx : Nat) (skip : Int) (d : Nat) (p : Option Nat),
      (check_loop cap pfdh destdir l idx skip d p).list.length = l.length := by
  intro l
  induction l with
  | nil => intros; rfl
  | cons a rest ih =>
    intro idx skip d p
    simp only [check_loop]
    split_ifs <;> simp [ih]

theorem check_loop_ok (cap : Nat) (pfdh : filehdr) (destdir : CStr) :
    ∀ (l : List img_type) (idx : Nat) (skip : Int) (d : Nat) (p : Option Nat),
      0 ≤ (check_loop cap pfdh destdir l idx skip d p).ret →
      (check_loop cap pfdh destdir l idx skip d p).list = l.map (visit pfdh destdir) := by
  intro l
  induction l with
  | nil => intros; rfl
  | cons a rest ih =>
    intro idx skip d p
    simp only [check_loop]
    split_ifs with hm hsz hcap hd hdir
    · intro h; simp [EINVAL] at h
    · intro h; simp [EBADF] at h
    · intro h; simp [EINVAL] at h
    · intro h
      simp only [List.map_cons, visit, if_pos hm, staged]
      rw [ih _ _ _ _ h, snprintf_fits _ _ _ hcap]
    · intro h
      simp only [List.map_cons, visit, if_pos hm, staged]
      rw [ih _ _ _ _ h, snprintf_fits _ _ _ hcap]
    · intro h
      simp only [List.map_cons, visit, if_neg hm]
      rw [ih _ _ _ _ h]

theorem check_loop_nomatch (cap : Nat) (pfdh : filehdr) (destdir : CStr) :
    ∀ (l : List img_type) (idx : Nat) (skip : Int) (d : Nat) (p : Option Nat),
      (∀ a ∈ l, pfdh.filename ≠ a.fname) →
      check_loop cap pfdh destdir l idx skip d p = ⟨skip, l, p, none⟩ := by
  intro l
  induction l with
  | nil => intros; rfl
  | cons a rest ih =>
    intro idx skip d p h
    have ha : pfdh.filename ≠ a.fname := h a (List.mem_cons_self _ _)
    have hr : ∀ b ∈ rest, pfdh.filename ≠ b.fname := fun b hb => h b (List.mem_cons_of_mem _ hb)
    simp only [check_loop, if_neg ha, ih _ _ _ _ hr]

theorem check_loop_frame (cap : Nat) (pfdh : filehdr) (destdir : CStr) :
    ∀ (l : List img_type) (idx : Nat) (skip : Int) (d : Nat) (p : Option Nat)
      (i : Nat) (img : img_type), l[i]? = some img → pfdh.filename ≠ img.fname →
      (check_loop cap pfdh destdir l idx skip d p).list[i]? = some img := by
  intro l
  induction l with
  | nil => intro _ _ _ _ i img h; simp at h
  | cons a rest ih =>
    intro idx skip d p i img h hne
    cases i with
    | zero =>
      simp only [List.getElem?_cons_zero, Option.some.injEq] at h
      subst h
      simp only [check_loop, if_neg hne, List.getElem?_cons_zero]
    | succ i =>
      simp only [List.getElem?_cons_succ] at h
      simp only [check_loop]
      split_ifs <;> simp only [List.getElem?_cons_succ] <;> first | exact h | exact ih _ _ _ _ _ _ h hne

theorem check_loop_ret (cap : Nat) (pfdh : filehdr) (destdir : CStr) :
    ∀ (l : List img_type) (idx : Nat) (skip : Int) (d : Nat) (p : Option Nat),
      ((check_loop cap pfdh destdir l idx skip d p).err = none ∧
        ((check_loop cap pfdh destdir l idx skip d p).ret = skip ∨
         (check_loop cap pfdh destdir l idx skip d p).ret = COPY_FILE ∨
         (check_loop cap pfdh destdir l idx skip d p).ret = INSTALL_FROM_STREAM)) ∨
      is_failure (check_loop cap pfdh destdir l idx skip d p) := by
  intro l
  induction l with
  | nil => intros; left; exact ⟨rfl, Or.inl rfl⟩
  | cons a rest ih =>
    intro idx skip d p
    simp only [check_loop]
    split_ifs with hm hsz hcap hd hdir
    · right; left; exact ⟨rfl, rfl⟩
    · right; right; left; exact ⟨rfl, rfl⟩
    · right; right; right; exact ⟨rfl, rfl⟩
    · rcases ih (idx + 1) INSTALL_FROM_STREAM (d + 1) (some idx) with h | h
      · left; exact ⟨h.1, by rcases h.2 with h2 | h2 | h2 <;> simp [h2]⟩
      · right; exact h
    · rcases ih (idx + 1) COPY_FILE d (some idx) with h | h
      · left; exact ⟨h.1, by rcases h.2 with h2 | h2 | h2 <;> simp [h2]⟩
      · right; exact h
    · exact ih (idx + 1) skip d p

theorem check_loop_ambiguous_pending (cap : Nat) (pfdh : filehdr) (destdir : CStr) :
    ∀ (l : List img_type) (idx : Nat) (skip : Int) (d : Nat) (p : Option Nat),
      d ≠ 0 → (∃ a ∈ l, pfdh.filename = a.fname) →
      is_failure (check_loop cap pfdh destdir l idx skip d p) := by
  intro l
  induction l with
  | nil => intro _ _ _ _ _ h; simp at h
  | cons a rest ih =>
    intro idx skip d p hd hex
    simp only [check_loop]
    split_ifs with hm hsz hcap
    · left; exact ⟨rfl, rfl⟩
    · right; left; exact ⟨rfl, rfl⟩
    · right; right; exact ⟨rfl, rfl⟩
    · obtain ⟨b, hb, hbm⟩ := hex
      rcases List.mem_cons.mp hb with rfl | hb
      · exact absurd hbm hm
      · exact ih _ _ _ _ hd ⟨b, hb, hbm⟩

theorem check_loop_two_direct (cap : Nat) (pfdh : filehdr) (destdir : CStr) :
    ∀ (l : List img_type) (idx : Nat) (skip : Int) (d : Nat) (p : Option Nat),
      2 ≤ l.countP (fun img => decide (img.fname = pfdh.filename) && img.install_directly) →
      is_failure (check_loop cap pfdh destdir l idx skip d p) := by
  intro l
  induction l with
  | nil => intro _ _ _ _ h; simp at h
  | cons a rest ih =>
    intro idx skip d p h
    simp only [check_loop]
    split_ifs with hm hsz hcap hd hdir
    · left; exact ⟨rfl, rfl⟩
    · right; left; exact ⟨rfl, rfl⟩
    · right; right; exact ⟨rfl, rfl⟩
    · have h1 : 1 ≤ rest.countP
          (fun img => decide (img.fname = pfdh.filename) && img.install_directly) := by
        rw [List.countP_cons] at h
        split_ifs at h <;> omega
      have hpos : 0 < rest.countP
          (fun img => decide (img.fname = pfdh.filename) && img.install_directly) := h1
      rw [List.countP_pos_iff] at hpos
      obtain ⟨b, hb, hbp⟩ := hpos
      have hbm : pfdh.filename = b.fname := by
        simp only [Bool.and_eq_true, decide_eq_true_eq] at hbp
        exact hbp.1.symm
      exact check_loop_ambiguous_pending cap pfdh destdir rest _ _ _ _ (by omega) ⟨b, hb, hbm⟩
    · have h2 : 2 ≤ rest.countP
          (fun img => decide (img.fname = pfdh.filename) && img.install_directly) := by
        rw [List.countP_cons] at h
        have : ¬ ((decide (a.fname = pfdh.filename) && a.install_directly) = true) := by
          simp only [Bool.and_eq_true, decide_eq_true_eq, not_and]
          intro _; simpa using hdir
        rw [if_neg this] at h
        omega
      exact ih _ _ _ _ h2
    · have h2 : 2 ≤ rest.countP
          (fun img => decide (img.fname = pfdh.filename) && img.install_directly) := by
        rw [List.countP_cons] at h
        have : ¬ ((decide (a.fname = pfdh.filename) && a.install_directly) = true) := by
          simp only [Bool.and_eq_true, decide_eq_true_eq, not_and]
          intro h'; exact absurd h'.symm hm
        rw [if_neg this] at h
        omega
      exact ih _ _ _ _ h2

theorem check_loop_size_mismatch (cap : Nat) (pfdh : filehdr) (destdir : CStr) :
    ∀ (l : List img_type) (idx : Nat) (skip : Int) (d : Nat) (p : Option Nat),
      (check_loop cap pfdh destdir l idx skip d p).err = some .SizeMismatch →
      ∃ pre b post, l = pre ++ b :: post ∧ b.fname = pfdh.filename ∧ b.size ≠ 0 ∧
        b.size ≠ to_uint pfdh.size ∧
        (check_loop cap pfdh destdir l idx skip d p).list =
          pre.map (visit pfdh destdir) ++ marked b :: post := by
  intro l
  induction l with
  | nil => intro _ _ _ _ h; simp [check_loop] at h
  | cons a rest ih =>
    intro idx skip d p
    simp only [check_loop]
    split_ifs with hm hsz hcap hd hdir
    · intro _
      exact ⟨[], a, rest, rfl, hm.symm, hsz.1, hsz.2, rfl⟩
    · intro h; simp at h
    · intro h; simp at h
    · intro h
      obtain ⟨pre, b, post, hl, h1, h2, h3, h4⟩ := ih _ _ _ _ h
      refine ⟨a :: pre, b, post, by rw [hl]; rfl, h1, h2, h3, ?_⟩
      simp only [List.map_cons, List.cons_append, visit, if_pos hm, staged]
      rw [h4, snprintf_fits _ _ _ hcap]
    · intro h
      obtain ⟨pre, b, post, hl, h1, h2, h3, h4⟩ := ih _ _ _ _ h
      refine ⟨a :: pre, b, post, by rw [hl]; rfl, h1, h2, h3, ?_⟩
      simp only [List.map_cons, List.cons_append, visit, if_pos hm, staged]
      rw [h4, snprintf_fits _ _ _ hcap]
    · intro h
      obtain ⟨pre, b, post, hl, h1, h2, h3, h4⟩ := ih _ _ _ _ h
      refine ⟨a :: pre, b, post, by rw [hl]; rfl, h1, h2, h3, ?_⟩
      simp only [List.map_cons, List.cons_append, visit, if_neg hm]
      rw [h4]

theorem check_loop_path_too_long (cap : Nat) (pfdh : filehdr) (destdir : CStr) :
    ∀ (l : List img_type) (idx : Nat) (skip : Int) (d : Nat) (p : Option Nat),
      (check_loop cap pfdh destdir l idx skip d p).err = some .PathTooLong →
      cap ≤ destdir.length + pfdh.filename.length := by
  intro l
  induction l with
  | nil => intro _ _ _ _ h; simp [check_loop] at h
  | cons a rest ih =>
    intro idx skip d p
    simp only [check_loop]
    split_ifs with hm hsz hcap hd hdir
    · intro h; simp at h
    · intro _; simpa [snprintf] using hcap
    · intro h; simp at h
    · exact ih _ _ _ _
    · exact ih _ _ _ _
    · exact ih _ _ _ _

theorem check_loop_unique (cap : Nat) (pfdh : filehdr) (destdir : CStr) :
    ∀ (l : List img_type) (idx : Nat) (skip : Int) (d : Nat) (p : Option Nat)
      (i : Nat) (img : img_type), l[i]? = some img → pfdh.filename = img.fname →
      img.install_directly = false →
      (∀ j other, l[j]? = some other → pfdh.filename = other.fname → j = i) →
      0 ≤ (check_loop cap pfdh destdir l idx skip d p).ret →
      (check_loop cap pfdh destdir l idx skip d p).ret = COPY_FILE ∧
      (check_loop cap pfdh destdir l idx skip d p).pimg = some (idx + i) := by
  intro l
  induction l with
  | nil => intro _ _ _ _ i img h; simp at h
  | cons a rest ih =>
    intro idx skip d p i img h hm hdir huniq
    cases i with
    | zero =>
      simp only [List.getElem?_cons_zero, Option.some.injEq] at h
      subst h
      have hrest : ∀ b ∈ rest, pfdh.filename ≠ b.fname := by
        intro b hb hbm
        obtain ⟨j, hj⟩ := List.getElem?_of_mem hb
        have := huniq (j + 1) b (by simpa using hj) hbm
        omega
      simp only [check_loop, if_pos hm]
      split_ifs with hsz hcap hd hdir2
      · intro h0; simp [EINVAL] at h0
      · intro h0; simp [EBADF] at h0
      · intro h0; simp [EINVAL] at h0
      · simp [hdir] at hdir2
      · intro _
        rw [check_loop_nomatch cap pfdh destdir rest _ _ _ _ hrest]
        exact ⟨rfl, rfl⟩
    | succ i =>
      have ha : pfdh.filename ≠ a.fname := by
        intro ham
        have := huniq 0 a (by simp) ham
        omega
      simp only [List.getElem?_cons_succ] at h
      simp only [check_loop, if_neg ha]
      intro h0
      have hu : ∀ j other, rest[j]? = some other → pfdh.filename = other.fname → j = i := by
        intro j other hj hjm
        have := huniq (j + 1) other (by simpa using hj) hjm
        omega
      have := ih (idx + 1) skip d p i img h hm hdir hu h0
      refine ⟨this.1, ?_⟩
      rw [this.2]
      congr 1
      omega

theorem check_loop_first_overflow (cap : Nat) (pfdh : filehdr) (destdir : CStr) :
    ∀ (l : List img_type) (idx : Nat) (skip : Int) (d : Nat) (p : Option Nat)
      (i : Nat) (img : img_type), l[i]? = some img → pfdh.filename = img.fname →
      (∀ j other, j < i → l[j]? = some other → pfdh.filename ≠ other.fname) →
      (img.size = 0 ∨ img.size = to_uint pfdh.size) →
      cap ≤ destdir.length + pfdh.filename.length →
      check_loop cap pfdh destdir l idx skip d p =
        ⟨-EBADF, l.set i (overflowed cap pfdh destdir img), p, some .PathTooLong⟩ := by
  intro l
  induction l with
  | nil => intro _ _ _ _ i img h; simp at h
  | cons a rest ih =>
    intro idx skip d p i img h hm hfirst hsize hlong
    cases i with
    | zero =>
      simp only [List.getElem?_cons_zero, Option.some.injEq] at h
      subst h
      have hsz : ¬ (a.size ≠ 0 ∧ a.size ≠ to_uint pfdh.size) := by
        rintro ⟨h1, h2⟩
        rcases hsize with h | h
        · exact h1 h
        · exact h2 h
      have hcap : (snprintf a.extract_file cap (destdir ++ pfdh.filename)).2 ≥ cap := by
        simpa [snprintf] using hlong
      simp only [check_loop, if_pos hm, if_neg hsz, if_pos hcap, List.set_cons_zero, overflowed]
    | succ i =>
      have ha : pfdh.filename ≠ a.fname := hfirst 0 a (by omega) (by simp)
      simp only [List.getElem?_cons_succ] at h
      have hf : ∀ j other, j < i → rest[j]? = some other → pfdh.filename ≠ other.fname := by
        intro j other hj hjo
        exact hfirst (j + 1) other (by omega) (by simpa using hjo)
      simp only [check_loop, if_neg ha, ih (idx + 1) skip d p i img h hm hf hsize hlong,
        List.set_cons_succ]

/-! ## Claims on `check_if_required` -/

/-- C1 as stated fails: the code compares and stores `(unsigned int)pfdh->size`.
For an incoming file `f` of size `2^32 + 5` the call returns `COPY_FILE`, the
matching image gets the size 5, which is not the observed size, and an image
that declares the size 5 passes the size check as well. -/
theorem check_if_required_size_wraps :
    (check_if_required 256 [mk_img "f".toList 0 false] ⟨"f".toList, 4294967301⟩
        "/tmp/".toList none).ret = COPY_FILE ∧
    (check_if_required 256 [mk_img "f".toList 0 false] ⟨"f".toList, 4294967301⟩
        "/tmp/".toList none).list =
      [{ mk_img "f".toList 0 false with
          provided := true, size := 5, extract_file := "/tmp/f".toList }] ∧
    (5 : Nat) ≠ 4294967301 ∧
    (check_if_required 256 [mk_img "f".toList 5 false] ⟨"f".toList, 4294967301⟩
        "/tmp/".toList none).ret = COPY_FILE := by
  decide

/-- C1, amended: when `check_if_required` returns a non-error result, the list
is the old one with every image named like the incoming file staged: `provided`
set, size equal to the observed size converted to `unsigned int` (the observed
size modulo `2^32`, so the observed size itself when that is below `2^32`),
staging path exactly `destdir ++ filename`, nothing else changed; and when
exactly one image matches and it does not request `install_directly`, the result
is `COPY_FILE` and `*pimg` is that image. -/
theorem check_if_required_success (cap : Nat) (list : List img_type) (pfdh : filehdr)
    (destdir : CStr) (pimg : Option Nat)
    (hok : 0 ≤ (check_if_required cap list pfdh destdir pimg).ret) :
    (check_if_required cap list pfdh destdir pimg).list =
      list.map (fun img => if img.fname = pfdh.filename then
        { img with provided := true, size := pfdh.size % 2 ^ 32,
                   extract_file := destdir ++ pfdh.filename } else img) ∧
    (∀ img ∈ (check_if_required cap list pfdh destdir pimg).list,
      img.fname = pfdh.filename →
        img.provided = true ∧ img.size = pfdh.size % 2 ^ 32 ∧
        (pfdh.size < 2 ^ 32 → img.size = pfdh.size) ∧
        img.extract_file = destdir ++ pfdh.filename) ∧
    (∀ i img, list[i]? = some img → img.fname = pfdh.filename →
      img.install_directly = false →
      (∀ j other, list[j]? = some other → other.fname = pfdh.filename → j = i) →
      (check_if_required cap list pfdh destdir pimg).ret = COPY_FILE ∧
      (check_if_required cap list pfdh destdir pimg).pimg = some i) := by
  have hlist := check_loop_ok cap pfdh destdir list 0 SKIP_FILE 0 pimg hok
  have hvisit : visit pfdh destdir = (fun img => if img.fname = pfdh.filename then
        { img with provided := true, size := pfdh.size % 2 ^ 32,
                   extract_file := destdir ++ pfdh.filename } else img) := by
    funext img
    by_cases h : pfdh.filename = img.fname
    · simp only [visit, if_pos h, if_pos h.symm, staged, to_uint]
    · have h' : ¬ img.fname = pfdh.filename := fun e => h e.symm
      simp only [visit, if_neg h, if_neg h']
  refine ⟨?_, ?_, ?_⟩
  · show (check_loop cap pfdh destdir list 0 SKIP_FILE 0 pimg).list = _
    rw [hlist, hvisit]
  · intro img himg hm
    have himg' : img ∈ list.map (visit pfdh destdir) := by
      have : (check_if_required cap list pfdh destdir pimg).list =
          list.map (visit pfdh destdir) := hlist
      rw [this] at himg
      exact himg
    obtain ⟨a, _, rfl⟩ := List.mem_map.mp himg'
    by_cases h : pfdh.filename = a.fname
    · simp only [visit, if_pos h, staged, to_uint, true_and, and_true]
      exact fun hlt => Nat.mod_eq_of_lt hlt
    · simp only [visit, if_neg h] at hm
      exact absurd hm.symm h
  · intro i img hi hm hdir huniq
    have := check_loop_unique cap pfdh destdir list 0 SKIP_FILE 0 pimg i img hi hm.symm hdir
      (fun j other hj hjm => huniq j other hj hjm.symm) hok
    simpa [check_if_required] using this

/-- C1 amended, at a concrete input: one pending image `f`, an incoming `f` of
size 100. -/
theorem check_if_required_success_witness :
    (check_if_required 256 [mk_img "f".toList 0 false] ⟨"f".toList, 100⟩ "/tmp/".toList
        none).list =
      [{ mk_img "f".toList 0 false with
          provided := true, size := 100, extract_file := "/tmp/f".toList }] ∧
    (check_if_required 256 [mk_img "f".toList 0 false] ⟨"f".toList, 100⟩ "/tmp/".toList
        none).ret = COPY_FILE ∧
    (check_if_required 256 [mk_img "f".toList 0 false] ⟨"f".toList, 100⟩ "/tmp/".toList
        none).pimg = some 0 := by
  have h := check_if_required_success 256 [mk_img "f".toList 0 false] ⟨"f".toList, 100⟩
    "/tmp/".toList none (by decide)
  refine ⟨by decide, ?_⟩
  refine h.2.2 0 (mk_img "f".toList 0 false) rfl rfl rfl ?_
  intro j other hj _
  cases j with
  | zero => rfl
  | succ j => simp at hj

/-- C2: a list holding at least two images that are named like the incoming
file and both request `install_directly` makes `check_if_required` fail: the
return value is negative, never `SKIP_FILE`, `COPY_FILE` or
`INSTALL_FROM_STREAM`; the failure is `AmbiguousStream` with `-EINVAL` unless a
size mismatch (`-EINVAL`) or a path overflow (`-EBADF`) is hit first, so it is
`AmbiguousStream` whenever no matching image declares another non-zero size and
the staging path fits. -/
theorem check_if_required_two_streams (cap : Nat) (list : List img_type) (pfdh : filehdr)
    (destdir : CStr) (pimg : Option Nat)
    (htwo : 2 ≤ list.countP
      (fun img => decide (img.fname = pfdh.filename) && img.install_directly)) :
    (check_if_required cap list pfdh destdir pimg).ret < 0 ∧
    (check_if_required cap list pfdh destdir pimg).ret ≠ SKIP_FILE ∧
    (check_if_required cap list pfdh destdir pimg).ret ≠ COPY_FILE ∧
    (check_if_required cap list pfdh destdir pimg).ret ≠ INSTALL_FROM_STREAM ∧
    is_failure (check_if_required cap list pfdh destdir pimg) ∧
    ((∀ img ∈ list, img.fname = pfdh.filename →
        img.size = 0 ∨ img.size = to_uint pfdh.size) →
      destdir.length + pfdh.filename.length < cap →
      (check_if_required cap list pfdh destdir pimg).err = some .AmbiguousStream ∧
      (check_if_required cap list pfdh destdir pimg).ret = -EINVAL) := by
  have hf : is_failure (check_if_required cap list pfdh destdir pimg) :=
    check_loop_two_direct cap pfdh destdir list 0 SKIP_FILE 0 pimg htwo
  have hneg : (check_if_required cap list pfdh destdir pimg).ret = -EINVAL ∨
      (check_if_required cap list pfdh destdir pimg).ret = -EBADF := by
    rcases hf with h | h | h
    · exact Or.inl h.2
    · exact Or.inr h.2
    · exact Or.inl h.2
  refine ⟨?_, ?_, ?_, ?_, hf, ?_⟩
  · rcases hneg with h | h <;> rw [h] <;> decide
  · rcases hneg with h | h <;> rw [h] <;> decide
  · rcases hneg with h | h <;> rw [h] <;> decide
  · rcases hneg with h | h <;> rw [h] <;> decide
  · intro hsz hfit
    rcases hf with h | h | h
    · obtain ⟨pre, b, post, hl, hb1, hb2, hb3, _⟩ :=
        check_loop_size_mismatch cap pfdh destdir list 0 SKIP_FILE 0 pimg h.1
      have hb : b ∈ list := by rw [hl]; simp
      rcases hsz b hb hb1 with h0 | h0
      · exact absurd h0 hb2
      · exact absurd h0 hb3
    · have := check_loop_path_too_long cap pfdh destdir list 0 SKIP_FILE 0 pimg h.1
      omega
    · exact h

/-- C2, at a concrete input: two pending images `f`, both streamed directly. -/
theorem check_if_required_two_streams_witness :
    (check_if_required 256 [mk_img "f".toList 0 true, mk_img "f".toList 0 true]
        ⟨"f".toList, 100⟩ "/tmp/".toList none).err = some .AmbiguousStream ∧
    (check_if_required 256 [mk_img "f".toList 0 true, mk_img "f".toList 0 true]
        ⟨"f".toList, 100⟩ "/tmp/".toList none).ret = -EINVAL :=
  (check_if_required_two_streams 256 [mk_img "f".toList 0 true, mk_img "f".toList 0 true]
    ⟨"f".toList, 100⟩ "/tmp/".toList none (by decide)).2.2.2.2.2 (by decide) (by decide)

/-- C3 as stated fails: with pending images `f` (no declared size) and `f`
(declared size 50) and an incoming `f` of size 51, the call fails with
`SizeMismatch` at the second image, and the first one, another image of the
list, has been staged by the same call. -/
theorem check_if_required_size_mismatch_mutates :
    (check_if_required 256 [mk_img "f".toList 0 false, mk_img "f".toList 50 false]
        ⟨"f".toList, 51⟩ "/tmp/".toList none).err = some .SizeMismatch ∧
    (check_if_required 256 [mk_img "f".toList 0 false, mk_img "f".toList 50 false]
        ⟨"f".toList, 51⟩ "/tmp/".toList none).ret = -EINVAL ∧
    (check_if_required 256 [mk_img "f".toList 0 false, mk_img "f".toList 50 false]
        ⟨"f".toList, 51⟩ "/tmp/".toList none).list[1]? =
      some (marked (mk_img "f".toList 50 false)) ∧
    (check_if_required 256 [mk_img "f".toList 0 false, mk_img "f".toList 50 false]
        ⟨"f".toList, 51⟩ "/tmp/".toList none).list[0]? =
      some { mk_img "f".toList 0 false with
        provided := true, size := 51, extract_file := "/tmp/f".toList } ∧
    (check_if_required 256 [mk_img "f".toList 0 false, mk_img "f".toList 50 false]
        ⟨"f".toList, 51⟩ "/tmp/".toList none).list[0]? ≠
      [mk_img "f".toList 0 false, mk_img "f".toList 50 false][0]? := by
  decide

/-- C3, amended: when `check_if_required` fails with `SizeMismatch`, the list
splits at the failing image `b` (named like the incoming file, with a declared
non-zero size different from the observed one); the return value is `-EINVAL`,
every image after `b` is as before the call, every image before `b` with another
filename is as before the call, the matching images before `b` are staged, and
`b` itself has only `provided` set. -/
theorem check_if_required_size_mismatch_frame (cap : Nat) (list : List img_type)
    (pfdh : filehdr) (destdir : CStr) (pimg : Option Nat)
    (hfail : (check_if_required cap list pfdh destdir pimg).err = some .SizeMismatch) :
    (check_if_required cap list pfdh destdir pimg).ret = -EINVAL ∧
    ∃ pre b post, list = pre ++ b :: post ∧
      b.fname = pfdh.filename ∧ b.size ≠ 0 ∧ b.size ≠ to_uint pfdh.size ∧
      (check_if_required cap list pfdh destdir pimg).list =
        pre.map (fun img => if img.fname = pfdh.filename then
          { img with provided := true, size := to_uint pfdh.size,
                     extract_file := destdir ++ pfdh.filename } else img)
        ++ { b with provided := true } :: post := by
  have hvisit : visit pfdh destdir = (fun img => if img.fname = pfdh.filename then
        { img with provided := true, size := to_uint pfdh.size,
                   extract_file := destdir ++ pfdh.filename } else img) := by
    funext img
    by_cases h : pfdh.filename = img.fname
    · simp only [visit, if_pos h, if_pos h.symm, staged]
    · have h' : ¬ img.fname = pfdh.filename := fun e => h e.symm
      simp only [visit, if_neg h, if_neg h']
  constructor
  · rcases check_loop_ret cap pfdh destdir list 0 SKIP_FILE 0 pimg with h | h | h | h
    · have : (check_if_required cap list pfdh destdir pimg).err = none := h.1
      rw [this] at hfail; simp at hfail
    · exact h.2
    · have : (check_if_required cap list pfdh destdir pimg).err = some .PathTooLong := h.1
      rw [this] at hfail; simp at hfail
    · exact h.2
  · obtain ⟨pre, b, post, hl, h1, h2, h3, h4⟩ :=
      check_loop_size_mismatch cap pfdh destdir list 0 SKIP_FILE 0 pimg hfail
    refine ⟨pre, b, post, hl, h1, h2, h3, ?_⟩
    rw [← hvisit]
    exact h4

/-- C3 amended, at a concrete input: `f`, `g`, `f` (declared size 50), `f`
against an incoming `f` of size 51. -/
theorem check_if_required_size_mismatch_frame_witness :
    (check_if_required 256
        [mk_img "f".toList 0 false, mk_img "g".toList 7 false, mk_img "f".toList 50 false,
          mk_img "f".toList 0 false]
        ⟨"f".toList, 51⟩ "/tmp/".toList none).ret = -EINVAL ∧
    (check_if_required 256
        [mk_img "f".toList 0 false, mk_img "g".toList 7 false, mk_img "f".toList 50 false,
          mk_img "f".toList 0 false]
        ⟨"f".toList, 51⟩ "/tmp/".toList none).list =
      [{ mk_img "f".toList 0 false with
          provided := true, size := 51, extract_file := "/tmp/f".toList },
        mk_img "g".toList 7 false,
        { mk_img "f".toList 50 false with provided := true },
        mk_img "f".toList 0 false] :=
  ⟨(check_if_required_size_mismatch_frame 256
      [mk_img "f".toList 0 false, mk_img "g".toList 7 false, mk_img "f".toList 50 false,
        mk_img "f".toList 0 false]
      ⟨"f".toList, 51⟩ "/tmp/".toList none (by decide)).1, by decide⟩

/-- C4: in every call of `check_if_required`, failing ones included, the list
keeps its length and every image whose filename differs from the incoming one is
exactly as before (so its `provided` flag is not set by the call); when no image
has the incoming filename the result is `SKIP_FILE`, no diagnostic is logged,
the list is unchanged and `*pimg` keeps its value. -/
theorem check_if_required_frame (cap : Nat) (list : List img_type) (pfdh : filehdr)
    (destdir : CStr) (pimg : Option Nat) :
    (check_if_required cap list pfdh destdir pimg).list.length = list.length ∧
    (∀ (i : Nat) (img : img_type), list[i]? = some img → img.fname ≠ pfdh.filename →
      (check_if_required cap list pfdh destdir pimg).list[i]? = some img) ∧
    ((∀ img ∈ list, img.fname ≠ pfdh.filename) →
      (check_if_required cap list pfdh destdir pimg).ret = SKIP_FILE ∧
      (check_if_required cap list pfdh destdir pimg).list = list ∧
      (check_if_required cap list pfdh destdir pimg).pimg = pimg ∧
      (check_if_required cap list pfdh destdir pimg).err = none) := by
  refine ⟨check_loop_length cap pfdh destdir list 0 SKIP_FILE 0 pimg, ?_, ?_⟩
  · intro i img hi hne
    exact check_loop_frame cap pfdh destdir list 0 SKIP_FILE 0 pimg i img hi
      (fun e => hne e.symm)
  · intro hno
    have := check_loop_nomatch cap pfdh destdir list 0 SKIP_FILE 0 pimg
      (fun a ha e => hno a ha e.symm)
    simp only [check_if_required, this, and_self]

/-- C4, at a concrete input: a failing call (path overflow at `f`) leaves the
image `g` as it was, and a call for a file that no image names changes nothing. -/
theorem check_if_required_frame_witness :
    (check_if_required 4 [mk_img "g".toList 7 false, mk_img "f".toList 0 false]
        ⟨"f".toList, 51⟩ "/tmp/".toList (some 5)).list[0]? = some (mk_img "g".toList 7 false) ∧
    (check_if_required 4 [mk_img "g".toList 7 false, mk_img "f".toList 0 false]
        ⟨"h".toList, 51⟩ "/tmp/".toList (some 5)).ret = SKIP_FILE ∧
    (check_if_required 4 [mk_img "g".toList 7 false, mk_img "f".toList 0 false]
        ⟨"h".toList, 51⟩ "/tmp/".toList (some 5)).pimg = some 5 :=
  ⟨(check_if_required_frame 4 [mk_img "g".toList 7 false, mk_img "f".toList 0 false]
      ⟨"f".toList, 51⟩ "/tmp/".toList (some 5)).2.1 0 (mk_img "g".toList 7 false) rfl
      (by decide),
   ((check_if_required_frame 4 [mk_img "g".toList 7 false, mk_img "f".toList 0 false]
      ⟨"h".toList, 51⟩ "/tmp/".toList (some 5)).2.2 (by decide)).1,
   ((check_if_required_frame 4 [mk_img "g".toList 7 false, mk_img "f".toList 0 false]
      ⟨"h".toList, 51⟩ "/tmp/".toList (some 5)).2.2 (by decide)).2.2.1⟩

/-- C5 as stated fails: with an 8-byte staging buffer, `destdir = "/tmp/"` and
the incoming file `image`, the call fails with `PathTooLong` and the matching
image, whose staging path was empty, now stores `"/tmp/im"`, the first seven
characters of `destdir ++ filename`. -/
theorem check_if_required_overflow_truncates :
    (check_if_required 8 [mk_img "image".toList 0 false] ⟨"image".toList, 51⟩
        "/tmp/".toList none).err = some .PathTooLong ∧
    (check_if_required 8 [mk_img "image".toList 0 false] ⟨"image".toList, 51⟩
        "/tmp/".toList none).ret = -EBADF ∧
    (check_if_required 8 [mk_img "image".toList 0 false] ⟨"image".toList, 51⟩
        "/tmp/".toList none).list =
      [{ mk_img "image".toList 0 false with
          provided := true, size := 51, extract_file := "/tmp/im".toList }] ∧
    (mk_img "image".toList 0 false).extract_file = [] ∧
    "/tmp/im".toList = ("/tmp/".toList ++ "image".toList).take 7 ∧
    "/tmp/im".toList ≠ "/tmp/".toList ++ "image".toList := by
  decide

/-- C5, amended: for the first image named like the incoming file, when its
size check passes, `check_if_required` fails with `PathTooLong` (`-EBADF`) if
and only if `length destdir + length filename` is at least the capacity of the
staging buffer; the failing call returns at once (every other image and `*pimg`
as before) and leaves in that image `provided` set, the observed size and, as
staging path, what `snprintf` stored: the first `cap - 1` characters of
`destdir ++ filename` (the buffer is left alone only when `cap` is zero). -/
theorem check_if_required_overflow (cap : Nat) (list : List img_type) (pfdh : filehdr)
    (destdir : CStr) (pimg : Option Nat) (i : Nat) (img : img_type)
    (hi : list[i]? = some img) (hmatch : img.fname = pfdh.filename)
    (hfirst : ∀ j other, j < i → list[j]? = some other → other.fname ≠ pfdh.filename)
    (hsize : img.size = 0 ∨ img.size = to_uint pfdh.size) :
    ((check_if_required cap list pfdh destdir pimg).ret = -EBADF ↔
      cap ≤ destdir.length + pfdh.filename.length) ∧
    ((check_if_required cap list pfdh destdir pimg).err = some .PathTooLong ↔
      cap ≤ destdir.length + pfdh.filename.length) ∧
    (cap ≤ destdir.length + pfdh.filename.length →
      (check_if_required cap list pfdh destdir pimg).list =
        list.set i { img with
          provided := true, size := to_uint pfdh.size,
          extract_file := if cap = 0 then img.extract_file
            else (destdir ++ pfdh.filename).take (cap - 1) } ∧
      (check_if_required cap list pfdh destdir pimg).pimg = pimg) := by
  have hover : cap ≤ destdir.length + pfdh.filename.length →
      check_if_required cap list pfdh destdir pimg =
        ⟨-EBADF, list.set i (overflowed cap pfdh destdir img), pimg, some .PathTooLong⟩ :=
    fun hlong => check_loop_first_overflow cap pfdh destdir list 0 SKIP_FILE 0 pimg i img hi
      hmatch.symm (fun j other hj hjo e => hfirst j other hj hjo e.symm) hsize hlong
  have herr : (check_if_required cap list pfdh destdir pimg).err = some .PathTooLong →
      cap ≤ destdir.length + pfdh.filename.length :=
    check_loop_path_too_long cap pfdh destdir list 0 SKIP_FILE 0 pimg
  refine ⟨⟨?_, fun h => by rw [hover h]⟩, ⟨herr, fun h => by rw [hover h]⟩, ?_⟩
  · intro hret
    rcases check_loop_ret cap pfdh destdir list 0 SKIP_FILE 0 pimg with h | h | h | h
    · have h2 : (check_if_required cap list pfdh destdir pimg).ret = SKIP_FILE ∨
          (check_if_required cap list pfdh destdir pimg).ret = COPY_FILE ∨
          (check_if_required cap list pfdh destdir pimg).ret = INSTALL_FROM_STREAM := h.2
      rw [hret] at h2
      exact absurd h2 (by decide)
    · have h2 : (check_if_required cap list pfdh destdir pimg).ret = -EINVAL := h.2
      rw [hret] at h2
      exact absurd h2 (by decide)
    · exact herr h.1
    · have h2 : (check_if_required cap list pfdh destdir pimg).ret = -EINVAL := h.2
      rw [hret] at h2
      exact absurd h2 (by decide)
  · intro hlong
    rw [hover hlong]
    simp only [overflowed, snprintf, and_self]

/-- C5 amended, at a concrete input: an 8-byte buffer and the ten characters
of `"/tmp/image"`. -/
theorem check_if_required_overflow_witness :
    (check_if_required 8 [mk_img "g".toList 7 false, mk_img "image".toList 0 false]
        ⟨"image".toList, 51⟩ "/tmp/".toList none).ret = -EBADF :=
  (check_if_required_overflow 8 [mk_img "g".toList 7 false, mk_img "image".toList 0 false]
    ⟨"image".toList, 51⟩ "/tmp/".toList none 1 (mk_img "image".toList 0 false) rfl rfl
    (by
      intro j other hj hjo
      have : j = 0 := by omega
      subst this
      simp only [List.getElem?_cons_zero, Option.some.injEq] at hjo
      subst hjo
      decide)
    (Or.inl rfl)).1.mpr (by decide)

/-! ## Lemmas on `find_root` -/

theorem pre_decrement_succ (n : Nat) (hn : n + 1 < 2 ^ 32) : pre_decrement (n + 1) = n := by
  unfold pre_decrement
  omega

theorem json_not_set (node : json_object) (h : node.is_set = false) : node = .null := by
  cases node <;> simp [json_object.is_set] at h ⊢

theorem find_root_json_from_lookups (sfp : List CStr → CStr → Bool × List CStr)
    (root : json_object) :
    ∀ (d : Nat) (nodes : List CStr), (find_root_json_from sfp root d nodes).lookups ≤ d := by
  intro d
  induction d with
  | zero => intro nodes; simp [find_root_json_from]
  | succ d ih =>
    intro nodes
    simp only [find_root_json_from]
    split_ifs with h1 h2
    · split
      · split_ifs
        · simp
        · rename_i str _ _
          have := ih (sfp nodes str).2
          simp only
          omega
      · simp
    · simp
    · simp

theorem find_root_libconfig_from_lookups (mstrcat : List CStr → CStr → Option CStr)
    (sfp : List CStr → CStr → Bool × List CStr) (cfg : config_t) :
    ∀ (d : Nat) (nodes : List CStr),
      (find_root_libconfig_from mstrcat sfp cfg d nodes).lookups ≤ d := by
  intro d
  induction d with
  | zero => intro nodes; simp [find_root_libconfig_from]
  | succ d ih =>
    intro nodes
    simp only [find_root_libconfig_from]
    split
    · simp
    · split
      · split_ifs
        · split
          · split_ifs
            · simp
            · rename_i ref _ _
              have := ih (sfp nodes ref).2
              simp only
              omega
          · simp
        · simp
      · simp

theorem find_root_json_from_unresolved (sfp : List CStr → CStr → Bool × List CStr)
    (root : json_object) :
    ∀ (d : Nat) (nodes : List CStr), json_chain_resolves sfp root (d + 1) nodes = false →
      (find_root_json_from sfp root d nodes).node = .null := by
  intro d
  induction d with
  | zero => intro nodes _; rfl
  | succ d ih =>
    intro nodes h
    rw [json_chain_resolves] at h
    simp only [find_root_json_from]
    simp only [get_node_json] at h
    by_cases h1 : (find_json_recursive_node root nodes).is_set = true
    · rw [if_pos h1]
      by_cases hc : json_object_get_type (find_json_recursive_node root nodes) =
            .json_type_object ∨
          json_object_get_type (find_json_recursive_node root nodes) = .json_type_array
      · rw [if_pos hc] at h
        rw [if_pos hc]
        cases hr : get_field_string_json (find_json_recursive_node root nodes)
            (some ref_field) with
        | none => rw [hr] at h; simp at h
        | some str =>
          rw [hr] at h
          simp only [Bool.and_eq_false_imp] at h
          dsimp only
          by_cases h2 : (sfp nodes str).1 = true
          · have h3 : ¬ ((!(sfp nodes str).1) = true) := by simp [h2]
            rw [if_neg h3]
            exact ih _ (h h2)
          · have h3 : (!(sfp nodes str).1) = true := by simpa using h2
            rw [if_pos h3]
      · rw [if_neg hc] at h
        rw [h] at h1
        simp at h1
    · rw [if_neg h1]
      exact json_not_set _ (by simpa using h1)

theorem find_root_libconfig_from_unresolved (mstrcat : List CStr → CStr → Option CStr)
    (sfp : List CStr → CStr → Bool × List CStr) (cfg : config_t) :
    ∀ (d : Nat) (nodes : List CStr), cfg_chain_resolves mstrcat sfp cfg (d + 1) nodes = false →
      (find_root_libconfig_from mstrcat sfp cfg d nodes).node = none := by
  intro d
  induction d with
  | zero => intro nodes _; rfl
  | succ d ih =>
    intro nodes h
    rw [cfg_chain_resolves] at h
    simp only [find_root_libconfig_from]
    simp only [get_node_libconfig] at h
    cases hm : mstrcat nodes ".".toList with
    | none => rfl
    | some p =>
      rw [hm] at h
      simp only at h ⊢
      cases hl : config_lookup cfg p with
      | none => rfl
      | some elem =>
        rw [hl] at h
        simp only at h ⊢
        by_cases hg : config_setting_is_group elem = true
        · rw [if_pos hg] at h
          rw [if_pos hg]
          cases hr : get_field_string_libconfig elem (some ref_field) with
          | none => rw [hr] at h; simp at h
          | some ref =>
            rw [hr] at h
            simp only [Bool.and_eq_false_imp] at h
            simp only
            split_ifs with h2
            · rfl
            · simp only [Bool.not_eq_true', Bool.not_eq_false] at h2
              exact ih _ (h h2)
        · rw [if_neg hg] at h
          simp at h

/-! ## Claims on `find_root` -/

/-- C6 as stated fails at `max_depth = 1`: the path `A` resolves to a node
without a `ref` field, `get_node` returns that node, and `find_root` returns
absent, in both backends. -/
theorem find_root_depth_one_absent :
    (get_node_json json_plain ["A".toList]).is_set = true ∧
    get_field_string_json (get_node_json json_plain ["A".toList]) (some ref_field) = none ∧
    (find_root_json set_find_path_model json_plain ["A".toList] 1).node.is_set = false ∧
    (get_node_libconfig mstrcat_model cfg_plain ["A".toList]).isSome = true ∧
    (get_node_libconfig mstrcat_model cfg_plain ["A".toList]).all
      (fun elem => (get_field_string_libconfig elem (some ref_field)).isNone) = true ∧
    (find_root_libconfig mstrcat_model set_find_path_model cfg_plain ["A".toList] 1).node.isNone
      = true := by
  decide

/-- C6, amended: for both backends, every tree, every path and every
`max_depth` from 2 up (an `unsigned int`), if the node the path resolves to is
not a container holding a string field `ref` (an object or array for JSON, a
group for libconfig; a path that does not resolve included), `find_root` returns
exactly what `get_node` returns for the same path, whatever `mstrcat` and
`set_find_path` do. -/
theorem find_root_without_ref (mstrcat : List CStr → CStr → Option CStr)
    (sfp : List CStr → CStr → Bool × List CStr) (root : json_object) (cfg : config_t)
    (nodes : List CStr) (depth : Nat) (hlo : 2 ≤ depth) (hhi : depth < 2 ^ 32) :
    ((json_object_get_type (get_node_json root nodes) = .json_type_object ∨
        json_object_get_type (get_node_json root nodes) = .json_type_array →
        get_field_string_json (get_node_json root nodes) (some ref_field) = none) →
      (find_root_json sfp root nodes depth).node = get_node_json root nodes) ∧
    ((∀ elem, get_node_libconfig mstrcat cfg nodes = some elem →
        config_setting_is_group elem = true →
        get_field_string_libconfig elem (some ref_field) = none) →
      (find_root_libconfig mstrcat sfp cfg nodes depth).node =
        get_node_libconfig mstrcat cfg nodes) := by
  obtain ⟨d, rfl⟩ : ∃ d, depth = d + 1 + 1 := ⟨depth - 2, by omega⟩
  have hd : pre_decrement (d + 1 + 1) = d + 1 := pre_decrement_succ (d + 1) hhi
  constructor
  · intro h
    have e : find_root_json sfp root nodes (d + 1 + 1) =
        find_root_json_from sfp root (d + 1) nodes := by
      unfold find_root_json
      rw [hd]
    rw [e, find_root_json_from]
    simp only [get_node_json] at h ⊢
    split_ifs with h1 h2
    · rw [h h2]
    · rfl
    · rfl
  · intro h
    have e : find_root_libconfig mstrcat sfp cfg nodes (d + 1 + 1) =
        find_root_libconfig_from mstrcat sfp cfg (d + 1) nodes := by
      unfold find_root_libconfig
      rw [hd]
    rw [e, find_root_libconfig_from]
    simp only [get_node_libconfig] at h ⊢
    cases hm : mstrcat nodes ".".toList with
    | none => rfl
    | some p =>
      rw [hm] at h
      simp only at h ⊢
      cases hl : config_lookup cfg p with
      | none => rfl
      | some elem =>
        simp only
        split_ifs with hg
        · rw [h elem hl hg]
        · rfl

/-- C6 amended, at a concrete input: the plain node `A` with `max_depth = 2`. -/
theorem find_root_without_ref_witness :
    (find_root_json set_find_path_model json_plain ["A".toList] 2).node =
      get_node_json json_plain ["A".toList] ∧
    (find_root_libconfig mstrcat_model set_find_path_model cfg_plain ["A".toList] 2).node =
      get_node_libconfig mstrcat_model cfg_plain ["A".toList] :=
  ⟨(find_root_without_ref mstrcat_model set_find_path_model json_plain cfg_plain ["A".toList] 2
      (by decide) (by decide)).1 (fun _ => by decide),
   (find_root_without_ref mstrcat_model set_find_path_model json_plain cfg_plain ["A".toList] 2
      (by decide) (by decide)).2 (by
        intro elem he _
        have hall : (get_node_libconfig mstrcat_model cfg_plain ["A".toList]).all
            (fun elem => (get_field_string_libconfig elem (some ref_field)).isNone) = true := by
          decide
        rw [he] at hall
        simpa using hall)⟩

/-- C7: for both backends, every tree (alias cycles included), every path and
every `max_depth` from 1 up (an `unsigned int`), `find_root` is a total
function that performs at most `max_depth` path resolutions (indeed at most
`max_depth - 1`), and it returns absent whenever the alias chain starting at
the path does not reach a non-alias node within `max_depth` resolutions. -/
theorem find_root_bounded (mstrcat : List CStr → CStr → Option CStr)
    (sfp : List CStr → CStr → Bool × List CStr) (root : json_object) (cfg : config_t)
    (nodes : List CStr) (depth : Nat) (hlo : 1 ≤ depth) (hhi : depth < 2 ^ 32) :
    (find_root_json sfp root nodes depth).lookups ≤ depth - 1 ∧
    (find_root_json sfp root nodes depth).lookups ≤ depth ∧
    (json_chain_resolves sfp root depth nodes = false →
      (find_root_json sfp root nodes depth).node = .null) ∧
    (find_root_libconfig mstrcat sfp cfg nodes depth).lookups ≤ depth - 1 ∧
    (find_root_libconfig mstrcat sfp cfg nodes depth).lookups ≤ depth ∧
    (cfg_chain_resolves mstrcat sfp cfg depth nodes = false →
      (find_root_libconfig mstrcat sfp cfg nodes depth).node = none) := by
  obtain ⟨d, rfl⟩ : ∃ d, depth = d + 1 := ⟨depth - 1, by omega⟩
  have hd : pre_decrement (d + 1) = d := pre_decrement_succ d hhi
  have hj := find_root_json_from_lookups sfp root d nodes
  have hc := find_root_libconfig_from_lookups mstrcat sfp cfg d nodes
  have ej : find_root_json sfp root nodes (d + 1) = find_root_json_from sfp root d nodes := by
    unfold find_root_json
    rw [hd]
  have ec : find_root_libconfig mstrcat sfp cfg nodes (d + 1) =
      find_root_libconfig_from mstrcat sfp cfg d nodes := by
    unfold find_root_libconfig
    rw [hd]
  rw [ej, ec, Nat.add_sub_cancel]
  exact ⟨hj, by omega, find_root_json_from_unresolved sfp root d nodes, hc, by omega,
    find_root_libconfig_from_unresolved mstrcat sfp cfg d nodes⟩

/-- C7, at a concrete input: the chain `A → B → C → C` with `max_depth = 3`
ends absent after two path resolutions, in both backends. -/
theorem find_root_bounded_witness :
    (find_root_json set_find_path_model json_alias_cycle ["A".toList] 3).lookups ≤ 3 ∧
    (find_root_json set_find_path_model json_alias_cycle ["A".toList] 3).node = .null ∧
    (find_root_libconfig mstrcat_model set_find_path_model cfg_alias_cycle
      ["A".toList] 3).lookups ≤ 3 ∧
    (find_root_libconfig mstrcat_model set_find_path_model cfg_alias_cycle
      ["A".toList] 3).node = none :=
  ⟨(find_root_bounded mstrcat_model set_find_path_model json_alias_cycle cfg_alias_cycle
      ["A".toList] 3 (by decide) (by decide)).2.1,
   (find_root_bounded mstrcat_model set_find_path_model json_alias_cycle cfg_alias_cycle
      ["A".toList] 3 (by decide) (by decide)).2.2.1 (by decide),
   (find_root_bounded mstrcat_model set_find_path_model json_alias_cycle cfg_alias_cycle
      ["A".toList] 3 (by decide) (by decide)).2.2.2.2.1,
   (find_root_bounded mstrcat_model set_find_path_model json_alias_cycle cfg_alias_cycle
      ["A".toList] 3 (by decide) (by decide)).2.2.2.2.2 (by decide)⟩

/-! ## Lemmas on the installed-version registry -/

theorem strncmp_eq_iff (a b : CStr) (n : Nat) (ha : a.length < n) :
    strncmp_eq a b n = true ↔ a = b := by
  simp only [strncmp_eq, decide_eq_true_eq]
  rw [List.take_of_length_le (Nat.le_of_lt ha)]
  constructor
  · intro h
    have hlen : (b.take n).length = a.length := by rw [← h]
    rw [List.length_take] at hlen
    have hb : b.length ≤ n := by omega
    rw [List.take_of_length_le hb] at h
    exact h
  · intro h
    subst h
    exact (List.take_of_length_le (Nat.le_of_lt ha)).symm

theorem update_version_loop_none (n : Nat) (img : img_type) (hn : img.id.name.length < n) :
    ∀ (l : List sw_version), update_version_loop n img l = none ↔
      ∀ e ∈ l, e.name ≠ img.id.name := by
  intro l
  induction l with
  | nil => simp [update_version_loop]
  | cons a rest ih =>
    simp only [update_version_loop]
    by_cases h : strncmp_eq img.id.name a.name n = true
    · rw [if_pos h]
      have := (strncmp_eq_iff _ _ n hn).mp h
      simp [this]
    · rw [if_neg h]
      have hne : a.name ≠ img.id.name := fun e => h ((strncmp_eq_iff _ _ n hn).mpr e.symm)
      simp only [Option.map_eq_none', ih, List.mem_cons, forall_eq_or_imp, hne, ne_eq,
        not_false_eq_true, true_and]

theorem update_version_loop_some (n : Nat) (img : img_type) (hn : img.id.name.length < n) :
    ∀ (l updated : List sw_version), update_version_loop n img l = some updated →
      ∃ pre e post, l = pre ++ e :: post ∧ (∀ x ∈ pre, x.name ≠ img.id.name) ∧
        e.name = img.id.name ∧
        updated = pre ++ { e with version := strncpy img.id.version n } :: post := by
  intro l
  induction l with
  | nil => intro updated h; simp [update_version_loop] at h
  | cons a rest ih =>
    intro updated h
    simp only [update_version_loop] at h
    by_cases hm : strncmp_eq img.id.name a.name n = true
    · rw [if_pos hm] at h
      have ha := (strncmp_eq_iff _ _ n hn).mp hm
      refine ⟨[], a, rest, rfl, by simp, ha.symm, ?_⟩
      simpa using h.symm
    · rw [if_neg hm] at h
      have hne : a.name ≠ img.id.name := fun e => hm ((strncmp_eq_iff _ _ n hn).mpr e.symm)
      cases hr : update_version_loop n img rest with
      | none => rw [hr] at h; simp at h
      | some u =>
        rw [hr] at h
        obtain ⟨pre, e, post, h1, h2, h3, h4⟩ := ih u hr
        refine ⟨a :: pre, e, post, by rw [h1]; rfl, ?_, h3, ?_⟩
        · intro x hx
          rcases List.mem_cons.mp hx with rfl | hx
          · exact hne
          · exact h2 x hx
        · simp only [Option.map_some', Option.some.injEq] at h
          rw [← h, h4]
          rfl

theorem update_version_loop_at (n : Nat) (img : img_type) (hn : img.id.name.length < n)
    (e : sw_version) (post : List sw_version) (he : e.name = img.id.name) :
    ∀ (pre : List sw_version), (∀ x ∈ pre, x.name ≠ img.id.name) →
      update_version_loop n img (pre ++ e :: post) =
        some (pre ++ { e with version := strncpy img.id.version n } :: post) := by
  intro pre
  induction pre with
  | nil =>
    intro _
    have hm : strncmp_eq img.id.name e.name n = true := (strncmp_eq_iff _ _ n hn).mpr he.symm
    simp only [List.nil_append, update_version_loop, if_pos hm]
  | cons a rest ih =>
    intro h
    have hne : a.name ≠ img.id.name := h a (List.mem_cons_self _ _)
    have hm : ¬ strncmp_eq img.id.name a.name n = true :=
      fun hm => hne ((strncmp_eq_iff _ _ n hn).mp hm).symm
    have ih' := ih (fun x hx => h x (List.mem_cons_of_mem _ hx))
    rw [List.cons_append, update_version_loop, if_neg hm, ih']
    rfl

/-! ## Claims on the installed-version registry -/

/-- C8: for a registry that is unique by name and a component whose version is
not empty (name and version being strings that fit their `n`-byte arrays, and
`calloc` returning memory when a new entry is needed), after
`update_installed_image_version` the registry holds exactly one entry with that
name, that entry carries the new version, the entries with another name are the
same as before, in the same order, and the registry is still unique by name. -/
theorem update_installed_image_version_unique (n : Nat) (calloc_ok : Bool)
    (reg : List sw_version) (img : img_type)
    (huniq : (reg.map (fun e => e.name)).Nodup) (hver : img.id.version ≠ [])
    (hname : img.id.name.length < n) (hversion : img.id.version.length < n)
    (hcalloc : calloc_ok = true) :
    ∃ reg', (update_installed_image_version n calloc_ok (some reg) img).2 = some reg' ∧
      reg'.countP (fun e => decide (e.name = img.id.name)) = 1 ∧
      (∀ e ∈ reg', e.name = img.id.name → e.version = img.id.version) ∧
      reg'.filter (fun e => decide (e.name ≠ img.id.name)) =
        reg.filter (fun e => decide (e.name ≠ img.id.name)) ∧
      (reg'.map (fun e => e.name)).Nodup := by
  have hcopy : strncpy img.id.version n = img.id.version :=
    List.take_of_length_le (Nat.le_of_lt hversion)
  cases hl : update_version_loop n img reg with
  | some updated =>
    obtain ⟨pre, e, post, h1, h2, h3, h4⟩ := update_version_loop_some n img hname reg updated hl
    refine ⟨updated, by simp only [update_installed_image_version, hl], ?_⟩
    subst h1
    have hpost : ∀ x ∈ post, x.name ≠ img.id.name := by
      intro x hx hxn
      simp only [List.map_append, List.map_cons] at huniq
      have hnd := (List.nodup_append.mp huniq).2.1
      have := (List.nodup_cons.mp hnd).1
      apply this
      rw [h3, ← hxn]
      exact List.mem_map_of_mem _ hx
    have cpre : pre.countP (fun e => decide (e.name = img.id.name)) = 0 := by
      rw [List.countP_eq_zero]
      intro x hx
      simpa using h2 x hx
    have cpost : post.countP (fun e => decide (e.name = img.id.name)) = 0 := by
      rw [List.countP_eq_zero]
      intro x hx
      simpa using hpost x hx
    subst h4
    refine ⟨?_, ?_, ?_, ?_⟩
    · rw [List.countP_append, List.countP_cons, cpre, cpost]
      simp [h3]
    · intro x hx hxn
      rcases List.mem_append.mp hx with hx | hx
      · exact absurd hxn (h2 x hx)
      · rcases List.mem_cons.mp hx with rfl | hx
        · exact hcopy
        · exact absurd hxn (hpost x hx)
    · simp only [List.filter_append, List.filter_cons, h3, ne_eq, not_true_eq_false,
        decide_False, Bool.false_eq_true, if_false]
    · simpa only [List.map_append, List.map_cons] using huniq
  | none =>
    have hno := (update_version_loop_none n img hname reg).mp hl
    have hlen : ¬ img.id.version.length = 0 := by
      intro h0
      exact hver (List.length_eq_zero.mp h0)
    have hn1 : strlcpy img.id.name n = img.id.name :=
      List.take_of_length_le (by omega)
    have hv1 : strlcpy img.id.version n = img.id.version :=
      List.take_of_length_le (by omega)
    refine ⟨⟨img.id.name, img.id.version⟩ :: reg, ?_, ?_, ?_, ?_, ?_⟩
    · simp only [update_installed_image_version, hl, if_neg hlen, hcalloc, Bool.not_true,
        Bool.false_eq_true, if_false, hn1, hv1]
    · rw [List.countP_cons]
      have : reg.countP (fun e => decide (e.name = img.id.name)) = 0 := by
        rw [List.countP_eq_zero]
        intro x hx
        simpa using hno x hx
      simp [this]
    · intro x hx hxn
      rcases List.mem_cons.mp hx with rfl | hx
      · rfl
      · exact absurd hxn (hno x hx)
    · simp only [List.filter_cons, ne_eq, not_true_eq_false, decide_False, Bool.false_eq_true,
        if_false]
    · simp only [List.map_cons, List.nodup_cons]
      refine ⟨?_, huniq⟩
      intro hmem
      obtain ⟨x, hx, hxn⟩ := List.mem_map.mp hmem
      exact hno x hx hxn

/-- C8, at a concrete input: registering `app 2.0` over the registry that holds
`app 1.0` (itself the result of registering `app 1.0` in the empty registry)
leaves exactly the entry `app 2.0`. -/
theorem update_installed_image_version_unique_witness :
    (update_installed_image_version 256 true (some [])
        (mk_component "app".toList "1.0".toList)).2 = some [⟨"app".toList, "1.0".toList⟩] ∧
    (update_installed_image_version 256 true (some [⟨"app".toList, "1.0".toList⟩])
        (mk_component "app".toList "2.0".toList)).2 = some [⟨"app".toList, "2.0".toList⟩] ∧
    ∃ reg', (update_installed_image_version 256 true (some [⟨"app".toList, "1.0".toList⟩])
        (mk_component "app".toList "2.0".toList)).2 = some reg' ∧
      reg'.countP (fun e => decide (e.name = "app".toList)) = 1 :=
  ⟨by decide, by decide,
    (update_installed_image_version_unique 256 true [⟨"app".toList, "1.0".toList⟩]
      (mk_component "app".toList "2.0".toList) (by decide) (by decide) (by decide) (by decide)
      rfl).imp (fun _ h => ⟨h.1, h.2.1⟩)⟩

/-- C9 as stated fails: registering `app` with an empty version over the
registry that holds `app 2.0` overwrites the version of that entry with the
empty string (and reports an update). -/
theorem update_installed_image_version_empty_overwrites :
    update_installed_image_version 256 true (some [⟨"app".toList, "2.0".toList⟩])
        (mk_component "app".toList []) = (1, some [⟨"app".toList, []⟩]) ∧
    (mk_component "app".toList []).id.version = [] ∧
    some [(⟨"app".toList, []⟩ : sw_version)] ≠ some [⟨"app".toList, "2.0".toList⟩] := by
  decide

/-- C9, amended: for an image whose declared version is the empty string (its
name fitting the `n`-byte array), `update_installed_image_version` creates no
entry and renames none; when no entry carries the image's component name the
registry is unchanged and 0 is returned; when one does, the version of the
first such entry is overwritten with the empty string, every other entry is
unchanged, and 1 is returned. -/
theorem update_installed_image_version_empty (n : Nat) (calloc_ok : Bool)
    (reg : List sw_version) (img : img_type)
    (hver : img.id.version = []) (hname : img.id.name.length < n) :
    ∃ reg', (update_installed_image_version n calloc_ok (some reg) img).2 = some reg' ∧
      reg'.map (fun e => e.name) = reg.map (fun e => e.name) ∧
      ((∀ e ∈ reg, e.name ≠ img.id.name) →
        reg' = reg ∧ (update_installed_image_version n calloc_ok (some reg) img).1 = 0) ∧
      (∀ pre e post, reg = pre ++ e :: post → (∀ x ∈ pre, x.name ≠ img.id.name) →
        e.name = img.id.name →
        reg' = pre ++ { e with version := [] } :: post ∧
        (update_installed_image_version n calloc_ok (some reg) img).1 = 1) := by
  have hcopy : strncpy img.id.version n = [] := by rw [hver]; simp [strncpy]
  cases hl : update_version_loop n img reg with
  | some updated =>
    obtain ⟨pre, e, post, h1, h2, h3, h4⟩ := update_version_loop_some n img hname reg updated hl
    refine ⟨updated, by simp only [update_installed_image_version, hl], ?_, ?_, ?_⟩
    · rw [h4, h1]
      simp only [List.map_append, List.map_cons]
    · intro hno
      have he : e ∈ reg := by rw [h1]; simp
      exact absurd h3 (hno e he)
    · intro pre' e' post' hreg hpre' he'
      have := update_version_loop_at n img hname e' post' he' pre' hpre'
      rw [← hreg, hl, hcopy] at this
      refine ⟨Option.some.inj this, ?_⟩
      simp only [update_installed_image_version, hl]
  | none =>
    have hno := (update_version_loop_none n img hname reg).mp hl
    have hlen : img.id.version.length = 0 := by rw [hver]; rfl
    refine ⟨reg, by simp only [update_installed_image_version, hl, if_pos hlen], rfl, ?_, ?_⟩
    · intro _
      exact ⟨rfl, by simp only [update_installed_image_version, hl, if_pos hlen]⟩
    · intro pre e post hreg _ he
      have hmem : e ∈ reg := by rw [hreg]; simp
      exact absurd he (hno e hmem)

/-- C9 amended, at a concrete input: an empty version for `app` against a
registry that holds only `lib 1.0`. -/
theorem update_installed_image_version_empty_witness :
    ∃ reg', (update_installed_image_version 256 true (some [⟨"lib".toList, "1.0".toList⟩])
        (mk_component "app".toList [])).2 = some reg' ∧
      reg'.map (fun e => e.name) = ["lib".toList] :=
  (update_installed_image_version_empty 256 true [⟨"lib".toList, "1.0".toList⟩]
    (mk_component "app".toList []) rfl (by decide)).imp (fun _ h => ⟨h.1, h.2.1⟩)

/-! ## Claims on the last stages of `install_images` -/

theorem after_postinstall_cfg (ext : externals) (sw : swupdate_cfg) :
    (after_postinstall ext sw).sw.vars = sw.vars ∧
    (after_postinstall ext sw).sw.bootloader = sw.bootloader ∧
    (after_postinstall ext sw).sw.output_swversions = sw.output_swversions := by
  simp only [after_postinstall, images_cfg, after_preinstall, after_extract]
  split_ifs <;> exact ⟨rfl, rfl, rfl⟩

theorem generate_swversions_ret (ext : externals) (cfg : swupdate_cfg) (tr : List event) :
    (generate_swversions ext cfg tr).ret = 0 ∨
    (generate_swversions ext cfg tr).ret = -EACCES := by
  simp only [generate_swversions]
  split_ifs
  · right; rfl
  · left; rfl

theorem install_images_tail_vars (ext : externals) (s : run) (hv : s.sw.vars ≠ [])
    (h : (update_swupdate_vars ext s.sw (boot_script ext) s.trace).ret ≠ 0) :
    install_images_tail ext s =
      ⟨(update_swupdate_vars ext s.sw (boot_script ext) s.trace).ret, s.sw,
        (update_swupdate_vars ext s.sw (boot_script ext) s.trace).trace⟩ := by
  simp [install_images_tail, hv, h]

theorem install_images_tail_bootloader (ext : externals) (s : run) (hv : s.sw.vars ≠ [])
    (hb : s.sw.bootloader ≠ [])
    (h0 : (update_swupdate_vars ext s.sw (boot_script ext) s.trace).ret = 0)
    (h : (update_bootloader_env ext s.sw (boot_script ext)
      (update_swupdate_vars ext s.sw (boot_script ext) s.trace).trace).ret ≠ 0) :
    install_images_tail ext s =
      ⟨(update_bootloader_env ext s.sw (boot_script ext)
          (update_swupdate_vars ext s.sw (boot_script ext) s.trace).trace).ret, s.sw,
        (update_bootloader_env ext s.sw (boot_script ext)
          (update_swupdate_vars ext s.sw (boot_script ext) s.trace).trace).trace⟩ := by
  simp [install_images_tail, hv, hb, h0, h]

theorem install_images_tail_manifest (ext : externals) (s : run) (hv : s.sw.vars ≠ [])
    (hb : s.sw.bootloader ≠ []) (ho : s.sw.output_swversions ≠ [])
    (h0 : (update_swupdate_vars ext s.sw (boot_script ext) s.trace).ret = 0)
    (h : (update_bootloader_env ext s.sw (boot_script ext)
      (update_swupdate_vars ext s.sw (boot_script ext) s.trace).trace).ret = 0) :
    install_images_tail ext s =
      ⟨int_or 0 (generate_swversions ext s.sw (update_bootloader_env ext s.sw (boot_script ext)
          (update_swupdate_vars ext s.sw (boot_script ext) s.trace).trace).trace).ret, s.sw,
        if int_or 0 (generate_swversions ext s.sw (update_bootloader_env ext s.sw
            (boot_script ext)
            (update_swupdate_vars ext s.sw (boot_script ext) s.trace).trace).trace).ret ≠ 0 then
          (generate_swversions ext s.sw (update_bootloader_env ext s.sw (boot_script ext)
            (update_swupdate_vars ext s.sw (boot_script ext) s.trace).trace).trace).trace ++
            [.ERROR "%s cannot be opened".toList [.str s.sw.output_swversions]]
        else
          (generate_swversions ext s.sw (update_bootloader_env ext s.sw (boot_script ext)
            (update_swupdate_vars ext s.sw (boot_script ext) s.trace).trace).trace).trace⟩ := by
  simp [install_images_tail, hv, hb, ho, h0, h]

/-- C10 as stated fails: with generic variables, bootloader variables and an
output path configured and every earlier stage succeeding, a generic-variable
apply that returns -1 ends the run at once with -1: the trace holds the
generic-variable apply and neither a bootloader apply nor an attempt to open the
version manifest, although both would have succeeded. -/
theorem install_images_vars_failure_stops :
    cfg_vars_only.dry_run = false ∧
    (after_extract ext_vars_fail cfg_vars_only).ret = 0 ∧
    (after_preinstall ext_vars_fail cfg_vars_only).ret = 0 ∧
    (after_images ext_vars_fail cfg_vars_only).returned = false ∧
    (after_postinstall ext_vars_fail cfg_vars_only).ret = 0 ∧
    (install_images ext_vars_fail cfg_vars_only).ret = -1 ∧
    event.swupdate_vars_apply_list "/tmp/boot-script".toList none ∈
      (install_images ext_vars_fail cfg_vars_only).trace ∧
    event.bootloader_apply_list "/tmp/boot-script".toList ∉
      (install_images ext_vars_fail cfg_vars_only).trace ∧
    event.fopen "/tmp/sw-versions".toList ∉
      (install_images ext_vars_fail cfg_vars_only).trace ∧
    (install_images ext_vars_fail cfg_vars_only).trace =
      [.openfileoutput "/tmp/boot-script".toList,
       .write "/tmp/boot-script".toList "key=value\n".toList,
       .close "/tmp/boot-script".toList,
       .swupdate_vars_apply_list "/tmp/boot-script".toList none,
       .ERROR "Bootloader-specific error %d updating its environment".toList [.num (-1)]] := by
  decide

/-- C10, amended: in a non-dry-run call of `install_images` in which script
extraction, preinstall scripts, the image loop and postinstall scripts all
succeed and generic variables, bootloader variables and an output path are
configured, the three last stages run in the order generic variables,
bootloader environment, version manifest, and a stage is attempted only when
the stages before it returned 0: a non-zero result of the generic-variable or
of the bootloader stage is returned at once and ends the run. The final return
value is the result of the first stage that returned non-zero, or 0; so it is
non-zero if and only if one of the stages that ran failed. -/
theorem install_images_last_stages (ext : externals) (sw : swupdate_cfg)
    (hdry : sw.dry_run = false)
    (hextract : (after_extract ext sw).ret = 0)
    (hpre : (after_preinstall ext sw).ret = 0)
    (himages : (after_images ext sw).returned = false)
    (hpost : (after_postinstall ext sw).ret = 0)
    (hvars : sw.vars ≠ []) (hboot : sw.bootloader ≠ []) (hout : sw.output_swversions ≠ []) :
    ((vars_stage ext sw).ret ≠ 0 →
      (install_images ext sw).ret = (vars_stage ext sw).ret ∧
      (install_images ext sw).trace = (vars_stage ext sw).trace) ∧
    ((vars_stage ext sw).ret = 0 → (bootloader_stage ext sw).ret ≠ 0 →
      (install_images ext sw).ret = (bootloader_stage ext sw).ret ∧
      (install_images ext sw).trace = (bootloader_stage ext sw).trace) ∧
    ((vars_stage ext sw).ret = 0 → (bootloader_stage ext sw).ret = 0 →
      (install_images ext sw).ret = (manifest_stage ext sw).ret ∧
      (install_images ext sw).trace = (manifest_stage ext sw).trace ++
        (if (manifest_stage ext sw).ret ≠ 0 then
          [.ERROR "%s cannot be opened".toList [.str sw.output_swversions]] else [])) ∧
    ((install_images ext sw).ret ≠ 0 ↔
      (vars_stage ext sw).ret ≠ 0 ∨
      ((vars_stage ext sw).ret = 0 ∧ (bootloader_stage ext sw).ret ≠ 0) ∨
      ((vars_stage ext sw).ret = 0 ∧ (bootloader_stage ext sw).ret = 0 ∧
        (manifest_stage ext sw).ret ≠ 0)) := by
  obtain ⟨cv, cb, co⟩ := after_postinstall_cfg ext sw
  have hmain : install_images ext sw = install_images_tail ext (after_postinstall ext sw) := by
    simp [install_images, hdry, hextract, hpre, himages, hpost]
  have hv' : (after_postinstall ext sw).sw.vars ≠ [] := by rw [cv]; exact hvars
  have hb' : (after_postinstall ext sw).sw.bootloader ≠ [] := by rw [cb]; exact hboot
  have ho' : (after_postinstall ext sw).sw.output_swversions ≠ [] := by
    rw [co]; exact hout
  have tail_v : (vars_stage ext sw).ret ≠ 0 →
      install_images_tail ext (after_postinstall ext sw) =
        ⟨(vars_stage ext sw).ret, (after_postinstall ext sw).sw, (vars_stage ext sw).trace⟩ :=
    fun h => install_images_tail_vars ext _ hv' h
  have tail_b : (vars_stage ext sw).ret = 0 → (bootloader_stage ext sw).ret ≠ 0 →
      install_images_tail ext (after_postinstall ext sw) =
        ⟨(bootloader_stage ext sw).ret, (after_postinstall ext sw).sw,
          (bootloader_stage ext sw).trace⟩ :=
    fun h0 h => install_images_tail_bootloader ext _ hv' hb' h0 h
  have tail_g : (vars_stage ext sw).ret = 0 → (bootloader_stage ext sw).ret = 0 →
      install_images_tail ext (after_postinstall ext sw) =
        ⟨int_or 0 (manifest_stage ext sw).ret, (after_postinstall ext sw).sw,
          if int_or 0 (manifest_stage ext sw).ret ≠ 0 then
            (manifest_stage ext sw).trace ++
              [.ERROR "%s cannot be opened".toList
                [.str (after_postinstall ext sw).sw.output_swversions]]
          else (manifest_stage ext sw).trace⟩ :=
    fun h0 h => install_images_tail_manifest ext _ hv' hb' ho' h0 h
  have hor : int_or 0 (manifest_stage ext sw).ret = (manifest_stage ext sw).ret := by
    rcases generate_swversions_ret ext (after_postinstall ext sw).sw
      (bootloader_stage ext sw).trace with h | h
    · have : (manifest_stage ext sw).ret = 0 := h
      rw [this]; decide
    · have : (manifest_stage ext sw).ret = -EACCES := h
      rw [this]; decide
  refine ⟨?_, ?_, ?_, ?_⟩
  · intro h
    rw [hmain, tail_v h]
    exact ⟨rfl, rfl⟩
  · intro h0 h
    rw [hmain, tail_b h0 h]
    exact ⟨rfl, rfl⟩
  · intro h0 h
    rw [hmain, tail_g h0 h, hor, co]
    refine ⟨rfl, ?_⟩
    split_ifs <;> simp
  · by_cases hv0 : (vars_stage ext sw).ret = 0
    · by_cases hb0 : (bootloader_stage ext sw).ret = 0
      · rw [hmain, tail_g hv0 hb0, hor]
        simp [hv0, hb0]
      · rw [hmain, tail_b hv0 hb0]
        simp [hv0, hb0]
    · rw [hmain, tail_v hv0]
      simp [hv0]

/-- C10 amended, at a concrete input: the generic-variable apply returns -1 and
that is the result of the run. -/
theorem install_images_last_stages_witness :
    (install_images ext_vars_fail cfg_vars_only).ret = (vars_stage ext_vars_fail cfg_vars_only).ret ∧
    (install_images ext_vars_fail cfg_vars_only).trace =
      (vars_stage ext_vars_fail cfg_vars_only).trace :=
  (install_images_last_stages ext_vars_fail cfg_vars_only (by decide) (by decide) (by decide)
    (by decide) (by decide) (by decide) (by decide) (by decide)).1 (by decide)

/-! ## The embedding of `find_root` satisfies the recursion of the source -/

theorem pre_decrement_lt_range (depth : Nat) : pre_decrement depth < 2 ^ 32 := by
  unfold pre_decrement
  omega

/-- The embedding of `find_root_json` satisfies the equation the C function is
written as: decrement, test, look up, recurse with the decremented depth. -/
theorem find_root_json_unfold (sfp : List CStr → CStr → Bool × List CStr) (root : json_object)
    (nodes : List CStr) (depth : Nat) :
    find_root_json sfp root nodes depth =
      if pre_decrement depth = 0 then ⟨.null, nodes, 0⟩
      else
        let node := find_json_recursive_node root nodes
        if node.is_set then
          if json_object_get_type node = .json_type_object ∨
              json_object_get_type node = .json_type_array then
            match get_field_string_json node (some ref_field) with
            | some str =>
              let sp := sfp nodes str
              if !sp.1 then
                ⟨.null, sp.2, 1⟩
              else
                let r := find_root_json sfp root sp.2 (pre_decrement depth)
                ⟨r.node, r.nodes, r.lookups + 1⟩
            | none => ⟨node, nodes, 1⟩
          else ⟨node, nodes, 1⟩
        else ⟨node, nodes, 1⟩ := by
  unfold find_root_json
  have hr := pre_decrement_lt_range depth
  cases h : pre_decrement depth with
  | zero => rfl
  | succ d =>
    rw [h] at hr
    rw [pre_decrement_succ d hr, find_root_json_from]
    rfl

/-- The embedding of `find_root_libconfig` satisfies the equation the C
function is written as. -/
theorem find_root_libconfig_unfold (mstrcat : List CStr → CStr → Option CStr)
    (sfp : List CStr → CStr → Bool × List CStr) (cfg : config_t) (nodes : List CStr)
    (depth : Nat) :
    find_root_libconfig mstrcat sfp cfg nodes depth =
      if pre_decrement depth = 0 then ⟨none, nodes, 0⟩
      else
        match mstrcat nodes ".".toList with
        | none => ⟨none, nodes, 0⟩
        | some root =>
          match config_lookup cfg root with
          | some elem =>
            if config_setting_is_group elem then
              match get_field_string_libconfig elem (some ref_field) with
              | some ref =>
                let sp := sfp nodes ref
                if !sp.1 then
                  ⟨none, sp.2, 1⟩
                else
                  let r := find_root_libconfig mstrcat sfp cfg sp.2 (pre_decrement depth)
                  ⟨r.node, r.nodes, r.lookups + 1⟩
              | none => ⟨some elem, nodes, 1⟩
            else ⟨some elem, nodes, 1⟩
          | none => ⟨none, nodes, 1⟩ := by
  unfold find_root_libconfig
  have hr := pre_decrement_lt_range depth
  cases h : pre_decrement depth with
  | zero => rfl
  | succ d =>
    rw [h] at hr
    rw [pre_decrement_succ d hr, find_root_libconfig_from]
    rfl

/-! ## Position of the entry written by `update_installed_image_version` -/

/-- C20 as stated fails: updating `app` to version 2.0 in the registry
`lib 1.0, app 1.0` leaves the entry `app` in second place. -/
theorem update_installed_image_version_keeps_place :
    (update_installed_image_version 256 true
        (some [⟨"lib".toList, "1.0".toList⟩, ⟨"app".toList, "1.0".toList⟩])
        (mk_component "app".toList "2.0".toList)).2 =
      some [⟨"lib".toList, "1.0".toList⟩, ⟨"app".toList, "2.0".toList⟩] ∧
    ([⟨"lib".toList, "1.0".toList⟩, ⟨"app".toList, "2.0".toList⟩] : List sw_version).head? ≠
      some ⟨"app".toList, "2.0".toList⟩ := by
  decide

/-- C20, amended: for a component with a non-empty version (name and version
fitting their `n`-byte arrays, `calloc` returning memory), an entry that
`update_installed_image_version` creates, because no entry carries the name, is
the first entry of the registry and the old entries follow unchanged; an
existing entry with that name is updated where it stands: the entries before
and after it are unchanged and it does not move to the front. -/
theorem update_installed_image_version_position (n : Nat) (calloc_ok : Bool)
    (reg : List sw_version) (img : img_type) (hver : img.id.version ≠ [])
    (hname : img.id.name.length < n) (hversion : img.id.version.length < n)
    (hcalloc : calloc_ok = true) :
    ((∀ e ∈ reg, e.name ≠ img.id.name) →
      (update_installed_image_version n calloc_ok (some reg) img).2 =
        some (⟨img.id.name, img.id.version⟩ :: reg)) ∧
    (∀ pre e post, reg = pre ++ e :: post → (∀ x ∈ pre, x.name ≠ img.id.name) →
      e.name = img.id.name →
      (update_installed_image_version n calloc_ok (some reg) img).2 =
        some (pre ++ ⟨img.id.name, img.id.version⟩ :: post)) := by
  have hcopy : strncpy img.id.version n = img.id.version :=
    List.take_of_length_le (Nat.le_of_lt hversion)
  constructor
  · intro hno
    have hl := (update_version_loop_none n img hname reg).mpr hno
    have hlen : ¬ img.id.version.length = 0 := fun h0 => hver (List.length_eq_zero.mp h0)
    have hn1 : strlcpy img.id.name n = img.id.name := List.take_of_length_le (by omega)
    have hv1 : strlcpy img.id.version n = img.id.version := List.take_of_length_le (by omega)
    simp only [update_installed_image_version, hl, if_neg hlen, hcalloc, Bool.not_true,
      Bool.false_eq_true, if_false, hn1, hv1]
  · intro pre e post hreg hpre he
    have hl := update_version_loop_at n img hname e post he pre hpre
    rw [← hreg, hcopy] at hl
    simp only [update_installed_image_version, hl, he]

/-- C20 amended, at a concrete input: a new component goes to the front, an
updated one stays in second place. -/
theorem update_installed_image_version_position_witness :
    (update_installed_image_version 256 true (some [⟨"lib".toList, "1.0".toList⟩])
        (mk_component "app".toList "1.0".toList)).2 =
      some [⟨"app".toList, "1.0".toList⟩, ⟨"lib".toList, "1.0".toList⟩] ∧
    (update_installed_image_version 256 true
        (some [⟨"lib".toList, "1.0".toList⟩, ⟨"app".toList, "1.0".toList⟩])
        (mk_component "app".toList "2.0".toList)).2 =
      some [⟨"lib".toList, "1.0".toList⟩, ⟨"app".toList, "2.0".toList⟩] :=
  ⟨(update_installed_image_version_position 256 true [⟨"lib".toList, "1.0".toList⟩]
      (mk_component "app".toList "1.0".toList) (by decide) (by decide) (by decide) rfl).1
      (by decide),
   (update_installed_image_version_position 256 true
      [⟨"lib".toList, "1.0".toList⟩, ⟨"app".toList, "1.0".toList⟩]
      (mk_component "app".toList "2.0".toList) (by decide) (by decide) (by decide) rfl).2
      [⟨"lib".toList, "1.0".toList⟩] ⟨"app".toList, "1.0".toList⟩ [] rfl (by decide) rfl⟩

/-! ## Lemmas on the written text -/

theorem printed_text_append (path : CStr) (a b : List event) :
    printed_text path (a ++ b) = printed_text path a ++ printed_text path b := by
  induction a with
  | nil => rfl
  | cons e rest ih =>
    cases e <;> simp only [List.cons_append, printed_text] <;>
      first
        | exact ih
        | (split_ifs <;> simp [ih])

theorem written_text_append (path : CStr) (a b : List event) :
    written_text path (a ++ b) = written_text path a ++ written_text path b := by
  induction a with
  | nil => rfl
  | cons e rest ih =>
    cases e <;> simp only [List.cons_append, written_text] <;>
      first
        | exact ih
        | (split_ifs <;> simp [ih])

theorem printed_text_lines (path : CStr) (reg : List sw_version) :
    printed_text path (reg.map (fun swver => event.fprintf path (swversions_line swver))) =
      (reg.map swversions_line).flatten := by
  induction reg with
  | nil => rfl
  | cons e rest ih =>
    simp only [List.map_cons, printed_text, if_true, ih, List.flatten_cons]

/-! ## Claims on the writers -/

/-- C13 as stated fails: for the registry `app 1.0` the text printed to the
manifest is `app`, two tabs, `1.0`, newline, not the text with one tab. -/
theorem generate_swversions_two_tabs :
    (generate_swversions ext_vars_fail cfg_vars_only []).ret = 0 ∧
    printed_text cfg_vars_only.output_swversions
      (generate_swversions ext_vars_fail cfg_vars_only []).trace = "app\t\t1.0\n".toList ∧
    printed_text cfg_vars_only.output_swversions
      (generate_swversions ext_vars_fail cfg_vars_only []).trace ≠
      (cfg_vars_only.installed_sw_list.map
        (fun e => e.name ++ "\t".toList ++ e.version ++ "\n".toList)).flatten := by
  decide

/-- C13, amended: when the manifest can be opened, `generate_swversions` returns
0 and the text it prints to it is exactly the concatenation, in registry order,
of `name`, two tabs, `version` and a newline for each entry (no header, nothing
else); when it cannot be opened the result is `-EACCES` and nothing is
printed. -/
theorem generate_swversions_text (ext : externals) (cfg : swupdate_cfg) (tr : List event) :
    (ext.fopen tr cfg.output_swversions = true →
      (generate_swversions ext cfg tr).ret = 0 ∧
      printed_text cfg.output_swversions (generate_swversions ext cfg tr).trace =
        printed_text cfg.output_swversions tr ++
          (cfg.installed_sw_list.map
            (fun e => e.name ++ "\t\t".toList ++ e.version ++ "\n".toList)).flatten) ∧
    (ext.fopen tr cfg.output_swversions = false →
      (generate_swversions ext cfg tr).ret = -EACCES ∧
      printed_text cfg.output_swversions (generate_swversions ext cfg tr).trace =
        printed_text cfg.output_swversions tr) := by
  constructor
  · intro h
    simp only [generate_swversions, h, Bool.not_true, Bool.false_eq_true, if_false,
      printed_text_append, printed_text_lines, true_and]
    simp only [printed_text, List.append_nil, List.nil_append]
    rfl
  · intro h
    simp only [generate_swversions, h, Bool.not_false, if_true, printed_text_append, true_and]
    simp only [printed_text, List.append_nil]

/-- C13 amended, at a concrete input: the registry `app 1.0`. -/
theorem generate_swversions_text_witness :
    (generate_swversions ext_vars_fail cfg_vars_only []).ret = 0 ∧
    printed_text cfg_vars_only.output_swversions
        (generate_swversions ext_vars_fail cfg_vars_only []).trace =
      printed_text cfg_vars_only.output_swversions [] ++
        (cfg_vars_only.installed_sw_list.map
          (fun e => e.name ++ "\t\t".toList ++ e.version ++ "\n".toList)).flatten :=
  (generate_swversions_text ext_vars_fail cfg_vars_only []).1 (by decide)

theorem written_text_no_write (path : CStr) (l : List event)
    (h : ∀ e ∈ l, ∀ p t, e ≠ .write p t) : written_text path l = [] := by
  induction l with
  | nil => rfl
  | cons e rest ih =>
    have hr := ih (fun e he => h e (List.mem_cons_of_mem _ he))
    cases e <;> simp only [written_text, hr]
    rename_i p t
    exact absurd rfl (h _ (List.mem_cons_self _ _) p t)

theorem var_line_some (k v : CStr) :
    var_line ⟨some k, some v⟩ = k ++ "=".toList ++ v ++ "\n".toList := rfl

theorem var_line_no_key (value : Option CStr) : var_line ⟨none, value⟩ = [] := rfl

theorem var_line_no_value (k : CStr) : var_line ⟨some k, none⟩ = [] := rfl

/-- The loop of `prepare_var_script` when every `write` stores the whole line:
it returns 0 and writes, for each entry with key and value, the first
`max - 1` characters of its line. -/
theorem prepare_var_loop_text (ext : externals) (script : CStr)
    (hmax : ext.max_boot_script_line_length ≠ 0)
    (hwrite : ∀ tr text, ext.write tr script text = (text.length : Int)) :
    ∀ (dict : List dict_entry) (buf : CStr) (tr : List event),
      (prepare_var_loop ext script dict buf tr).ret = 0 ∧
      written_text script (prepare_var_loop ext script dict buf tr).trace =
        written_text script tr ++
          (dict.map (fun entry =>
            (var_line entry).take (ext.max_boot_script_line_length - 1))).flatten := by
  intro dict
  induction dict with
  | nil =>
    intro buf tr
    simp [prepare_var_loop, written_text_append, written_text]
  | cons entry rest ih =>
    intro buf tr
    rcases entry with ⟨key, value⟩
    cases key with
    | none =>
      simp only [prepare_var_loop, List.map_cons, List.flatten_cons, var_line_no_key,
        List.take_nil, List.nil_append]
      exact ih buf tr
    | some k =>
      cases value with
      | none =>
        simp only [prepare_var_loop, List.map_cons, List.flatten_cons, var_line_no_value,
          List.take_nil, List.nil_append]
        exact ih buf tr
      | some v =>
        simp only [prepare_var_loop, hwrite, ne_eq, not_true_eq_false, if_false,
          List.map_cons, List.flatten_cons, var_line_some]
        obtain ⟨h1, h2⟩ := ih
          (snprintf buf ext.max_boot_script_line_length
            (k ++ "=".toList ++ v ++ "\n".toList)).1
          (tr ++ [.write script (snprintf buf ext.max_boot_script_line_length
            (k ++ "=".toList ++ v ++ "\n".toList)).1])
        refine ⟨h1, ?_⟩
        rw [h2, written_text_append]
        simp only [written_text, if_true, List.append_nil, snprintf, if_neg hmax,
          List.append_assoc]

theorem take_var_line (n m : Nat) (h : m ≤ n) :
    ("k".toList ++ "=".toList ++ List.replicate n 'v' ++ "\n".toList).take (2 + m) =
      "k=".toList ++ List.replicate m 'v' := by
  have h2 : "k".toList ++ "=".toList ++ List.replicate n 'v' ++ "\n".toList =
      "k=".toList ++ (List.replicate n 'v' ++ "\n".toList) := by
    rw [List.append_assoc, List.append_assoc]; rfl
  have h3 : "k=".toList.length = 2 := rfl
  rw [h2, List.take_append_eq_append_take, List.take_append_eq_append_take, h3]
  have h4 : List.take (2 + m) "k=".toList = "k=".toList := List.take_of_length_le (by rw [h3]; omega)
  rw [h4, List.take_replicate, List.length_replicate]
  have h5 : min (2 + m - 2) n = m := by omega
  have h6 : 2 + m - 2 - n = 0 := by omega
  rw [h5, h6, List.take_zero, List.append_nil]

theorem prepare_var_script_single (v : CStr) (script : CStr) :
    prepare_var_script ext_vars_fail [⟨some "k".toList, some v⟩] script [] =
      ⟨0, [.openfileoutput script,
           .write script (("k".toList ++ "=".toList ++ v ++ "\n".toList).take (2 + 1021)),
           .close script]⟩ := by
  unfold prepare_var_script
  have hopen : ¬ (ext_vars_fail.openfileoutput [] script < 0) := by
    show ¬ ((3 : Int) < 0)
    decide
  rw [if_neg hopen]
  simp only [prepare_var_loop, snprintf]
  have hmax : ext_vars_fail.max_boot_script_line_length = 1024 := rfl
  rw [hmax]
  have h0 : ¬ (1024 = 0) := by decide
  have h1 : 1024 - 1 = 2 + 1021 := rfl
  simp only [h0, if_false, h1]
  have hw : ∀ tr text, ext_vars_fail.write tr script text = (text.length : Int) := fun _ _ => rfl
  rw [hw]
  simp

/-- C14 as stated fails: with a line buffer of 1024 bytes, the variable `k`
with a value of 1100 characters is written as the first 1023 characters of its
line, without its end and without the newline. -/
theorem prepare_var_script_truncates :
    ext_vars_fail.max_boot_script_line_length = 1024 ∧
    (prepare_var_script ext_vars_fail [long_var] "/tmp/boot-script".toList []).ret = 0 ∧
    written_text "/tmp/boot-script".toList
        (prepare_var_script ext_vars_fail [long_var] "/tmp/boot-script".toList []).trace =
      "k=".toList ++ List.replicate 1021 'v' ∧
    var_line long_var = "k=".toList ++ List.replicate 1100 'v' ++ "\n".toList ∧
    "k=".toList ++ List.replicate 1021 'v' ≠
      "k=".toList ++ List.replicate 1100 'v' ++ "\n".toList := by
  have hrun := prepare_var_script_single (List.replicate 1100 'v') "/tmp/boot-script".toList
  rw [take_var_line 1100 1021 (by decide)] at hrun
  have hrun2 : prepare_var_script ext_vars_fail [long_var] "/tmp/boot-script".toList [] = _ :=
    hrun
  refine ⟨rfl, ?_, ?_, ?_, ?_⟩
  · rw [hrun2]
  · rw [hrun2]
    simp only [written_text, if_true, List.append_nil]
  · show "k".toList ++ "=".toList ++ List.replicate 1100 'v' ++ "\n".toList = _
    rw [List.append_assoc, List.append_assoc, List.append_assoc]
    rfl
  · intro h
    have hl := congrArg List.length h
    rw [List.length_append, List.length_append, List.length_append, List.length_replicate,
      List.length_replicate] at hl
    have h1 : "\n".toList.length = 1 := rfl
    omega

/-- C14, amended: when the script can be opened and every `write` stores what
it is given, `prepare_var_script` returns 0 and the text it writes is the
concatenation, in list order, of one piece for each entry that has a key and a
value: the line `key=value` with its newline, cut to the first
`MAX_BOOT_SCRIPT_LINE_LENGTH - 1` characters, which is what the line buffer
holds. So for a list whose entries all have a key and a value with
`length key + length value + 2 < MAX_BOOT_SCRIPT_LINE_LENGTH` the text is exactly
the concatenation of the complete newline-terminated lines. -/
theorem prepare_var_script_text (ext : externals) (dict : List dict_entry) (script : CStr)
    (tr : List event) (hmax : ext.max_boot_script_line_length ≠ 0)
    (hopen : 0 ≤ ext.openfileoutput tr script)
    (hwrite : ∀ tr text, ext.write tr script text = (text.length : Int)) :
    (prepare_var_script ext dict script tr).ret = 0 ∧
    written_text script (prepare_var_script ext dict script tr).trace =
      written_text script tr ++
        (dict.map (fun entry =>
          (var_line entry).take (ext.max_boot_script_line_length - 1))).flatten ∧
    ((∀ entry ∈ dict, ∃ key value, entry = ⟨some key, some value⟩ ∧
        key.length + value.length + 2 < ext.max_boot_script_line_length) →
      written_text script (prepare_var_script ext dict script tr).trace =
        written_text script tr ++
          (dict.map (fun entry =>
            entry.key.getD [] ++ "=".toList ++ entry.value.getD [] ++ "\n".toList)).flatten) := by
  have hfd : ¬ ext.openfileoutput tr script < 0 := by omega
  have hloop := prepare_var_loop_text ext script hmax hwrite dict [] (tr ++ [.openfileoutput script])
  have htr : written_text script (tr ++ [.openfileoutput script]) = written_text script tr := by
    rw [written_text_append]
    simp only [written_text, List.append_nil]
  have hgen : written_text script (prepare_var_script ext dict script tr).trace =
      written_text script tr ++
        (dict.map (fun entry =>
          (var_line entry).take (ext.max_boot_script_line_length - 1))).flatten := by
    simp only [prepare_var_script, if_neg hfd]
    rw [hloop.2, htr]
  refine ⟨?_, hgen, ?_⟩
  · simp only [prepare_var_script, if_neg hfd]
    exact hloop.1
  · intro hfit
    rw [hgen]
    congr 2
    apply List.map_congr_left
    intro entry he
    obtain ⟨key, value, rfl, hlen⟩ := hfit entry he
    simp only [var_line_some, Option.getD_some]
    apply List.take_of_length_le
    simp only [List.length_append]
    have h1 : "=".toList.length = 1 := rfl
    have h2 : "\n".toList.length = 1 := rfl
    omega

/-- C14 amended, at a concrete input: the variable `key=value` with a line
buffer of 1024 bytes. -/
theorem prepare_var_script_text_witness :
    written_text "/tmp/boot-script".toList
        (prepare_var_script ext_vars_fail cfg_vars_only.vars "/tmp/boot-script".toList []).trace =
      written_text "/tmp/boot-script".toList [] ++
        (cfg_vars_only.vars.map (fun entry =>
          entry.key.getD [] ++ "=".toList ++ entry.value.getD [] ++ "\n".toList)).flatten :=
  (prepare_var_script_text ext_vars_fail cfg_vars_only.vars "/tmp/boot-script".toList []
    (by decide) (by decide) (fun _ _ => rfl)).2.2 (by
      intro entry he
      have h : entry = ⟨some "key".toList, some "value".toList⟩ := by
        simpa [cfg_vars_only] using he
      exact ⟨"key".toList, "value".toList, h, by decide⟩)

/-! ## Claims on `get_field` -/

theorem get_value_libconfig_isSome (e : config_setting_t) (type : field_type_t) :
    (get_value_libconfig e type).isSome = true ↔
      cfg_type_accepted (config_setting_type e) type := by
  cases e <;> cases type <;>
    simp [get_value_libconfig, cfg_type_accepted, config_setting_type,
      map_field_type_libconfig, CONFIG_TYPE_INT, CONFIG_TYPE_INT64, CONFIG_TYPE_BOOL,
      CONFIG_TYPE_FLOAT, CONFIG_TYPE_NONE, CONFIG_TYPE_STRING, CONFIG_TYPE_ARRAY,
      CONFIG_TYPE_LIST, CONFIG_TYPE_GROUP]

theorem get_value_json_isSome (e : json_object) (type : field_type_t) :
    (get_value_json e type).isSome = true ↔
      json_type_accepted (json_object_get_type e) type := by
  cases e <;> cases type <;>
    simp [get_value_json, json_type_accepted, json_object_get_type, map_field_type_json]

/-- C16: for both backends, every node, path and requested type, `get_field`
stores a value through the destination if and only if the path resolves and
the native type of the node equals the requested type or both are integer
types (32-bit and 64-bit in either combination); in every other case (boolean
or floating-point mismatch, unsupported requested type, path miss) nothing is
stored and the destination keeps its content. -/
theorem get_field_writes_iff (e : config_setting_t) (j : json_object) (path : Option CStr)
    (type : field_type_t) :
    ((get_field_cfg e path type).isSome = true ↔
      ∃ elem, cfg_resolve e path = some elem ∧
        cfg_type_accepted (config_setting_type elem) type) ∧
    ((get_field_json j path type).isSome = true ↔
      ∃ node, json_resolve j path = some node ∧
        json_type_accepted (json_object_get_type node) type) := by
  constructor
  · simp only [get_field_cfg, cfg_resolve]
    cases h : (match path with
      | some p => config_setting_lookup e p
      | none => some e) with
    | none => simp
    | some el =>
      simp only [Option.some.injEq, exists_eq_left']
      exact get_value_libconfig_isSome el type
  · cases path with
    | none =>
      simp only [get_field_json, json_resolve, Option.some.injEq, exists_eq_left']
      exact get_value_json_isSome j type
    | some p =>
      simp only [get_field_json, json_resolve]
      by_cases h : (json_object_object_get_ex j p).1 = true
      · simp only [h, if_true, Option.some.injEq, exists_eq_left']
        exact get_value_json_isSome _ type
      · simp [h]

/-! ## Claims on `iterate_field` -/

theorem iterate_field_json_object (members : List (CStr × json_object)) :
    iterate_field_json (.object members) true =
      members.flatMap (fun m =>
        match json_object_get_type m.2 with
        | .json_type_string => [⟨some m.1, json_object_get_string m.2⟩]
        | .json_type_array =>
          match m.2 with
          | .array elems =>
            (elems.filter (fun subnode =>
              json_object_get_type subnode = .json_type_string)).map
              (fun subnode => ⟨some m.1, json_object_get_string subnode⟩)
          | _ => []
        | _ => []) := by
  simp [iterate_field_json, json_object_get_type]

theorem filter_strings_json (elems : List CStr) :
    (elems.map json_object.string).filter
      (fun subnode => json_object_get_type subnode = .json_type_string) =
      elems.map json_object.string := by
  induction elems with
  | nil => rfl
  | cons s rest ih => simp [json_object_get_type]

theorem json_array_calls (name : CStr) (elems : List json_object) :
    (elems.filter (fun subnode => json_object_get_type subnode = .json_type_string)).map
        (fun subnode => (⟨some name, json_object_get_string subnode⟩ : callback_call)) =
      elems.filterMap (fun el =>
        match el with
        | .string s => some (⟨some name, some s⟩ : callback_call)
        | _ => none) := by
  induction elems with
  | nil => rfl
  | cons el rest ih =>
    cases el with
    | string s =>
      exact congrArg (List.cons (⟨some name, some s⟩ : callback_call)) ih
    | _ => exact ih

theorem iterate_field_json_expected (members : List (CStr × json_object)) :
    iterate_field_json (.object members) true = json_expected_calls members := by
  rw [iterate_field_json_object, json_expected_calls]
  apply List.flatMap_congr
  intro m _
  rcases m with ⟨name, child⟩
  cases child with
  | array elems => exact json_array_calls name elems
  | _ => rfl

theorem iterate_field_json_no_object (j : json_object)
    (h : json_object_get_type j ≠ .json_type_object) : iterate_field_json j true = [] := by
  unfold iterate_field_json
  rw [if_pos (Or.inr h)]

theorem iterate_field_libconfig_expected (e : config_setting_t) :
    iterate_field_libconfig e true = cfg_expected_calls (config_setting_elems e) := by
  simp only [iterate_field_libconfig, Bool.not_true, Bool.false_eq_true, if_false,
    cfg_expected_calls]
  apply List.flatMap_congr
  intro child _
  cases child with
  | array name elems => cases elems <;> rfl
  | list name elems => cases elems <;> rfl
  | group name elems => cases elems <;> rfl
  | _ => rfl

/-- C17 as stated fails: on the node with the children `n = 5`, `a = [1, 2]`
and `s = "x"` the JSON backend invokes the callback once, for `s`, so not for the
leaf scalar `n`; the libconfig backend invokes it four times, for `n` and for
both integer elements of `a` with a `NULL` string, and for `s`; the two sequences
differ. They differ as well on a child that is an object (a group) holding
strings: the JSON backend makes no invocation, the libconfig backend one for
each member. -/
theorem iterate_field_backends_differ :
    iterate_field_json json_mixed true = [⟨some "s".toList, some "x".toList⟩] ∧
    iterate_field_libconfig cfg_mixed true =
      [⟨some "n".toList, none⟩, ⟨some "a".toList, none⟩, ⟨some "a".toList, none⟩,
       ⟨some "s".toList, some "x".toList⟩] ∧
    iterate_field_json json_mixed true ≠ iterate_field_libconfig cfg_mixed true ∧
    iterate_field_json json_nested true = [] ∧
    iterate_field_libconfig cfg_nested true =
      [⟨some "names".toList, some "a".toList⟩, ⟨some "names".toList, some "b".toList⟩] := by
  decide

/-- C17, amended: for a callable callback, the JSON backend makes no invocation
on a node that is no object, and on an object its invocations are, in child
order, one `(child-name, child-string-value)` for every direct child that is a
string and, for every direct child that is an array, one `(array-name,
element-string-value)` per string-typed element in element order, every other
child and every other element producing no invocation
(`json_expected_calls`); the libconfig backend makes, in child order, one
invocation `(child-name, s)` for every direct child without elements and one
invocation `(child-name, s)` per element, in element order, for every direct
child with elements, `s` being the string value of a string setting and `NULL`
otherwise (`cfg_expected_calls`). So on corresponding trees whose direct children
are string leaves and non-empty arrays of strings both backends make the
invocations `expected_calls` and agree. Without a callback neither backend makes
an invocation. -/
theorem iterate_field_strings (children : List field_desc)
    (members : List (CStr × json_object)) (j : json_object) (e : config_setting_t)
    (hne : ∀ name elems, field_desc.strings name elems ∈ children → elems ≠ []) :
    iterate_field_json (fields_to_json children) true = expected_calls children ∧
    iterate_field_libconfig (fields_to_cfg children) true = expected_calls children ∧
    iterate_field_json (fields_to_json children) true =
      iterate_field_libconfig (fields_to_cfg children) true ∧
    iterate_field_json (fields_to_json children) false = [] ∧
    iterate_field_libconfig (fields_to_cfg children) false = [] ∧
    iterate_field_json (.object members) true = json_expected_calls members ∧
    (json_object_get_type j ≠ .json_type_object → iterate_field_json j true = []) ∧
    iterate_field_libconfig e true = cfg_expected_calls (config_setting_elems e) ∧
    iterate_field_json j false = [] ∧
    iterate_field_libconfig e false = [] := by
  have hj : iterate_field_json (fields_to_json children) true = expected_calls children := by
    rw [fields_to_json, iterate_field_json_object, expected_calls, List.flatMap_map]
    apply List.flatMap_congr
    intro child _
    cases child with
    | leaf name value => rfl
    | strings name elems =>
      show List.map (fun subnode => (⟨some name, json_object_get_string subnode⟩ : callback_call))
          (List.filter (fun subnode => json_object_get_type subnode = .json_type_string)
            (elems.map json_object.string)) =
        elems.map (fun s => (⟨some name, some s⟩ : callback_call))
      rw [filter_strings_json, List.map_map]
      apply List.map_congr_left
      intro s _
      rfl
  have hc : iterate_field_libconfig (fields_to_cfg children) true = expected_calls children := by
    simp only [iterate_field_libconfig, fields_to_cfg, config_setting_elems, Bool.not_true,
      Bool.false_eq_true, if_false, expected_calls, List.flatMap_map]
    apply List.flatMap_congr
    intro child hchild
    cases child with
    | leaf name value => rfl
    | strings name elems =>
      have hlen : ¬ (elems.map (fun s => config_setting_t.string none s)).length = 0 := by
        rw [List.length_map]
        exact fun h => hne name elems hchild (List.length_eq_zero.mp h)
      simp only [config_setting_length, config_setting_elems, if_neg hlen, List.map_map]
      apply List.map_congr_left
      intro s _
      rfl
  refine ⟨hj, hc, by rw [hj, hc], ?_, ?_, iterate_field_json_expected members,
    iterate_field_json_no_object j, iterate_field_libconfig_expected e, ?_, ?_⟩
  · simp [iterate_field_json]
  · simp [iterate_field_libconfig]
  · simp [iterate_field_json]
  · simp [iterate_field_libconfig]

/-- C17 amended, at a concrete input: the children `device = "hw"` and
`names = ["a", "b"]`, and the libconfig node `cfg_mixed`. -/
theorem iterate_field_strings_witness :
    iterate_field_json
        (fields_to_json [.leaf "device".toList "hw".toList,
          .strings "names".toList ["a".toList, "b".toList]]) true =
      [⟨some "device".toList, some "hw".toList⟩, ⟨some "names".toList, some "a".toList⟩,
       ⟨some "names".toList, some "b".toList⟩] ∧
    iterate_field_json
        (fields_to_json [.leaf "device".toList "hw".toList,
          .strings "names".toList ["a".toList, "b".toList]]) true =
      iterate_field_libconfig
        (fields_to_cfg [.leaf "device".toList "hw".toList,
          .strings "names".toList ["a".toList, "b".toList]]) true ∧
    iterate_field_libconfig cfg_mixed true =
      cfg_expected_calls (config_setting_elems cfg_mixed) :=
  have h := iterate_field_strings [.leaf "device".toList "hw".toList,
      .strings "names".toList ["a".toList, "b".toList]] [("n".toList, .int 5)] json_mixed
      cfg_mixed (by
        intro name elems h
        simp only [List.mem_cons, List.mem_singleton, field_desc.strings.injEq,
          List.not_mem_nil, or_false] at h
        rcases h with h | h
        · cases h
        · rw [h.2]; simp)
  ⟨by decide, h.2.2.1, h.2.2.2.2.2.2.2.1⟩

/-! ## Lemmas on traces -/

theorem script_calls_append (a b : List event) :
    script_calls (a ++ b) = script_calls a ++ script_calls b :=
  List.filterMap_append a b script_call

theorem image_calls_append (a b : List event) :
    image_calls (a ++ b) = image_calls a ++ image_calls b :=
  List.filterMap_append a b image_call

theorem apply_events_append (a b : List event) :
    apply_events (a ++ b) = apply_events a ++ apply_events b :=
  List.filter_append a b

/-! ## Lemmas on `run_prepost_scripts` -/

theorem run_prepost_scripts_cons_skip (ext : externals) (type : script_fn) (img : img_type)
    (rest : List img_type) (tr : List event) (h : img.is_script = false) :
    run_prepost_scripts ext type (img :: rest) tr = run_prepost_scripts ext type rest tr := by
  rw [run_prepost_scripts]
  simp [h]

theorem run_prepost_scripts_cons_none (ext : externals) (type : script_fn) (img : img_type)
    (rest : List img_type) (tr : List event) (h : ext.find_handler tr img = none) :
    run_prepost_scripts ext type (img :: rest) tr = run_prepost_scripts ext type rest tr := by
  rw [run_prepost_scripts]
  simp [h]

theorem run_prepost_scripts_cons_some (ext : externals) (type : script_fn) (img : img_type)
    (rest : List img_type) (tr : List event) (hnd : installer_handler)
    (hs : img.is_script = true) (h : ext.find_handler tr img = some hnd) :
    run_prepost_scripts ext type (img :: rest) tr =
      if ext.installer (tr ++ [.swupdate_progress_inc_step img.fname hnd.desc,
            .swupdate_progress_update 0]) hnd img (some type) ≠ 0 then
        ⟨ext.installer (tr ++ [.swupdate_progress_inc_step img.fname hnd.desc,
            .swupdate_progress_update 0]) hnd img (some type), script_trace type hnd img tr⟩
      else run_prepost_scripts ext type rest (script_trace type hnd img tr) := by
  rw [run_prepost_scripts]
  simp [h, hs, script_trace]

theorem run_prepost_scripts_append (ext : externals) (type : script_fn) :
    ∀ (pre rest : List img_type) (tr : List event),
      run_prepost_scripts ext type (pre ++ rest) tr =
        if (run_prepost_scripts ext type pre tr).ret ≠ 0 then run_prepost_scripts ext type pre tr
        else run_prepost_scripts ext type rest (run_prepost_scripts ext type pre tr).trace := by
  intro pre
  induction pre with
  | nil => intro rest tr; simp [run_prepost_scripts]
  | cons img pre ih =>
    intro rest tr
    rw [List.cons_append]
    cases hs : img.is_script with
    | false =>
      rw [run_prepost_scripts_cons_skip ext type img _ tr hs,
        run_prepost_scripts_cons_skip ext type img _ tr hs]
      exact ih rest tr
    | true =>
      cases hh : ext.find_handler tr img with
      | none =>
        rw [run_prepost_scripts_cons_none ext type img _ tr hh,
          run_prepost_scripts_cons_none ext type img _ tr hh]
        exact ih rest tr
      | some hnd =>
        rw [run_prepost_scripts_cons_some ext type img _ tr hnd hs hh,
          run_prepost_scripts_cons_some ext type img _ tr hnd hs hh]
        by_cases hret : ext.installer (tr ++ [.swupdate_progress_inc_step img.fname hnd.desc,
            .swupdate_progress_update 0]) hnd img (some type) = 0
        · simp only [hret, ne_eq, not_true_eq_false, if_false]
          exact ih rest _
        · simp only [hret, ne_eq, not_false_eq_true, if_true]

theorem script_trace_calls (type : script_fn) (hnd : installer_handler) (img : img_type)
    (tr : List event) :
    script_calls (script_trace type hnd img tr) = script_calls tr ++ [(hnd, img, type)] ∧
    image_calls (script_trace type hnd img tr) = image_calls tr ∧
    apply_events (script_trace type hnd img tr) = apply_events tr := by
  simp [script_trace, script_calls, image_calls, apply_events, script_call, image_call,
    is_apply_event, List.filterMap_append, List.filter_append]

theorem run_prepost_scripts_calls (ext : externals) (type : script_fn) :
    ∀ (list : List img_type) (tr : List event),
      ∃ l, script_calls (run_prepost_scripts ext type list tr).trace = script_calls tr ++ l ∧
        (l.map (fun c => c.2.1)).Sublist (list.filter (fun img => img.is_script)) ∧
        (∀ c ∈ l, c.2.2 = type) ∧
        image_calls (run_prepost_scripts ext type list tr).trace = image_calls tr ∧
        apply_events (run_prepost_scripts ext type list tr).trace = apply_events tr := by
  intro list
  induction list with
  | nil => intro tr; exact ⟨[], by simp [run_prepost_scripts]⟩
  | cons img rest ih =>
    intro tr
    cases hs : img.is_script with
    | false =>
      rw [run_prepost_scripts_cons_skip ext type img _ tr hs]
      have hf : (img :: rest).filter (fun img => img.is_script) =
          rest.filter (fun img => img.is_script) := by
        simp [hs]
      rw [hf]
      exact ih tr
    | true =>
      have hf : (img :: rest).filter (fun img => img.is_script) =
          img :: rest.filter (fun img => img.is_script) := by
        simp [hs]
      rw [hf]
      cases hh : ext.find_handler tr img with
      | none =>
        rw [run_prepost_scripts_cons_none ext type img _ tr hh]
        obtain ⟨l, h1, h2, h3, h4, h5⟩ := ih tr
        exact ⟨l, h1, h2.trans (List.sublist_cons_self _ _), h3, h4, h5⟩
      | some hnd =>
        rw [run_prepost_scripts_cons_some ext type img _ tr hnd hs hh]
        obtain ⟨c1, c2, c3⟩ := script_trace_calls type hnd img tr
        by_cases hret : ext.installer (tr ++ [.swupdate_progress_inc_step img.fname hnd.desc,
            .swupdate_progress_update 0]) hnd img (some type) = 0
        · simp only [hret, ne_eq, not_true_eq_false, if_false]
          obtain ⟨l, h1, h2, h3, h4, h5⟩ := ih (script_trace type hnd img tr)
          refine ⟨(hnd, img, type) :: l, ?_, ?_, ?_, ?_, ?_⟩
          · rw [h1, c1]; simp
          · simpa using h2
          · intro c hc
            rcases List.mem_cons.mp hc with rfl | hc
            · rfl
            · exact h3 c hc
          · rw [h4, c2]
          · rw [h5, c3]
        · simp only [hret, ne_eq, not_false_eq_true, if_true]
          refine ⟨[(hnd, img, type)], ?_, ?_, ?_, ?_, ?_⟩
          · exact c1
          · simp
          · simp
          · exact c2
          · exact c3

theorem run_prepost_scripts_failure_origin (ext : externals) (type : script_fn) :
    ∀ (list : List img_type) (tr : List event),
      (run_prepost_scripts ext type list tr).ret ≠ 0 →
      ∃ pre img post hnd, list = pre ++ img :: post ∧
        (run_prepost_scripts ext type pre tr).ret = 0 ∧ img.is_script = true ∧
        ext.find_handler (run_prepost_scripts ext type pre tr).trace img = some hnd ∧
        (run_prepost_scripts ext type list tr).ret =
          ext.installer ((run_prepost_scripts ext type pre tr).trace ++
            [.swupdate_progress_inc_step img.fname hnd.desc, .swupdate_progress_update 0])
            hnd img (some type) := by
  intro list
  induction list with
  | nil => intro tr h; exact absurd rfl h
  | cons img rest ih =>
    intro tr h
    cases hs : img.is_script with
    | false =>
      rw [run_prepost_scripts_cons_skip ext type img _ tr hs] at h ⊢
      obtain ⟨pre, i, post, hnd, h1, h2, h3, h4, h5⟩ := ih tr h
      refine ⟨img :: pre, i, post, hnd, by rw [h1]; rfl, ?_, h3, ?_, ?_⟩
      · rw [run_prepost_scripts_cons_skip ext type img _ tr hs]; exact h2
      · rw [run_prepost_scripts_cons_skip ext type img _ tr hs]; exact h4
      · rw [run_prepost_scripts_cons_skip ext type img _ tr hs]; exact h5
    | true =>
      cases hh : ext.find_handler tr img with
      | none =>
        rw [run_prepost_scripts_cons_none ext type img _ tr hh] at h ⊢
        obtain ⟨pre, i, post, hnd, h1, h2, h3, h4, h5⟩ := ih tr h
        refine ⟨img :: pre, i, post, hnd, by rw [h1]; rfl, ?_, h3, ?_, ?_⟩
        · rw [run_prepost_scripts_cons_none ext type img _ tr hh]; exact h2
        · rw [run_prepost_scripts_cons_none ext type img _ tr hh]; exact h4
        · rw [run_prepost_scripts_cons_none ext type img _ tr hh]; exact h5
      | some hnd =>
        rw [run_prepost_scripts_cons_some ext type img _ tr hnd hs hh] at h ⊢
        by_cases hret : ext.installer (tr ++ [.swupdate_progress_inc_step img.fname hnd.desc,
            .swupdate_progress_update 0]) hnd img (some type) = 0
        · simp only [hret, ne_eq, not_true_eq_false, if_false] at h ⊢
          obtain ⟨pre, i, post, hnd2, h1, h2, h3, h4, h5⟩ := ih _ h
          have e : ∀ l, run_prepost_scripts ext type (img :: l) tr =
              run_prepost_scripts ext type l (script_trace type hnd img tr) := by
            intro l
            rw [run_prepost_scripts_cons_some ext type img _ tr hnd hs hh]
            simp only [hret, ne_eq, not_true_eq_false, if_false]
          refine ⟨img :: pre, i, post, hnd2, by rw [h1]; rfl, ?_, h3, ?_, ?_⟩
          · rw [e]; exact h2
          · rw [e]; exact h4
          · rw [e]; exact h5
        · simp only [hret, ne_eq, not_false_eq_true, if_true]
          exact ⟨[], img, rest, hnd, rfl, rfl, hs, hh, rfl⟩

/-- C15: `run_prepost_scripts` calls the handler of a script entry that has one
right after the entries before it, passing the requested phase marker, and
returns a non-zero result of that handler at once, so that no later handler is
invoked; an entry that is no script or has no handler is skipped as if it were
not in the list; a non-zero result is always the result of an invoked handler,
so the result is 0 when every invoked handler returns 0; and the handlers are
invoked in list order, each with the requested phase marker. -/
theorem run_prepost_scripts_first_failure (ext : externals) (type : script_fn)
    (list : List img_type) (tr : List event) :
    (∀ pre img post hnd, list = pre ++ img :: post →
      (run_prepost_scripts ext type pre tr).ret = 0 → img.is_script = true →
      ext.find_handler (run_prepost_scripts ext type pre tr).trace img = some hnd →
      (run_prepost_scripts ext type (pre ++ [img]) tr).trace =
        script_trace type hnd img (run_prepost_scripts ext type pre tr).trace ∧
      (run_prepost_scripts ext type (pre ++ [img]) tr).ret =
        ext.installer ((run_prepost_scripts ext type pre tr).trace ++
          [.swupdate_progress_inc_step img.fname hnd.desc, .swupdate_progress_update 0])
          hnd img (some type) ∧
      (ext.installer ((run_prepost_scripts ext type pre tr).trace ++
          [.swupdate_progress_inc_step img.fname hnd.desc, .swupdate_progress_update 0])
          hnd img (some type) ≠ 0 →
        run_prepost_scripts ext type list tr =
          ⟨ext.installer ((run_prepost_scripts ext type pre tr).trace ++
            [.swupdate_progress_inc_step img.fname hnd.desc, .swupdate_progress_update 0])
            hnd img (some type),
           script_trace type hnd img (run_prepost_scripts ext type pre tr).trace⟩)) ∧
    (∀ pre img post, list = pre ++ img :: post →
      (img.is_script = false ∨
        ext.find_handler (run_prepost_scripts ext type pre tr).trace img = none) →
      run_prepost_scripts ext type list tr = run_prepost_scripts ext type (pre ++ post) tr) ∧
    ((run_prepost_scripts ext type list tr).ret ≠ 0 →
      ∃ pre img post hnd, list = pre ++ img :: post ∧
        (run_prepost_scripts ext type pre tr).ret = 0 ∧ img.is_script = true ∧
        ext.find_handler (run_prepost_scripts ext type pre tr).trace img = some hnd ∧
        (run_prepost_scripts ext type list tr).ret =
          ext.installer ((run_prepost_scripts ext type pre tr).trace ++
            [.swupdate_progress_inc_step img.fname hnd.desc, .swupdate_progress_update 0])
            hnd img (some type)) ∧
    (∃ l, script_calls (run_prepost_scripts ext type list tr).trace = script_calls tr ++ l ∧
      (l.map (fun c => c.2.1)).Sublist (list.filter (fun img => img.is_script)) ∧
      (∀ c ∈ l, c.2.2 = type)) := by
  refine ⟨?_, ?_, run_prepost_scripts_failure_origin ext type list tr, ?_⟩
  · intro pre img post hnd hl hpre hs hh
    have hnot : ¬ ((run_prepost_scripts ext type pre tr).ret ≠ 0) := fun h => h hpre
    refine ⟨?_, ?_, ?_⟩
    · rw [run_prepost_scripts_append, if_neg hnot,
        run_prepost_scripts_cons_some ext type img _ _ hnd hs hh]
      split_ifs <;> rfl
    · rw [run_prepost_scripts_append, if_neg hnot,
        run_prepost_scripts_cons_some ext type img _ _ hnd hs hh]
      by_cases hret : ext.installer ((run_prepost_scripts ext type pre tr).trace ++
          [.swupdate_progress_inc_step img.fname hnd.desc, .swupdate_progress_update 0])
          hnd img (some type) = 0
      · simp only [hret, ne_eq, not_true_eq_false, if_false, run_prepost_scripts]
      · simp only [hret, ne_eq, not_false_eq_true, if_true]
    · intro hret
      rw [hl, run_prepost_scripts_append, if_neg hnot,
        run_prepost_scripts_cons_some ext type img _ _ hnd hs hh, if_pos hret]
  · intro pre img post hl hskip
    rw [hl, run_prepost_scripts_append, run_prepost_scripts_append ext type pre post]
    have e : run_prepost_scripts ext type (img :: post)
          (run_prepost_scripts ext type pre tr).trace =
        run_prepost_scripts ext type post (run_prepost_scripts ext type pre tr).trace := by
      rcases hskip with h | h
      · exact run_prepost_scripts_cons_skip ext type img _ _ h
      · exact run_prepost_scripts_cons_none ext type img _ _ h
    rw [e]
  · obtain ⟨l, h1, h2, h3, _, _⟩ := run_prepost_scripts_calls ext type list tr
    exact ⟨l, h1, h2, h3⟩

theorem run_prepost_scripts_first_failure_witness :
    run_prepost_scripts ext_script_fails .POSTINSTALL
        [mk_script "ok.sh".toList, mk_script "fail.sh".toList, mk_script "later.sh".toList] [] =
      ⟨7, script_trace .POSTINSTALL ⟨"handler".toList⟩ (mk_script "fail.sh".toList)
            (script_trace .POSTINSTALL ⟨"handler".toList⟩ (mk_script "ok.sh".toList) [])⟩ :=
  ((run_prepost_scripts_first_failure ext_script_fails .POSTINSTALL
      [mk_script "ok.sh".toList, mk_script "fail.sh".toList, mk_script "later.sh".toList] []).1
    [mk_script "ok.sh".toList] (mk_script "fail.sh".toList) [mk_script "later.sh".toList]
    ⟨"handler".toList⟩ rfl (by decide) rfl (by decide)).2.2 (by decide)

/-! ## Lemmas on the image loop -/

theorem install_images_loop_cons (ext : externals) (dry_run : Bool) (kept : List img_type)
    (img : img_type) (rest : List img_type) (installed : List sw_version) (ret : Int)
    (tr : List event) :
    install_images_loop ext dry_run kept (img :: rest) installed ret tr =
      if (install_images_visit ext dry_run kept img rest installed ret tr).returned then
        install_images_visit ext dry_run kept img rest installed ret tr
      else
        install_images_loop ext dry_run
          (install_images_visit ext dry_run kept img rest installed ret tr).images rest
          (install_images_visit ext dry_run kept img rest installed ret tr).installed_sw_list
          (install_images_visit ext dry_run kept img rest installed ret tr).ret
          (install_images_visit ext dry_run kept img rest installed ret tr).trace := by
  rw [install_images_loop]
  unfold install_images_visit
  cases hd : img.install_directly with
  | true => simp
  | false =>
    cases ha : ext.alloc tr with
    | false => simp
    | true =>
      cases hst : ext.stat tr (ext.tmpdir ++ img.fname) with
      | none => simp [hst]
      | some st_size =>
        simp only [hd, ha, hst, Bool.false_eq_true, if_false, Bool.not_true]
        by_cases h1 : ext.open_rdonly (tr ++ [.stat (ext.tmpdir ++ img.fname)])
            (ext.tmpdir ++ img.fname) < 0
        · rw [if_pos h1, if_pos h1]
          rfl
        · rw [if_neg h1, if_neg h1]
          by_cases h2 : img.path.length > 0 ∧ img.extract_file.length > 0 ∧
              strncmp_eq img.path img.extract_file ext.sizeof_path = true
          · rw [if_pos h2, if_pos h2]
            rfl
          · rw [if_neg h2, if_neg h2]
            split_ifs <;> first | rfl | contradiction

theorem install_single_image_calls (ext : externals) (img : img_type) (dry_run : Bool)
    (tr : List event) :
    (install_single_image ext img dry_run tr).img =
      (if dry_run then { img with type := "dummy".toList } else img) ∧
    script_calls (install_single_image ext img dry_run tr).trace = script_calls tr ∧
    apply_events (install_single_image ext img dry_run tr).trace = apply_events tr ∧
    image_calls (install_single_image ext img dry_run tr).trace = image_calls tr ++
      (match ext.find_handler tr (if dry_run then { img with type := "dummy".toList } else img)
        with
        | some hnd => [(hnd, if dry_run then { img with type := "dummy".toList } else img)]
        | none => []) := by
  unfold install_single_image
  cases hh : ext.find_handler tr (if dry_run then { img with type := "dummy".toList } else img)
    with
  | none =>
    simp only [hh]
    simp [script_calls, apply_events, image_calls, script_call, image_call, is_apply_event,
      List.filterMap_append, List.filter_append]
  | some hnd =>
    simp only [hh]
    split_ifs <;>
    simp [script_calls, apply_events, image_calls, script_call, image_call, is_apply_event,
      List.filterMap_append, List.filter_append]

/-- The four outcomes of a pass of the image loop. -/
theorem install_images_visit_cases (ext : externals) (dry_run : Bool) (kept : List img_type)
    (img : img_type) (rest : List img_type) (installed : List sw_version) (ret : Int)
    (tr : List event) :
    (img.install_directly = true ∧
      install_images_visit ext dry_run kept img rest installed ret tr =
        ⟨ret, false, kept ++ [img], installed, tr⟩) ∨
    (img.install_directly = false ∧ install_attempt ext dry_run img tr = none ∧
      (install_images_visit ext dry_run kept img rest installed ret tr).returned = true ∧
      (install_images_visit ext dry_run kept img rest installed ret tr).ret = -1 ∧
      image_calls (install_images_visit ext dry_run kept img rest installed ret tr).trace =
        image_calls tr ∧
      script_calls (install_images_visit ext dry_run kept img rest installed ret tr).trace =
        script_calls tr ∧
      apply_events (install_images_visit ext dry_run kept img rest installed ret tr).trace =
        apply_events tr) ∨
    (img.install_directly = false ∧ is_duplicate_reference ext img = true ∧
      install_attempt ext dry_run img tr = none ∧
      (install_images_visit ext dry_run kept img rest installed ret tr).returned = false ∧
      (install_images_visit ext dry_run kept img rest installed ret tr).ret = 0 ∧
      (install_images_visit ext dry_run kept img rest installed ret tr).images = kept ∧
      image_calls (install_images_visit ext dry_run kept img rest installed ret tr).trace =
        image_calls tr ∧
      script_calls (install_images_visit ext dry_run kept img rest installed ret tr).trace =
        script_calls tr ∧
      apply_events (install_images_visit ext dry_run kept img rest installed ret tr).trace =
        apply_events tr) ∨
    (img.install_directly = false ∧ is_duplicate_reference ext img = false ∧
      ∃ r, install_attempt ext dry_run img tr = some r ∧
        (install_images_visit ext dry_run kept img rest installed ret tr).ret = r.ret ∧
        (install_images_visit ext dry_run kept img rest installed ret tr).returned =
          decide (r.ret ≠ 0) ∧
        (install_images_visit ext dry_run kept img rest installed ret tr).images =
          kept ++ r.img :: (if r.ret ≠ 0 then rest else []) ∧
        (install_images_visit ext dry_run kept img rest installed ret tr).trace =
          r.trace ++ [.close (ext.tmpdir ++ img.fname)]) := by
  unfold install_images_visit install_attempt
  by_cases hd : img.install_directly = true
  · left
    rw [if_pos hd]
    exact ⟨hd, rfl⟩
  · right
    have hd2 : img.install_directly = false := by simpa using hd
    rw [if_neg hd, if_neg hd]
    by_cases ha : (!ext.alloc tr) = true
    · left
      rw [if_pos ha, if_pos ha]
      refine ⟨hd2, rfl, rfl, rfl, ?_, ?_, ?_⟩ <;>
      simp [script_calls, apply_events, image_calls, script_call, image_call, is_apply_event,
        List.filterMap_append, List.filter_append]
    · rw [if_neg ha, if_neg ha]
      cases hst : ext.stat tr (ext.tmpdir ++ img.fname) with
      | none =>
        left
        simp only [hst]
        simp [hd2, script_calls, apply_events, image_calls, script_call, image_call,
          is_apply_event, List.filterMap_append, List.filter_append]
      | some st_size =>
        simp only [hst]
        by_cases h1 : ext.open_rdonly (tr ++ [.stat (ext.tmpdir ++ img.fname)])
            (ext.tmpdir ++ img.fname) < 0
        · left
          rw [if_pos h1, if_pos h1]
          refine ⟨hd2, rfl, rfl, rfl, ?_, ?_, ?_⟩ <;>
          simp [script_calls, apply_events, image_calls, script_call, image_call,
            is_apply_event, List.filterMap_append, List.filter_append]
        · right
          rw [if_neg h1, if_neg h1]
          cases h2 : is_duplicate_reference ext img with
          | true =>
            left
            have h2b : img.path.length > 0 ∧ img.extract_file.length > 0 ∧
                strncmp_eq img.path img.extract_file ext.sizeof_path = true := by
              simpa [is_duplicate_reference] using h2
            rw [if_pos h2b]
            refine ⟨hd2, rfl, by simp, rfl, rfl, rfl, ?_, ?_, ?_⟩ <;>
            · split_ifs <;>
              simp [script_calls, apply_events, image_calls, script_call, image_call,
                is_apply_event, List.filterMap_append, List.filter_append]
          | false =>
            right
            have h2b : ¬ (img.path.length > 0 ∧ img.extract_file.length > 0 ∧
                strncmp_eq img.path img.extract_file ext.sizeof_path = true) := by
              simpa [is_duplicate_reference] using h2
            rw [if_neg h2b]
            generalize install_single_image ext { img with size := st_size } dry_run
              (tr ++ [.stat (ext.tmpdir ++ img.fname)] ++
                [.open_rdonly (ext.tmpdir ++ img.fname)]) = r
            refine ⟨hd2, rfl, r, by simp, ?_⟩
            by_cases h3 : r.ret ≠ 0
            · rw [if_pos h3, if_pos h3]
              exact ⟨rfl, by simp [h3], rfl, rfl⟩
            · rw [if_neg h3, if_neg h3]
              exact ⟨rfl, by simp [h3], rfl, rfl⟩

theorem install_images_loop_append (ext : externals) (dry_run : Bool) :
    ∀ (pre post kept : List img_type) (installed : List sw_version) (ret : Int)
      (tr : List event),
      install_images_loop ext dry_run kept (pre ++ post) installed ret tr =
        if (install_images_upto ext dry_run pre post kept installed ret tr).returned then
          install_images_upto ext dry_run pre post kept installed ret tr
        else
          install_images_loop ext dry_run
            (install_images_upto ext dry_run pre post kept installed ret tr).images post
            (install_images_upto ext dry_run pre post kept installed ret tr).installed_sw_list
            (install_images_upto ext dry_run pre post kept installed ret tr).ret
            (install_images_upto ext dry_run pre post kept installed ret tr).trace := by
  intro pre
  induction pre with
  | nil =>
    intro post kept installed ret tr
    simp [install_images_upto]
  | cons img pre ih =>
    intro post kept installed ret tr
    rw [List.cons_append, install_images_loop_cons, install_images_upto]
    by_cases hv : (install_images_visit ext dry_run kept img (pre ++ post) installed ret
        tr).returned = true
    · rw [if_pos hv, if_pos hv, if_pos hv]
    · rw [if_neg hv, if_neg hv]
      exact ih post _ _ _ _

theorem install_images_loop_eq_upto (ext : externals) (dry_run : Bool)
    (rest kept : List img_type) (installed : List sw_version) (ret : Int) (tr : List event) :
    install_images_loop ext dry_run kept rest installed ret tr =
      install_images_upto ext dry_run rest [] kept installed ret tr := by
  have h := install_images_loop_append ext dry_run rest [] kept installed ret tr
  rw [List.append_nil] at h
  rw [h]
  by_cases hp : (install_images_upto ext dry_run rest [] kept installed ret tr).returned = true
  · rw [if_pos hp]
  · rw [if_neg hp, install_images_loop]
    have hp2 : (install_images_upto ext dry_run rest [] kept installed ret tr).returned =
        false := by simpa using hp
    rw [← hp2]

theorem install_attempt_some (ext : externals) (dry_run : Bool) (img : img_type)
    (tr : List event) (r : image_result) (h : install_attempt ext dry_run img tr = some r) :
    ∃ st_size, r = install_single_image ext { img with size := st_size } dry_run
      (tr ++ [.stat (ext.tmpdir ++ img.fname)] ++ [.open_rdonly (ext.tmpdir ++ img.fname)]) := by
  unfold install_attempt at h
  cases hst : ext.stat tr (ext.tmpdir ++ img.fname) with
  | none => simp [hst] at h
  | some st_size =>
    simp only [hst] at h
    split_ifs at h
    exact ⟨st_size, (Option.some.inj h).symm⟩

theorem install_attempt_calls (ext : externals) (dry_run : Bool) (img : img_type)
    (tr : List event) (r : image_result) (h : install_attempt ext dry_run img tr = some r) :
    r.img.fname = img.fname ∧ r.img.install_directly = img.install_directly ∧
    is_duplicate_reference ext r.img = is_duplicate_reference ext img ∧
    (dry_run = true → r.img.type = "dummy".toList) ∧
    script_calls r.trace = script_calls tr ∧ apply_events r.trace = apply_events tr ∧
    ∃ l, image_calls r.trace = image_calls tr ++ l ∧ (l = [] ∨ ∃ hnd, l = [(hnd, r.img)]) := by
  obtain ⟨st_size, hr⟩ := install_attempt_some ext dry_run img tr r h
  obtain ⟨h1, h2, h3, h4⟩ := install_single_image_calls ext { img with size := st_size } dry_run
    (tr ++ [.stat (ext.tmpdir ++ img.fname)] ++ [.open_rdonly (ext.tmpdir ++ img.fname)])
  rw [← hr] at h1 h2 h3 h4
  have e1 : script_calls (tr ++ [.stat (ext.tmpdir ++ img.fname)] ++
      [.open_rdonly (ext.tmpdir ++ img.fname)]) = script_calls tr := by
    simp [script_calls, script_call, List.filterMap_append]
  have e2 : apply_events (tr ++ [.stat (ext.tmpdir ++ img.fname)] ++
      [.open_rdonly (ext.tmpdir ++ img.fname)]) = apply_events tr := by
    simp [apply_events, is_apply_event, List.filter_append]
  have e3 : image_calls (tr ++ [.stat (ext.tmpdir ++ img.fname)] ++
      [.open_rdonly (ext.tmpdir ++ img.fname)]) = image_calls tr := by
    simp [image_calls, image_call, List.filterMap_append]
  rw [e1] at h2
  rw [e2] at h3
  rw [e3, ← h1] at h4
  refine ⟨?_, ?_, ?_, ?_, h2, h3, _, h4, ?_⟩
  · rw [h1]; cases dry_run <;> rfl
  · rw [h1]; cases dry_run <;> rfl
  · rw [h1]; cases dry_run <;> rfl
  · intro hdry; rw [h1, hdry]; rfl
  · cases ext.find_handler (tr ++ [.stat (ext.tmpdir ++ img.fname)] ++
      [.open_rdonly (ext.tmpdir ++ img.fname)]) r.img with
    | none => left; rfl
    | some hnd => right; exact ⟨hnd, rfl⟩

/-- What a pass of the image loop adds to the trace and to the list. -/
theorem install_images_visit_calls (ext : externals) (dry_run : Bool) (kept : List img_type)
    (img : img_type) (rest : List img_type) (installed : List sw_version) (ret : Int)
    (tr : List event) :
    ∃ l, image_calls (install_images_visit ext dry_run kept img rest installed ret tr).trace =
        image_calls tr ++ l ∧
      (l.map (fun c => c.2.fname)).Sublist
        (([img].filter (fun i => !i.install_directly && !is_duplicate_reference ext i)).map
          (fun i => i.fname)) ∧
      (∀ c ∈ l, c.2.install_directly = false ∧ is_duplicate_reference ext c.2 = false ∧
        (dry_run = true → c.2.type = "dummy".toList)) ∧
      script_calls (install_images_visit ext dry_run kept img rest installed ret tr).trace =
        script_calls tr ∧
      apply_events (install_images_visit ext dry_run kept img rest installed ret tr).trace =
        apply_events tr ∧
      ((install_images_visit ext dry_run kept img rest installed ret tr).returned = false →
        (ret = 0 →
          (install_images_visit ext dry_run kept img rest installed ret tr).ret = 0) ∧
        ∀ i ∈ (install_images_visit ext dry_run kept img rest installed ret tr).images,
          i ∈ kept ∨ i.install_directly = true ∨ is_duplicate_reference ext i = false) := by
  rcases install_images_visit_cases ext dry_run kept img rest installed ret tr with
    ⟨hd, hv⟩ | ⟨hd, _, hret, _, c1, c2, c3⟩ | ⟨hd, hdup, _, _, hz, hi, c1, c2, c3⟩ |
    ⟨hd, hdup, r, hr, hret, hreturned, hi, htr⟩
  · rw [hv]
    refine ⟨[], by simp, by simp, by simp, rfl, rfl, ?_⟩
    intro _
    refine ⟨fun h => h, ?_⟩
    intro i hi
    rcases List.mem_append.mp hi with h | h
    · exact Or.inl h
    · rw [List.mem_singleton.mp h]; exact Or.inr (Or.inl hd)
  · refine ⟨[], by simpa using c1, by simp, by simp, c2, c3, ?_⟩
    intro h; rw [hret] at h; cases h
  · refine ⟨[], by simpa using c1, by simp, by simp, c2, c3, ?_⟩
    intro _
    refine ⟨fun _ => hz, ?_⟩
    intro i h
    rw [hi] at h
    exact Or.inl h
  · obtain ⟨a1, a2, a3, a4, a5, a6, l, a7, a8⟩ := install_attempt_calls ext dry_run img tr r hr
    have t1 : image_calls (install_images_visit ext dry_run kept img rest installed ret tr).trace
        = image_calls tr ++ l := by
      rw [htr, image_calls_append, a7]; simp [image_calls, image_call]
    have t2 : script_calls (install_images_visit ext dry_run kept img rest installed ret
        tr).trace = script_calls tr := by
      rw [htr, script_calls_append, a5]; simp [script_calls, script_call]
    have t3 : apply_events (install_images_visit ext dry_run kept img rest installed ret
        tr).trace = apply_events tr := by
      rw [htr, apply_events_append, a6]; simp [apply_events, is_apply_event]
    have hf : [img].filter (fun i => !i.install_directly && !is_duplicate_reference ext i) =
        [img] := by
      simp [hd, hdup]
    refine ⟨l, t1, ?_, ?_, t2, t3, ?_⟩
    · rw [hf]
      rcases a8 with h | ⟨hnd, h⟩
      · rw [h]; simp
      · rw [h]; simp [a1]
    · intro c hc
      rcases a8 with h | ⟨hnd, h⟩
      · rw [h] at hc; cases hc
      · rw [h] at hc
        rw [List.mem_singleton.mp hc]
        exact ⟨by rw [a2]; exact hd, by rw [a3]; exact hdup, a4⟩
    · intro hnr
      rw [hreturned] at hnr
      have hz : r.ret = 0 := by simpa using hnr
      refine ⟨fun _ => by rw [hret]; exact hz, ?_⟩
      intro i h
      rw [hi] at h
      rcases List.mem_append.mp h with h | h
      · exact Or.inl h
      · have hne : ¬ (r.ret ≠ 0) := fun hh => hh hz
        rw [if_neg hne] at h
        rw [List.mem_singleton.mp h]
        exact Or.inr (Or.inr (by rw [a3]; exact hdup))

/-- What the passes over the entries `pre` add to the trace and to the list:
the image-handler calls are made in list order, for entries that are neither
installed from the stream nor duplicate references; no script handler is called
and no environment or manifest event happens; and when the function has not
returned, `ret` is 0 if it was before and the list holds no duplicate reference
that was visited. -/
theorem install_images_upto_calls (ext : externals) (dry_run : Bool) :
    ∀ (pre post kept : List img_type) (installed : List sw_version) (ret : Int)
      (tr : List event),
    ∃ l, image_calls (install_images_upto ext dry_run pre post kept installed ret tr).trace =
        image_calls tr ++ l ∧
      (l.map (fun c => c.2.fname)).Sublist
        ((pre.filter (fun i => !i.install_directly && !is_duplicate_reference ext i)).map
          (fun i => i.fname)) ∧
      (∀ c ∈ l, c.2.install_directly = false ∧ is_duplicate_reference ext c.2 = false ∧
        (dry_run = true → c.2.type = "dummy".toList)) ∧
      script_calls (install_images_upto ext dry_run pre post kept installed ret tr).trace =
        script_calls tr ∧
      apply_events (install_images_upto ext dry_run pre post kept installed ret tr).trace =
        apply_events tr ∧
      ((install_images_upto ext dry_run pre post kept installed ret tr).returned = false →
        (ret = 0 →
          (install_images_upto ext dry_run pre post kept installed ret tr).ret = 0) ∧
        ∀ i ∈ (install_images_upto ext dry_run pre post kept installed ret tr).images,
          i ∈ kept ∨ i.install_directly = true ∨ is_duplicate_reference ext i = false) := by
  intro pre
  induction pre with
  | nil =>
    intro post kept installed ret tr
    refine ⟨[], by simp [install_images_upto], by simp, by simp, rfl, rfl, ?_⟩
    intro _
    exact ⟨fun h => h, fun i h => Or.inl h⟩
  | cons img pre ih =>
    intro post kept installed ret tr
    obtain ⟨l1, v1, v2, v3, v4, v5, v6⟩ :=
      install_images_visit_calls ext dry_run kept img (pre ++ post) installed ret tr
    have hsplit : ((img :: pre).filter
        (fun i => !i.install_directly && !is_duplicate_reference ext i)).map (fun i => i.fname) =
        (([img].filter (fun i => !i.install_directly && !is_duplicate_reference ext i)).map
          (fun i => i.fname)) ++
        ((pre.filter (fun i => !i.install_directly && !is_duplicate_reference ext i)).map
          (fun i => i.fname)) := by
      rw [← List.map_append, ← List.filter_append]; rfl
    rw [install_images_upto]
    by_cases hv : (install_images_visit ext dry_run kept img (pre ++ post) installed ret
        tr).returned = true
    · rw [if_pos hv]
      refine ⟨l1, v1, ?_, v3, v4, v5, ?_⟩
      · rw [hsplit]
        exact v2.trans (List.sublist_append_left _ _)
      · intro h; rw [hv] at h; cases h
    · rw [if_neg hv]
      have hv2 : (install_images_visit ext dry_run kept img (pre ++ post) installed ret
          tr).returned = false := by simpa using hv
      obtain ⟨l2, p1, p2, p3, p4, p5, p6⟩ := ih post
        (install_images_visit ext dry_run kept img (pre ++ post) installed ret tr).images
        (install_images_visit ext dry_run kept img (pre ++ post) installed ret
          tr).installed_sw_list
        (install_images_visit ext dry_run kept img (pre ++ post) installed ret tr).ret
        (install_images_visit ext dry_run kept img (pre ++ post) installed ret tr).trace
      refine ⟨l1 ++ l2, ?_, ?_, ?_, ?_, ?_, ?_⟩
      · rw [p1, v1, List.append_assoc]
      · rw [hsplit, List.map_append]
        exact List.Sublist.append v2 p2
      · intro c hc
        rcases List.mem_append.mp hc with h | h
        · exact v3 c h
        · exact p3 c h
      · rw [p4, v4]
      · rw [p5, v5]
      · intro hnr
        obtain ⟨q1, q2⟩ := p6 hnr
        obtain ⟨w1, w2⟩ := v6 hv2
        refine ⟨fun h0 => q1 (w1 h0), ?_⟩
        intro i hi
        rcases q2 i hi with h | h
        · exact w2 i h
        · exact Or.inr h

/-! ## Lemmas on the stages before the image loop -/

theorem extract_scripts_loop_calls (ext : externals) :
    ∀ (list : List img_type) (tr : List event),
      script_calls (extract_scripts_loop ext list tr).trace = script_calls tr ∧
      image_calls (extract_scripts_loop ext list tr).trace = image_calls tr ∧
      apply_events (extract_scripts_loop ext list tr).trace = apply_events tr := by
  intro list
  induction list with
  | nil => intro tr; exact ⟨rfl, rfl, rfl⟩
  | cons script rest ih =>
    intro tr
    rw [extract_scripts_loop]
    simp only
    split_ifs
    · obtain ⟨h1, h2, h3⟩ := ih (tr ++
        [.TRACE "No script provided for script of type %s".toList [.str script.type]])
      refine ⟨?_, ?_, ?_⟩
      · rw [h1]; simp [script_calls, script_call, List.filterMap_append]
      · rw [h2]; simp [image_calls, image_call, List.filterMap_append]
      · rw [h3]; simp [apply_events, is_apply_event, List.filter_append]
    · simp [script_calls, script_call, image_calls, image_call, apply_events, is_apply_event,
        List.filterMap_append, List.filter_append]
    · simp [script_calls, script_call, image_calls, image_call, apply_events, is_apply_event,
        List.filterMap_append, List.filter_append]
    · simp [script_calls, script_call, image_calls, image_call, apply_events, is_apply_event,
        List.filterMap_append, List.filter_append]
    · simp [script_calls, script_call, image_calls, image_call, apply_events, is_apply_event,
        List.filterMap_append, List.filter_append]
    · simp [script_calls, script_call, image_calls, image_call, apply_events, is_apply_event,
        List.filterMap_append, List.filter_append]
    · obtain ⟨h1, h2, h3⟩ := ih (tr ++
          [.openfileoutput (snprintf script.extract_file ext.sizeof_extract_file
            (ext.tmpdir_scripts ++ script.fname)).1] ++
          [.open_rdonly (ext.tmpdir ++ script.fname)] ++
          [.copyfile (ext.tmpdir ++ script.fname)
            (snprintf script.extract_file ext.sizeof_extract_file
              (ext.tmpdir_scripts ++ script.fname)).1
            { script with extract_file := (snprintf script.extract_file ext.sizeof_extract_file
              (ext.tmpdir_scripts ++ script.fname)).1 },
           .close (ext.tmpdir ++ script.fname),
           .close (snprintf script.extract_file ext.sizeof_extract_file
            (ext.tmpdir_scripts ++ script.fname)).1])
      refine ⟨?_, ?_, ?_⟩
      · rw [h1]; simp [script_calls, script_call, List.filterMap_append]
      · rw [h2]; simp [image_calls, image_call, List.filterMap_append]
      · rw [h3]; simp [apply_events, is_apply_event, List.filter_append]

theorem after_extract_calls (ext : externals) (sw : swupdate_cfg) :
    script_calls (after_extract ext sw).trace = [] ∧
    image_calls (after_extract ext sw).trace = [] ∧
    apply_events (after_extract ext sw).trace = [] ∧
    (after_extract ext sw).sw.images = sw.images ∧
    (after_extract ext sw).sw.installed_sw_list = sw.installed_sw_list := by
  obtain ⟨h1, h2, h3⟩ := extract_scripts_loop_calls ext sw.scripts []
  exact ⟨h1, h2, h3, rfl, rfl⟩

theorem after_preinstall_calls (ext : externals) (sw : swupdate_cfg) :
    (∀ c ∈ script_calls (after_preinstall ext sw).trace, c.2.2 = .PREINSTALL) ∧
    (sw.dry_run = true → script_calls (after_preinstall ext sw).trace = []) ∧
    image_calls (after_preinstall ext sw).trace = [] ∧
    apply_events (after_preinstall ext sw).trace = [] ∧
    (after_preinstall ext sw).sw.images = sw.images ∧
    (after_preinstall ext sw).sw.installed_sw_list = sw.installed_sw_list := by
  obtain ⟨h1, h2, h3, h4, h5⟩ := after_extract_calls ext sw
  unfold after_preinstall
  cases hdry : sw.dry_run with
  | true =>
    simp only [Bool.not_true, Bool.false_eq_true, if_false]
    exact ⟨by rw [h1]; simp, fun _ => h1, h2, h3, h4, h5⟩
  | false =>
    simp only [Bool.not_false, if_true]
    obtain ⟨l, c1, _, c3, c4, c5⟩ := run_prepost_scripts_calls ext .PREINSTALL
      (after_extract ext sw).sw.scripts (after_extract ext sw).trace
    refine ⟨?_, ?_, ?_, ?_, h4, h5⟩
    · rw [c1, h1]
      intro c hc
      exact c3 c (by simpa using hc)
    · intro h
      cases h
    · rw [c4]; exact h2
    · rw [c5]; exact h3

/-- The pass of the image loop in which `install_single_image` fails. -/
theorem install_images_visit_failure (ext : externals) (dry_run : Bool) (kept : List img_type)
    (img : img_type) (rest : List img_type) (installed : List sw_version) (ret : Int)
    (tr : List event) (r : image_result)
    (hattempt : install_attempt ext dry_run img tr = some r) (hfail : r.ret ≠ 0) :
    img.install_directly = false ∧ is_duplicate_reference ext img = false ∧
    (install_images_visit ext dry_run kept img rest installed ret tr).returned = true ∧
    (install_images_visit ext dry_run kept img rest installed ret tr).ret = r.ret ∧
    (install_images_visit ext dry_run kept img rest installed ret tr).images =
      kept ++ r.img :: rest ∧
    (install_images_visit ext dry_run kept img rest installed ret tr).trace =
      r.trace ++ [.close (ext.tmpdir ++ img.fname)] := by
  rcases install_images_visit_cases ext dry_run kept img rest installed ret tr with
    ⟨hd, _⟩ | ⟨_, hn, _⟩ | ⟨_, _, hn, _⟩ | ⟨hd, hdup, r2, hr, hret, hreturned, hi, htr⟩
  · unfold install_attempt at hattempt
    rw [if_pos hd] at hattempt
    cases hattempt
  · rw [hn] at hattempt; cases hattempt
  · rw [hn] at hattempt; cases hattempt
  · rw [hr] at hattempt
    cases hattempt
    refine ⟨hd, hdup, ?_, hret, ?_, htr⟩
    · rw [hreturned]; simpa using hfail
    · rw [hi, if_pos hfail]

/-- C11: once script extraction and the preinstall scripts have succeeded, when
the image loop of `install_images` reaches the entry `img` without having
returned and `install_single_image` returns the non-zero value `r.ret` for it,
`install_images` returns exactly `r.ret`; its trace ends with that call and the
`close` of the staged file, so no handler is invoked for a later image and none
of the later stages runs (the script handlers called are all preinstall calls,
and there is no variable apply and no manifest event); the entries behind `img`
are left as they were; and the image handlers invoked are invoked in list order,
for entries up to `img` that are not installed from the stream. -/
theorem install_images_first_failure (ext : externals) (sw : swupdate_cfg)
    (pre : List img_type) (img : img_type) (post : List img_type) (r : image_result)
    (hextract : (after_extract ext sw).ret = 0)
    (hpre : (after_preinstall ext sw).ret = 0)
    (hlist : sw.images = pre ++ img :: post)
    (hreach : (images_before ext sw pre (img :: post)).returned = false)
    (hattempt : install_attempt ext sw.dry_run img
      (images_before ext sw pre (img :: post)).trace = some r)
    (hfail : r.ret ≠ 0) :
    (install_images ext sw).ret = r.ret ∧
    (install_images ext sw).trace = r.trace ++ [.close (ext.tmpdir ++ img.fname)] ∧
    (install_images ext sw).sw.images =
      (images_before ext sw pre (img :: post)).images ++ r.img :: post ∧
    ((image_calls (install_images ext sw).trace).map (fun c => c.2.fname)).Sublist
      (((pre ++ [img]).filter
        (fun i => !i.install_directly && !is_duplicate_reference ext i)).map
        (fun i => i.fname)) ∧
    (∀ c ∈ script_calls (install_images ext sw).trace, c.2.2 = .PREINSTALL) ∧
    apply_events (install_images ext sw).trace = [] := by
  obtain ⟨s1, _, s3, s4, s5, _⟩ := after_preinstall_calls ext sw
  obtain ⟨hd, hdup, v1, v2, v3, v4⟩ := install_images_visit_failure ext sw.dry_run
    (images_before ext sw pre (img :: post)).images img post
    (images_before ext sw pre (img :: post)).installed_sw_list
    (images_before ext sw pre (img :: post)).ret
    (images_before ext sw pre (img :: post)).trace r hattempt hfail
  have hloop : after_images ext sw =
      install_images_visit ext sw.dry_run (images_before ext sw pre (img :: post)).images img
        post (images_before ext sw pre (img :: post)).installed_sw_list
        (images_before ext sw pre (img :: post)).ret
        (images_before ext sw pre (img :: post)).trace := by
    unfold after_images
    simp only
    rw [s5, hlist, install_images_loop_append]
    have hreach2 : ¬ ((install_images_upto ext sw.dry_run pre (img :: post) []
        (after_preinstall ext sw).sw.installed_sw_list (after_preinstall ext sw).ret
        (after_preinstall ext sw).trace).returned = true) := by
      have h := hreach
      unfold images_before at h
      rw [h]
      exact Bool.false_ne_true
    rw [if_neg hreach2, install_images_loop_cons]
    exact if_pos v1
  have hrun : install_images ext sw =
      ⟨(after_images ext sw).ret, images_cfg ext sw, (after_images ext sw).trace⟩ := by
    unfold install_images
    have h1 : ¬ ((after_extract ext sw).ret ≠ 0) := fun h => h hextract
    have h2 : ¬ ((!sw.dry_run) = true ∧ (after_preinstall ext sw).ret ≠ 0) := fun h => h.2 hpre
    have h3 : (after_images ext sw).returned = true := by rw [hloop]; exact v1
    rw [if_neg h1, if_neg h2, if_pos h3]
  obtain ⟨l1, p1, p2, _, p4, p5, _⟩ := install_images_upto_calls ext sw.dry_run pre
    (img :: post) [] (after_preinstall ext sw).sw.installed_sw_list (after_preinstall ext sw).ret
    (after_preinstall ext sw).trace
  obtain ⟨a1, _, _, _, a5, a6, l, a7, a8⟩ := install_attempt_calls ext sw.dry_run img
    (images_before ext sw pre (img :: post)).trace r hattempt
  have htrace : (install_images ext sw).trace = r.trace ++ [.close (ext.tmpdir ++ img.fname)] := by
    rw [hrun]
    show (after_images ext sw).trace = _
    rw [hloop, v4]
  refine ⟨?_, htrace, ?_, ?_, ?_, ?_⟩
  · rw [hrun]
    show (after_images ext sw).ret = _
    rw [hloop, v2]
  · rw [hrun]
    show (after_images ext sw).images = _
    rw [hloop, v3]
  · have hcalls : image_calls (install_images ext sw).trace = l1 ++ l := by
      rw [htrace, image_calls_append, a7]
      unfold images_before
      rw [p1, s3, List.nil_append]
      exact List.append_nil _
    have hf : [img].filter (fun i => !i.install_directly && !is_duplicate_reference ext i) =
        [img] := by
      simp [hd, hdup]
    rw [hcalls, List.filter_append, hf, List.map_append, List.map_append]
    apply List.Sublist.append p2
    rcases a8 with h | ⟨hnd, h⟩
    · rw [h]; simp
    · rw [h]; simp [a1]
  · intro c hc
    rw [htrace, script_calls_append, a5] at hc
    unfold images_before at hc
    rw [p4] at hc
    have hc2 : script_calls [event.close (ext.tmpdir ++ img.fname)] = [] := rfl
    rw [hc2, List.append_nil] at hc
    exact s1 c hc
  · rw [htrace, apply_events_append, a6]
    unfold images_before
    rw [p5, s4]
    rfl

theorem install_images_first_failure_witness :
    (install_images ext_image_fails cfg_three_images).ret = 5 ∧
    ((install_images ext_image_fails cfg_three_images).trace.getLast?) =
      some (.close "/tmp/b.img".toList) :=
  have h := install_images_first_failure ext_image_fails cfg_three_images
    [mk_img "a.img".toList 0 false] (mk_img "b.img".toList 0 false)
    [mk_img "c.img".toList 0 false]
    (install_single_image ext_image_fails (mk_img "b.img".toList 0 false) false
      ((images_before ext_image_fails cfg_three_images [mk_img "a.img".toList 0 false]
        [mk_img "b.img".toList 0 false, mk_img "c.img".toList 0 false]).trace ++
        [.stat "/tmp/b.img".toList] ++ [.open_rdonly "/tmp/b.img".toList]))
    (by decide) (by decide) rfl (by decide) (by decide) (by decide)
  ⟨h.1, by rw [h.2.1]; simp; rfl⟩

/-- C18 as stated fails: of the two entries `a.img` and `b.img`, whose staging
path and destination path are both `/tmp/shared`, the image loop installs
neither: with every handler succeeding the only handler call is the one for
`c.img`, both entries are removed from the list, and the loop result is 0. -/
theorem install_images_drops_both_duplicates :
    (after_images ext_all_succeed cfg_two_duplicates).returned = false ∧
    (after_images ext_all_succeed cfg_two_duplicates).ret = 0 ∧
    (image_calls (after_images ext_all_succeed cfg_two_duplicates).trace).map
      (fun c => c.2.fname) = ["c.img".toList] ∧
    (after_images ext_all_succeed cfg_two_duplicates).images =
      [mk_staged "c.img".toList "/dev/mmcblk0p1".toList "/tmp/c.img".toList] ∧
    event.free_image (mk_staged "a.img".toList "/tmp/shared".toList "/tmp/shared".toList) ∈
      (after_images ext_all_succeed cfg_two_duplicates).trace ∧
    event.free_image (mk_staged "b.img".toList "/tmp/shared".toList "/tmp/shared".toList) ∈
      (after_images ext_all_succeed cfg_two_duplicates).trace := by
  decide

/-! ## Lemmas on the dry run -/

theorem check_loop_fits (buf : CStr) (cap : Nat) (pfdh : filehdr) (destdir : CStr)
    (hfit : destdir.length + pfdh.filename.length < cap) :
    ¬ ((snprintf buf cap (destdir ++ pfdh.filename)).2 ≥ cap) := by
  simp only [snprintf, List.length_append]
  omega

/-- With a stream request pending, the next image named like the incoming file
ends the loop with `AmbiguousStream` and leaves `*pimg` as it is. -/
theorem check_loop_ambiguous (cap : Nat) (pfdh : filehdr) (destdir : CStr)
    (hfit : destdir.length + pfdh.filename.length < cap) :
    ∀ (l : List img_type) (idx : Nat) (skip : Int) (d : Nat) (p : Option Nat),
      d ≠ 0 → (∃ a ∈ l, a.fname = pfdh.filename) →
      (∀ a ∈ l, a.fname = pfdh.filename → a.size = 0 ∨ a.size = to_uint pfdh.size) →
      (check_loop cap pfdh destdir l idx skip d p).ret = -EINVAL ∧
      (check_loop cap pfdh destdir l idx skip d p).err = some .AmbiguousStream ∧
      (check_loop cap pfdh destdir l idx skip d p).pimg = p := by
  intro l
  induction l with
  | nil => intro _ _ _ _ _ h; simp at h
  | cons a rest ih =>
    intro idx skip d p hd hex hsz
    rw [check_loop]
    by_cases hm : pfdh.filename = a.fname
    · have hs : ¬ (a.size ≠ 0 ∧ a.size ≠ to_uint pfdh.size) := by
        rintro ⟨h1, h2⟩
        rcases hsz a (List.mem_cons_self _ _) hm.symm with h | h
        · exact h1 h
        · exact h2 h
      simp only [if_pos hm, if_neg hs, if_neg (check_loop_fits _ cap pfdh destdir hfit),
        if_pos hd, and_self]
    · simp only [if_neg hm]
      obtain ⟨b, hb, hbm⟩ := hex
      rcases List.mem_cons.mp hb with rfl | hb
      · exact absurd hbm.symm hm
      · exact ih _ _ _ _ hd ⟨b, hb, hbm⟩
          (fun c hc => hsz c (List.mem_cons_of_mem _ hc))

/-- The passes over images of which none requests `install_directly`, without a
stream request pending, change nothing but `skip` and `*pimg` for the rest of
the loop. -/
theorem check_loop_plain_passes (cap : Nat) (pfdh : filehdr) (destdir : CStr)
    (hfit : destdir.length + pfdh.filename.length < cap) :
    ∀ (pre tail : List img_type) (idx : Nat) (skip : Int) (p : Option Nat),
      (∀ a ∈ pre, a.fname = pfdh.filename → a.install_directly = false) →
      (∀ a ∈ pre, a.fname = pfdh.filename → a.size = 0 ∨ a.size = to_uint pfdh.size) →
      ∃ skip1 p1,
        (check_loop cap pfdh destdir (pre ++ tail) idx skip 0 p).ret =
          (check_loop cap pfdh destdir tail (idx + pre.length) skip1 0 p1).ret ∧
        (check_loop cap pfdh destdir (pre ++ tail) idx skip 0 p).err =
          (check_loop cap pfdh destdir tail (idx + pre.length) skip1 0 p1).err ∧
        (check_loop cap pfdh destdir (pre ++ tail) idx skip 0 p).pimg =
          (check_loop cap pfdh destdir tail (idx + pre.length) skip1 0 p1).pimg := by
  intro pre
  induction pre with
  | nil =>
    intro tail idx skip p _ _
    exact ⟨skip, p, rfl, rfl, rfl⟩
  | cons a rest ih =>
    intro tail idx skip p hdir hsz
    have hlen : idx + (a :: rest).length = idx + 1 + rest.length := by
      rw [List.length_cons]; omega
    rw [List.cons_append, check_loop, hlen]
    by_cases hm : pfdh.filename = a.fname
    · have hs : ¬ (a.size ≠ 0 ∧ a.size ≠ to_uint pfdh.size) := by
        rintro ⟨h1, h2⟩
        rcases hsz a (List.mem_cons_self _ _) hm.symm with h | h
        · exact h1 h
        · exact h2 h
      have hnd : ¬ (a.install_directly = true) := by
        rw [hdir a (List.mem_cons_self _ _) hm.symm]; exact Bool.false_ne_true
      have h0 : ¬ ((0 : Nat) ≠ 0) := fun h => h rfl
      simp only [if_pos hm, if_neg hs, if_neg (check_loop_fits _ cap pfdh destdir hfit),
        if_neg h0, if_neg hnd]
      exact ih tail (idx + 1) COPY_FILE (some idx)
        (fun c hc => hdir c (List.mem_cons_of_mem _ hc))
        (fun c hc => hsz c (List.mem_cons_of_mem _ hc))
    · simp only [if_neg hm]
      exact ih tail (idx + 1) skip p
        (fun c hc => hdir c (List.mem_cons_of_mem _ hc))
        (fun c hc => hsz c (List.mem_cons_of_mem _ hc))

/-- C21 as stated fails: in the list `f` (streamed directly), `f` (not
streamed), exactly one of the images named like the incoming file requests
`install_directly`, no size is declared and the staging path fits, and
`check_if_required` returns `-EINVAL` with the diagnostic `AmbiguousStream`,
not `INSTALL_FROM_STREAM`; with the two images in the other order it returns
`INSTALL_FROM_STREAM`. -/
theorem check_if_required_stream_first_fails :
    [mk_img "f".toList 0 true, mk_img "f".toList 0 false].countP
      (fun img => decide (img.fname = "f".toList) && img.install_directly) = 1 ∧
    (check_if_required 256 [mk_img "f".toList 0 true, mk_img "f".toList 0 false]
      ⟨"f".toList, 100⟩ "/tmp/".toList none).ret = -EINVAL ∧
    (check_if_required 256 [mk_img "f".toList 0 true, mk_img "f".toList 0 false]
      ⟨"f".toList, 100⟩ "/tmp/".toList none).err = some .AmbiguousStream ∧
    (check_if_required 256 [mk_img "f".toList 0 true, mk_img "f".toList 0 false]
      ⟨"f".toList, 100⟩ "/tmp/".toList none).ret ≠ INSTALL_FROM_STREAM ∧
    (check_if_required 256 [mk_img "f".toList 0 false, mk_img "f".toList 0 true]
      ⟨"f".toList, 100⟩ "/tmp/".toList none).ret = INSTALL_FROM_STREAM := by
  decide

/-- C21, amended: let the image `d`, standing behind the images `pre` and
before the images `post`, be the only image named like the incoming file that
requests `install_directly`, with no size mismatch and a staging path that
fits. If no image of `post` is named like the incoming file, `check_if_required`
returns `INSTALL_FROM_STREAM` and `*pimg` is `d`, whatever matching images stand
in `pre`. If an image of `post` is named like the incoming file, it returns
`-EINVAL` with the diagnostic `AmbiguousStream`, and `*pimg` is `d`. -/
theorem check_if_required_stream_position (cap : Nat) (pre : List img_type) (d : img_type)
    (post : List img_type) (pfdh : filehdr) (destdir : CStr) (pimg : Option Nat)
    (hd : d.fname = pfdh.filename) (hdir : d.install_directly = true)
    (hone : ∀ a ∈ pre ++ post, a.fname = pfdh.filename → a.install_directly = false)
    (hsz : ∀ a ∈ pre ++ d :: post, a.fname = pfdh.filename →
      a.size = 0 ∨ a.size = to_uint pfdh.size)
    (hfit : destdir.length + pfdh.filename.length < cap) :
    ((∀ a ∈ post, a.fname ≠ pfdh.filename) →
      (check_if_required cap (pre ++ d :: post) pfdh destdir pimg).ret = INSTALL_FROM_STREAM ∧
      (check_if_required cap (pre ++ d :: post) pfdh destdir pimg).pimg = some pre.length ∧
      (check_if_required cap (pre ++ d :: post) pfdh destdir pimg).err = none) ∧
    ((∃ a ∈ post, a.fname = pfdh.filename) →
      (check_if_required cap (pre ++ d :: post) pfdh destdir pimg).ret = -EINVAL ∧
      (check_if_required cap (pre ++ d :: post) pfdh destdir pimg).err =
        some .AmbiguousStream ∧
      (check_if_required cap (pre ++ d :: post) pfdh destdir pimg).pimg = some pre.length) := by
  obtain ⟨skip1, p1, e1, e2, e3⟩ := check_loop_plain_passes cap pfdh destdir hfit pre
    (d :: post) 0 SKIP_FILE pimg
    (fun a ha => hone a (List.mem_append_left _ ha))
    (fun a ha => hsz a (List.mem_append_left _ ha))
  have hs : ¬ (d.size ≠ 0 ∧ d.size ≠ to_uint pfdh.size) := by
    rintro ⟨h1, h2⟩
    rcases hsz d (by simp) hd with h | h
    · exact h1 h
    · exact h2 h
  have h0 : ¬ ((0 : Nat) ≠ 0) := fun h => h rfl
  have hstep : ∀ skip p,
      (check_loop cap pfdh destdir (d :: post) (0 + pre.length) skip 0 p).ret =
        (check_loop cap pfdh destdir post (pre.length + 1) INSTALL_FROM_STREAM 1
          (some pre.length)).ret ∧
      (check_loop cap pfdh destdir (d :: post) (0 + pre.length) skip 0 p).err =
        (check_loop cap pfdh destdir post (pre.length + 1) INSTALL_FROM_STREAM 1
          (some pre.length)).err ∧
      (check_loop cap pfdh destdir (d :: post) (0 + pre.length) skip 0 p).pimg =
        (check_loop cap pfdh destdir post (pre.length + 1) INSTALL_FROM_STREAM 1
          (some pre.length)).pimg := by
    intro skip p
    rw [check_loop, Nat.zero_add]
    simp only [if_pos hd.symm, if_neg hs, if_neg (check_loop_fits _ cap pfdh destdir hfit),
      if_neg h0, hdir, if_true, and_self]
  obtain ⟨s1, s2, s3⟩ := hstep skip1 p1
  unfold check_if_required
  rw [e1, e2, e3, s1, s2, s3]
  constructor
  · intro hno
    rw [check_loop_nomatch cap pfdh destdir post _ _ _ _
      (fun a ha h => hno a ha h.symm)]
    exact ⟨rfl, rfl, rfl⟩
  · intro hex
    exact check_loop_ambiguous cap pfdh destdir hfit post _ _ 1 _ (by decide) hex
      (fun a ha => hsz a (List.mem_append_right _ (List.mem_cons_of_mem _ ha)))

/-- C21 amended, at a concrete input: the streamed image stands last. -/
theorem check_if_required_stream_position_witness :
    (check_if_required 256 ([mk_img "f".toList 0 false] ++ mk_img "f".toList 0 true :: [])
      ⟨"f".toList, 100⟩ "/tmp/".toList none).ret = INSTALL_FROM_STREAM ∧
    (check_if_required 256 ([mk_img "f".toList 0 false] ++ mk_img "f".toList 0 true :: [])
      ⟨"f".toList, 100⟩ "/tmp/".toList none).pimg = some 1 :=
  have h := (check_if_required_stream_position 256 [mk_img "f".toList 0 false]
    (mk_img "f".toList 0 true) [] ⟨"f".toList, 100⟩ "/tmp/".toList none rfl rfl
    (by decide) (by decide) (by decide)).1 (by decide)
  ⟨h.1, h.2.1⟩

/-! ## `find_root` with a depth budget of zero -/

theorem pre_decrement_zero : pre_decrement 0 = 4294967295 := by
  decide

theorem pre_decrement_one : pre_decrement 1 = 0 := by
  decide

theorem find_root_json_zero_lookups (sfp : List CStr → CStr → Bool × List CStr)
    (root : json_object) (nodes : List CStr) :
    1 ≤ (find_root_json sfp root nodes 0).lookups := by
  have h0 : ¬ (pre_decrement 0 = 0) := by decide
  rw [find_root_json_unfold, if_neg h0]
  simp only
  split_ifs
  · split
    · split_ifs
      · exact Nat.le_refl 1
      · exact Nat.le_add_left 1 _
    · exact Nat.le_refl 1
  · exact Nat.le_refl 1
  · exact Nat.le_refl 1

theorem find_root_json_zero_node (sfp : List CStr → CStr → Bool × List CStr)
    (root : json_object) (nodes : List CStr)
    (h : json_object_get_type (get_node_json root nodes) = .json_type_object ∨
        json_object_get_type (get_node_json root nodes) = .json_type_array →
      get_field_string_json (get_node_json root nodes) (some ref_field) = none) :
    (find_root_json sfp root nodes 0).node = get_node_json root nodes ∧
    (find_root_json sfp root nodes 0).lookups = 1 := by
  have h0 : ¬ (pre_decrement 0 = 0) := by decide
  rw [find_root_json_unfold, if_neg h0]
  simp only [get_node_json] at h ⊢
  split_ifs with h1 h2
  · rw [h h2]
    exact ⟨rfl, rfl⟩
  · exact ⟨rfl, rfl⟩
  · exact ⟨rfl, rfl⟩

theorem find_root_libconfig_zero_lookups (mstrcat : List CStr → CStr → Option CStr)
    (sfp : List CStr → CStr → Bool × List CStr) (cfg : config_t) (nodes : List CStr)
    (hm : mstrcat nodes ".".toList ≠ none) :
    1 ≤ (find_root_libconfig mstrcat sfp cfg nodes 0).lookups := by
  have h0 : ¬ (pre_decrement 0 = 0) := by decide
  rw [find_root_libconfig_unfold, if_neg h0]
  cases hp : mstrcat nodes ".".toList with
  | none => exact absurd hp hm
  | some p =>
    simp only
    cases hl : config_lookup cfg p with
    | none => exact Nat.le_refl 1
    | some elem =>
      simp only
      split_ifs
      · split
        · split_ifs
          · exact Nat.le_refl 1
          · exact Nat.le_add_left 1 _
        · exact Nat.le_refl 1
      · exact Nat.le_refl 1

theorem find_root_libconfig_zero_node (mstrcat : List CStr → CStr → Option CStr)
    (sfp : List CStr → CStr → Bool × List CStr) (cfg : config_t) (nodes : List CStr)
    (h : ∀ elem, get_node_libconfig mstrcat cfg nodes = some elem →
      config_setting_is_group elem = true →
      get_field_string_libconfig elem (some ref_field) = none) :
    (find_root_libconfig mstrcat sfp cfg nodes 0).node = get_node_libconfig mstrcat cfg nodes := by
  have h0 : ¬ (pre_decrement 0 = 0) := by decide
  rw [find_root_libconfig_unfold, if_neg h0]
  simp only [get_node_libconfig] at h ⊢
  cases hp : mstrcat nodes ".".toList with
  | none => rfl
  | some p =>
    rw [hp] at h
    simp only at h ⊢
    cases hl : config_lookup cfg p with
    | none => rfl
    | some elem =>
      simp only
      split_ifs with hg
      · rw [h elem hl hg]
      · rfl

/-- C22 as stated fails: called with `max_depth = 0` on a tree in which the path
`A` resolves to a node without a `ref` field, `find_root` resolves the path (one
lookup) and returns that node, not absent, in both backends: the decrement of
the unsigned counter 0 gives `2^32 - 1`, which is not zero. -/
theorem find_root_depth_zero_resolves :
    pre_decrement 0 = 4294967295 ∧
    (find_root_json set_find_path_model json_plain ["A".toList] 0).node =
      get_node_json json_plain ["A".toList] ∧
    (get_node_json json_plain ["A".toList]).is_set = true ∧
    (find_root_json set_find_path_model json_plain ["A".toList] 0).lookups = 1 ∧
    (find_root_libconfig mstrcat_model set_find_path_model cfg_plain ["A".toList] 0).node =
      get_node_libconfig mstrcat_model cfg_plain ["A".toList] ∧
    (get_node_libconfig mstrcat_model cfg_plain ["A".toList]).isSome = true ∧
    1 ≤ (find_root_libconfig mstrcat_model set_find_path_model cfg_plain
      ["A".toList] 0).lookups := by
  have hj := find_root_json_zero_node set_find_path_model json_plain ["A".toList] (by decide)
  refine ⟨by decide, hj.1, by decide, hj.2, ?_, by decide, ?_⟩
  · apply find_root_libconfig_zero_node
    intro elem he _
    have he2 : elem = .group (some "A".toList) [.int (some "x".toList) 1] := by
      have hd : get_node_libconfig mstrcat_model cfg_plain ["A".toList] =
          some (.group (some "A".toList) [.int (some "x".toList) 1]) := rfl
      rw [hd] at he
      exact (Option.some.inj he).symm
    rw [he2]
    decide
  · exact find_root_libconfig_zero_lookups _ _ _ _ (by decide)

/-- C22, amended: for both backends, every tree and every path, `find_root`
called with `max_depth = 1` returns absent without performing any path
resolution. Called with `max_depth = 0`, the decrement of the unsigned 32-bit
counter wraps to `2^32 - 1`, which is not zero, so `find_root` does resolve the
path (the JSON backend always, the libconfig backend whenever `mstrcat` joins
the path) and returns what `get_node` returns for the path when the node it
resolves to is not a container holding a string field `ref`. -/
theorem find_root_depth_zero (mstrcat : List CStr → CStr → Option CStr)
    (sfp : List CStr → CStr → Bool × List CStr) (root : json_object) (cfg : config_t)
    (nodes : List CStr) :
    ((find_root_json sfp root nodes 1).node = .null ∧
      (find_root_json sfp root nodes 1).lookups = 0) ∧
    ((find_root_libconfig mstrcat sfp cfg nodes 1).node = none ∧
      (find_root_libconfig mstrcat sfp cfg nodes 1).lookups = 0) ∧
    1 ≤ (find_root_json sfp root nodes 0).lookups ∧
    (mstrcat nodes ".".toList ≠ none →
      1 ≤ (find_root_libconfig mstrcat sfp cfg nodes 0).lookups) ∧
    ((json_object_get_type (get_node_json root nodes) = .json_type_object ∨
        json_object_get_type (get_node_json root nodes) = .json_type_array →
        get_field_string_json (get_node_json root nodes) (some ref_field) = none) →
      (find_root_json sfp root nodes 0).node = get_node_json root nodes) ∧
    ((∀ elem, get_node_libconfig mstrcat cfg nodes = some elem →
        config_setting_is_group elem = true →
        get_field_string_libconfig elem (some ref_field) = none) →
      (find_root_libconfig mstrcat sfp cfg nodes 0).node =
        get_node_libconfig mstrcat cfg nodes) := by
  have h1 : pre_decrement 1 = 0 := pre_decrement_one
  refine ⟨?_, ?_, find_root_json_zero_lookups sfp root nodes,
    find_root_libconfig_zero_lookups mstrcat sfp cfg nodes,
    fun h => (find_root_json_zero_node sfp root nodes h).1,
    find_root_libconfig_zero_node mstrcat sfp cfg nodes⟩
  · rw [find_root_json_unfold, if_pos h1]
    exact ⟨rfl, rfl⟩
  · rw [find_root_libconfig_unfold, if_pos h1]
    exact ⟨rfl, rfl⟩

/-- C22 amended, at a concrete input: the plain node `A`. -/
theorem find_root_depth_zero_witness :
    (find_root_libconfig mstrcat_model set_find_path_model cfg_plain ["A".toList] 1).node =
      none ∧
    1 ≤ (find_root_libconfig mstrcat_model set_find_path_model cfg_plain
      ["A".toList] 0).lookups ∧
    (find_root_json set_find_path_model json_plain ["A".toList] 0).node =
      get_node_json json_plain ["A".toList] :=
  have h := find_root_depth_zero mstrcat_model set_find_path_model json_plain cfg_plain
    ["A".toList]
  ⟨h.2.1.1, h.2.2.2.1 (by decide), h.2.2.2.2.1 (by decide)⟩

/-! ## The result of `install_images` from the version manifest on -/

/-- A call of `install_single_image` that returns 0 has found a handler and
invoked it: without a handler the result is -1. -/
theorem install_single_image_called (ext : externals) (img : img_type) (dry_run : Bool)
    (tr : List event) (h : (install_single_image ext img dry_run tr).ret = 0) :
    ∃ hnd, image_calls (install_single_image ext img dry_run tr).trace =
      image_calls tr ++ [(hnd, (install_single_image ext img dry_run tr).img)] := by
  obtain ⟨h1, _, _, h4⟩ := install_single_image_calls ext img dry_run tr
  cases hh : ext.find_handler tr
      (if dry_run then { img with type := "dummy".toList } else img) with
  | none =>
    exfalso
    unfold install_single_image at h
    simp only [hh] at h
    exact absurd h (by decide)
  | some hnd =>
    refine ⟨hnd, ?_⟩
    rw [h4, h1]
    simp only [hh]

/-- A pass of the image loop after which the function has not returned: the
entry is kept when it is installed from the stream, dropped without a handler
call when it is a duplicate reference, and otherwise handed to its handler
exactly once and kept. -/
theorem install_images_visit_exact (ext : externals) (dry_run : Bool) (kept : List img_type)
    (img : img_type) (rest : List img_type) (installed : List sw_version) (ret : Int)
    (tr : List event)
    (hrun : (install_images_visit ext dry_run kept img rest installed ret tr).returned = false) :
    (image_calls (install_images_visit ext dry_run kept img rest installed ret tr).trace).map
        (fun c => c.2.fname) =
      (image_calls tr).map (fun c => c.2.fname) ++
        ([img].filter (fun i => !i.install_directly && !is_duplicate_reference ext i)).map
          (fun i => i.fname) ∧
    (install_images_visit ext dry_run kept img rest installed ret tr).images.map
        (fun i => i.fname) =
      kept.map (fun i => i.fname) ++
        ([img].filter (fun i => i.install_directly || !is_duplicate_reference ext i)).map
          (fun i => i.fname) := by
  rcases install_images_visit_cases ext dry_run kept img rest installed ret tr with
    ⟨hd, hv⟩ | ⟨_, _, hret, _⟩ | ⟨hd, hdup, _, _, _, hi, c1, _, _⟩ |
    ⟨hd, hdup, r, hr, hret, hreturned, hi, htr⟩
  · rw [hv]
    simp [hd]
  · rw [hret] at hrun
    cases hrun
  · rw [c1, hi]
    simp [hd, hdup]
  · rw [hreturned] at hrun
    have hz : r.ret = 0 := by simpa using hrun
    obtain ⟨st_size, hst⟩ := install_attempt_some ext dry_run img tr r hr
    obtain ⟨a1, _, _, _, _, _, _, _, _⟩ := install_attempt_calls ext dry_run img tr r hr
    have hz2 := hz
    rw [hst] at hz2
    obtain ⟨hnd, hc⟩ := install_single_image_called ext _ dry_run _ hz2
    rw [← hst] at hc
    have hne : ¬ (r.ret ≠ 0) := fun h => h hz
    rw [htr, hi, if_neg hne, image_calls_append, hc]
    simp [hd, hdup, a1, image_calls, image_call, List.filterMap_append]

/-- The passes over the entries `pre` when the function has not returned in
them: the handlers invoked are exactly those of the entries that are neither
installed from the stream nor duplicate references, once each and in list
order, and the entries left in the list are exactly those that are installed
from the stream or are no duplicate references. -/
theorem install_images_upto_exact (ext : externals) (dry_run : Bool) :
    ∀ (pre post kept : List img_type) (installed : List sw_version) (ret : Int)
      (tr : List event),
      (install_images_upto ext dry_run pre post kept installed ret tr).returned = false →
      (image_calls (install_images_upto ext dry_run pre post kept installed ret tr).trace).map
          (fun c => c.2.fname) =
        (image_calls tr).map (fun c => c.2.fname) ++
          (pre.filter (fun i => !i.install_directly && !is_duplicate_reference ext i)).map
            (fun i => i.fname) ∧
      (install_images_upto ext dry_run pre post kept installed ret tr).images.map
          (fun i => i.fname) =
        kept.map (fun i => i.fname) ++
          (pre.filter (fun i => i.install_directly || !is_duplicate_reference ext i)).map
            (fun i => i.fname) := by
  intro pre
  induction pre with
  | nil =>
    intro post kept installed ret tr _
    simp [install_images_upto]
  | cons img pre ih =>
    intro post kept installed ret tr
    rw [install_images_upto]
    by_cases hv : (install_images_visit ext dry_run kept img (pre ++ post) installed ret
        tr).returned = true
    · rw [if_pos hv]
      intro h
      rw [hv] at h
      cases h
    · rw [if_neg hv]
      intro hrun
      have hv2 : (install_images_visit ext dry_run kept img (pre ++ post) installed ret
          tr).returned = false := by simpa using hv
      obtain ⟨v1, v2⟩ := install_images_visit_exact ext dry_run kept img (pre ++ post)
        installed ret tr hv2
      obtain ⟨p1, p2⟩ := ih post _ _ _ _ hrun
      constructor
      · rw [p1, v1, List.append_assoc, ← List.map_append, ← List.filter_append]
        rfl
      · rw [p2, v2, List.append_assoc, ← List.map_append, ← List.filter_append]
        rfl

/-- C18, amended: when the preinstall stage has succeeded and the image loop of
`install_images` runs to its end, the loop result is 0; the handlers invoked are
exactly those of the entries that are neither installed from the stream nor
duplicate references (non-empty destination path identical to the staging
path), once each and in list order; and the entries left in the image list are
exactly those that are installed from the stream or are no duplicate
references, in list order. So the handler is invoked for no duplicate reference
and none that the loop visits (none that is not installed from the stream) is
left in the list: of two such entries neither is installed and both are
removed. -/
theorem install_images_duplicates_dropped (ext : externals) (sw : swupdate_cfg)
    (hpre : (after_preinstall ext sw).ret = 0)
    (hrun : (after_images ext sw).returned = false) :
    (after_images ext sw).ret = 0 ∧
    (image_calls (after_images ext sw).trace).map (fun c => c.2.fname) =
      (sw.images.filter
        (fun i => !i.install_directly && !is_duplicate_reference ext i)).map
        (fun i => i.fname) ∧
    (after_images ext sw).images.map (fun i => i.fname) =
      (sw.images.filter
        (fun i => i.install_directly || !is_duplicate_reference ext i)).map
        (fun i => i.fname) ∧
    (∀ c ∈ image_calls (after_images ext sw).trace,
      c.2.install_directly = false ∧ is_duplicate_reference ext c.2 = false) ∧
    (∀ i ∈ (after_images ext sw).images,
      i.install_directly = true ∨ is_duplicate_reference ext i = false) := by
  obtain ⟨_, _, s3, _, s5, _⟩ := after_preinstall_calls ext sw
  have hloop : after_images ext sw =
      install_images_upto ext sw.dry_run sw.images [] []
        (after_preinstall ext sw).sw.installed_sw_list (after_preinstall ext sw).ret
        (after_preinstall ext sw).trace := by
    unfold after_images
    simp only
    rw [s5, install_images_loop_eq_upto]
  obtain ⟨l, p1, _, p3, _, _, p6⟩ := install_images_upto_calls ext sw.dry_run sw.images []
    [] (after_preinstall ext sw).sw.installed_sw_list (after_preinstall ext sw).ret
    (after_preinstall ext sw).trace
  rw [← hloop] at p1 p6
  rw [s3, List.nil_append] at p1
  obtain ⟨q1, q2⟩ := p6 hrun
  have hrun2 := hrun
  rw [hloop] at hrun2
  obtain ⟨e1, e2⟩ := install_images_upto_exact ext sw.dry_run sw.images [] []
    (after_preinstall ext sw).sw.installed_sw_list (after_preinstall ext sw).ret
    (after_preinstall ext sw).trace hrun2
  rw [← hloop] at e1 e2
  rw [s3] at e1
  refine ⟨q1 hpre, ?_, ?_, ?_, ?_⟩
  · rw [e1]; rfl
  · rw [e2]; rfl
  · intro c hc
    rw [p1] at hc
    exact ⟨(p3 c hc).1, (p3 c hc).2.1⟩
  · intro i hi
    rcases q2 i hi with h | h
    · cases h
    · exact h

/-- C18 amended, at a concrete input: the two duplicate references `a.img` and
`b.img` are dropped, the handler is invoked for `c.img` only. -/
theorem install_images_duplicates_dropped_witness :
    (after_images ext_all_succeed cfg_two_duplicates).ret = 0 ∧
    (image_calls (after_images ext_all_succeed cfg_two_duplicates).trace).map
      (fun c => c.2.fname) = ["c.img".toList] ∧
    (after_images ext_all_succeed cfg_two_duplicates).images.map (fun i => i.fname) =
      ["c.img".toList] :=
  have h := install_images_duplicates_dropped ext_all_succeed cfg_two_duplicates
    (by decide) (by decide)
  ⟨h.1, h.2.1.trans (by decide), h.2.2.1.trans (by decide)⟩

/-! ## Lemmas on `cleanup_files` -/

end Installer
